import Mathlib

/-!
# PlottingFramework: data resolution and extraction core

A shallow embedding of `src/src/PlotManager.cxx` (class `PlotManager`), of the parts of
`src/src/Plot.cxx` that it uses (constructors of `Plot`, `SetAxisTitle`) and of the
unique-name scheme of `src/Plot.h`.

Conventions of the embedding

* `std::string` is `String`; `std::vector<T>` is `List T`; `std::set` and `std::map`
  are lists kept in key order by an ordered insertion. A character of a `String` stands
  for one `char`: positions and sizes count characters, so names are taken to consist of
  single-byte characters.
* ROOT objects (`TObject` and its subclasses) are values of the inductive type `TObj`.
  A `TDirectoryFile`/`TFile` owns a list of keys (`GetListOfKeys`) and a list of
  in-memory objects; a `TCollection` (`TList`, `TObjArray`) owns a list of objects;
  every other object is a named leaf that carries a payload standing for its content.
* `TKey::ReadObj` yields the object stored under the key; names passed to ROOT as
  `const char*` are assumed free of embedded NUL characters.
* `int32_t` values are integers obtained from sizes by the explicit narrowing `toInt32`.
* Objects are values. Destroying an object (`delete`) and ROOT's ownership bookkeeping
  (`SetOwner`, `SetDirectory(0)`) do not change a value; what the code removes or
  destroys is recorded where it matters: the items left in a collection, the depths of
  the nodes destroyed by `FindSubDirectory`, and the flag `folderAlive` of the entry
  folder. Using the entry folder after its destruction is undefined behaviour and has
  the result `undefined`.
* A moved-from `std::string` is empty, as `ReadDataFromFiles` assumes when it erases
  the empty strings left after moving (`PlotManager.cxx:680-682`).
* What lies outside the sources is a parameter of the function that uses it: the files
  (`fs`), the painter, the double clicks that the event loop receives, the content of a
  graph read from a table, `std::regex_match`, `read_xml` and the constructors of the
  contents of a pad from a property tree.
* The logging macros print a line and execution goes on; the lines of the manager are
  collected in the field `log`, the files written by `TCanvas::SaveAs` in `savedFiles`.
* A function that can leave by an exception or run into undefined behaviour has an
  outcome for it (`none`, `threw`, `undefined`).
-/

namespace PlottingFramework

/-! ## Strings -/

/-- Modelled from the spec: the reserved separator `gNameGroupSeparator` between a
dataset name and its input identifier, a constant declared outside the given sources;
its value is the literal used by `Histogram::GetUniqueName` (`src/Plot.h:54`). -/
def gNameGroupSeparator : String := "_@_"

/-- Substring test on character lists: `s.find(pat) != npos`. -/
def hasSub (pat : List Char) : List Char → Bool
  | [] => pat.isEmpty
  | c :: cs => pat.isPrefixOf (c :: cs) || hasSub pat cs

/-- The test `s.find(pat) != string::npos`. -/
def containsStr (s pat : String) : Bool := hasSub pat.data s.data

/-- Characters in front of the last `/` of a name, `none` when there is no `/`
(`name.substr(0, name.find_last_of("/"))` guarded by `pathPos != npos`). -/
def beforeLastSlash : List Char → Option (List Char)
  | [] => none
  | c :: cs =>
    match beforeLastSlash cs with
    | some p => some (c :: p)
    | none => if c = '/' then some [] else none

/-- The sub-specification of a dataset name: the path in front of its last `/`,
empty when the name has no `/` (`PlotManager.cxx:593-597`, `650-654`, `764-768`). -/
def subSpecOf (dataName : String) : String :=
  match beforeLastSlash dataName.data with
  | some p => String.mk p
  | none => ""

/-- Tokens read by repeated `std::getline(stream, token, delim)`: the pieces between
delimiters, without a trailing empty piece. -/
def getlineTokens (delim : Char) : List Char → List (List Char)
  | [] => []
  | c :: cs =>
    if c = delim then [] :: getlineTokens delim cs
    else
      match getlineTokens delim cs with
      | [] => [[c]]
      | t :: ts => (c :: t) :: ts

/-- Helper `splitString` and the inlined `getline` loops of `PlotManager.cxx`
(`550-559`, `606-611`, `625-630`, `663-668`). -/
def splitString (argString : String) (deliminator : Char) : List String :=
  (getlineTokens deliminator argString.data).map String.mk

/-- Index of the first occurrence of `pat` in a character list (`s.find(pat)`),
`none` for `npos`. -/
def findSub (pat : List Char) : List Char → Option Nat
  | [] => if pat.isEmpty then some 0 else none
  | c :: cs =>
    if pat.isPrefixOf (c :: cs) then some 0
    else (findSub pat cs).map (· + 1)

/-! ## Name register -/

/-- Narrowing of a container size to `int32_t`: sizes below `2^31` keep their value,
larger ones wrap modulo `2^32` into the signed range. -/
def toInt32 (n : Nat) : Int :=
  if n < 2 ^ 31 then (n : Int) else ((n : Int) + 2 ^ 31) % 2 ^ 32 - 2 ^ 31

/-- Modelled from the spec: the member `mNameRegister` (declared outside the given
sources), a `std::map` from names to `int32_t` ids, as the list of its entries in key
order. -/
abbrev NameRegister := List (String × Int)

/-- Insertion of `name ↦ v` into the key-ordered entry list (`operator[]` followed by
assignment); keys are ordered as `std::string`, character by character. -/
def mapInsert (name : String) (v : Int) : NameRegister → NameRegister
  | [] => [(name, v)]
  | (k, w) :: rest =>
    if name.data < k.data then (name, v) :: (k, w) :: rest
    else if name = k then (k, v) :: rest
    else (k, w) :: mapInsert name v rest

/-- `PlotManager::GetNameRegisterID` (`PlotManager.cxx:428-435`): the id and the
register after the call. In `mNameRegister[name] = mNameRegister.size()` the right
operand is evaluated first, so the stored id is the size before the insertion. -/
def GetNameRegisterID (reg : NameRegister) (name : String) : Int × NameRegister :=
  match reg.lookup name with
  | some v => (v, reg)
  | none =>
    let reg2 := mapInsert name (toInt32 reg.length) reg
    ((reg2.lookup name).getD 0, reg2)

/-- `PlotManager::GetNameRegisterName` (`PlotManager.cxx:442-448`): the first entry in
key order holding `nameID`, and the member `mOutputDirectory` when there is none. -/
def GetNameRegisterName (reg : NameRegister) (mOutputDirectory : String) (nameID : Int) :
    String :=
  match reg.find? (fun e => e.2 == nameID) with
  | some e => e.1
  | none => mOutputDirectory

/-- Register states that arise from the empty register by calls of
`GetNameRegisterID`, the only writer of `mNameRegister`. -/
inductive RegisterReachable : NameRegister → Prop
  | init : RegisterReachable []
  | call (reg : NameRegister) (name : String) :
      RegisterReachable reg → RegisterReachable (GetNameRegisterID reg name).2

/-- Invariant of the register: ids are the numbers below the size, each used once. -/
def RegisterInv (reg : NameRegister) : Prop :=
  (∀ e ∈ reg, 0 ≤ e.2 ∧ e.2 < (reg.length : Int)) ∧ (reg.map Prod.snd).Nodup

/-! ## Unique names -/

/-- `Plot::Histogram::GetUniqueName` (`src/Plot.h:54`) and the unique data name built
in `PlotManager::CreatePlots` (`PlotManager.cxx:404`). -/
def GetUniqueName (name inputIdentifier : String) : String :=
  name ++ gNameGroupSeparator ++ inputIdentifier

/-- A string contains the separator as a substring. -/
def containsSeparator (s : String) : Bool := containsStr s gNameGroupSeparator

/-- A string ends in the two characters `_@`, the separator without its last
character. -/
def endsWithSepHead (s : String) : Bool := ['_', '@'].isSuffixOf s.data

/-! ## ROOT objects -/

mutual
/-- A ROOT object: a named leaf (histogram, graph, ...) with a payload standing for its
content, a `TCollection` with its items, or a `TDirectoryFile` (a `TFile` when `isFile`)
with its list of keys and its list of in-memory objects. -/
inductive TObj where
  | leaf (name : String) (payload : Nat)
  | coll (name : String) (items : List TObj)
  | dir (name : String) (isFile : Bool) (keys : List TKey) (objs : List TObj)
/-- A `TKey` of a directory: key name, class name of the stored object, and the object
that `ReadObj` yields. -/
inductive TKey where
  | mk (name className : String) (obj : TObj)
end

/-- `TNamed::GetName`. -/
def TObj.GetName : TObj → String
  | .leaf name _ => name
  | .coll name _ => name
  | .dir name _ _ _ => name

/-- `TNamed::SetName`. -/
def TObj.SetName : TObj → String → TObj
  | .leaf _ payload, n => .leaf n payload
  | .coll _ items, n => .coll n items
  | .dir _ isFile keys objs, n => .dir n isFile keys objs

/-- `InheritsFrom("TDirectory")`. -/
def TObj.isDirectory : TObj → Bool
  | .dir _ _ _ _ => true
  | _ => false

/-- `InheritsFrom("TCollection")`. -/
def TObj.isCollection : TObj → Bool
  | .coll _ _ => true
  | _ => false

/-- `InheritsFrom("TFile")`. -/
def TObj.isTFile : TObj → Bool
  | .dir _ isFile _ _ => isFile
  | _ => false

/-- `TKey::GetName`. -/
def TKey.GetName : TKey → String
  | .mk name _ _ => name

/-- `TKey::GetClassName`. -/
def TKey.GetClassName : TKey → String
  | .mk _ className _ => className

/-- `TKey::ReadObj`. -/
def TKey.ReadObj : TKey → TObj
  | .mk _ _ obj => obj

/-- `TDirectory::FindKey`: the key with the given name. -/
def FindKey (keys : List TKey) (name : String) : Option TKey :=
  keys.find? (fun k => k.GetName == name)

/-- `TCollection::FindObject` and `TObjArray::FindObject` by name: the first object
with that name. -/
def FindObject (objs : List TObj) (name : String) : Option TObj :=
  objs.find? (fun o => o.GetName == name)

/-! ## Locating a sub-directory -/

/-- Result of `FindSubDirectory`: the node returned (`none` for `nullptr`) and the
nodes the call destroyed, each given by its depth on the descended path (depth `0` is
the node handed in by the caller). -/
structure FindResult where
  node : Option TObj
  deleted : List Nat

/-- `PlotManager::FindSubDirectory` (`PlotManager.cxx:705-746`) for a node at the given
depth of the path. The flag `deleteFolder` starts as true, is cleared for a `TFile` and
in the directory branch, and decides whether the node is destroyed before the descent.
In the collection branch the child found is removed from the collection (which is then
destroyed); the call `SetOwner` on the child is taken to have no effect on its value,
also for a child that is not a collection, where the code calls it through a pointer
cast to `TCollection` (`PlotManager.cxx:735`). -/
def FindSubDirectoryAt (depth : Nat) : Option TObj → List String → FindResult
  | none, _ => ⟨none, []⟩
  | some folder, [] =>
    if folder.isDirectory || folder.isCollection then ⟨some folder, []⟩ else ⟨none, []⟩
  | some folder, seg :: rest =>
    let deleteFolder0 := if folder.isTFile then false else true
    let subFolder : Option TObj :=
      match folder with
      | .dir _ _ keys objs =>
        match FindKey keys seg with
        | some key => some key.ReadObj
        | none => FindObject objs seg
      | .coll _ items => FindObject items seg
      | .leaf _ _ => none
    let deleteFolder := if folder.isDirectory then false else deleteFolder0
    let deletedHere := if deleteFolder then [depth] else []
    match subFolder with
    | none => ⟨none, deletedHere⟩
    | some sub =>
      let r := FindSubDirectoryAt (depth + 1) (some sub) rest
      ⟨r.node, deletedHere ++ r.deleted⟩

/-- `PlotManager::FindSubDirectory` called by a client. -/
def FindSubDirectory (folder : Option TObj) (subDirs : List String) : FindResult :=
  FindSubDirectoryAt 0 folder subDirs

/-- Reference: the named child of a node. In a directory the key with that name takes
precedence over an in-memory object of that name; a leaf has no children. -/
def namedChild : TObj → String → Option TObj
  | .dir _ _ keys objs, seg =>
    match keys.find? (fun k => k.GetName == seg) with
    | some key => some key.ReadObj
    | none => objs.find? (fun o => o.GetName == seg)
  | .coll _ items, seg => items.find? (fun o => o.GetName == seg)
  | .leaf _ _, _ => none

/-- Reference: the node reached from `root` by following the segments as named
children, `none` when some segment has no such child. -/
def walkPath (root : TObj) : List String → Option TObj
  | [] => some root
  | seg :: rest =>
    match namedChild root seg with
    | none => none
    | some child => walkPath child rest

/-- Reference path resolution of the specification: the node reached by the segments,
provided it is a traversable container (directory or collection). -/
def resolvePath (root : TObj) (segments : List String) : Option TObj :=
  match walkPath root segments with
  | none => none
  | some node => if node.isDirectory || node.isCollection then some node else none

/-! ## Recursive extraction -/

/-- The request arrays and the output array that `ReadData` works on. -/
structure ReadState where
  dataNames : List String
  newDataNames : List String
  outputDataArray : List TObj

/-- The statement `if(subSpec != "") subSpec = subSpec + "/"` (`PlotManager.cxx:769`). -/
def withSlash (subSpec : String) : String :=
  if subSpec != "" then subSpec ++ "/" else subSpec

/-- The sub-specification that `ReadData` prepends to entry names: the path of the first
pending name followed by `/`, or nothing (`PlotManager.cxx:763-769`). -/
def readSubSpec (dataNames : List String) : String :=
  withSlash (subSpecOf (dataNames.headD ""))

/-- The leaf branch of the `ReadData` loop (`PlotManager.cxx:816-831`): when the
qualified name is pending, the object is renamed, its request is erased from both arrays
and the object is appended to the output array. -/
def matchLeaf (subSpec : String) (obj : TObj) (st : ReadState) : ReadState :=
  let wanted := subSpec ++ obj.GetName
  if wanted ∈ st.dataNames then
    let vectorIndex := st.dataNames.indexOf wanted
    if !st.newDataNames.isEmpty then
      let newName := st.newDataNames.getD vectorIndex ""
      { dataNames := st.dataNames.erase wanted
        newDataNames := st.newDataNames.erase newName
        outputDataArray := st.outputDataArray ++ [obj.SetName newName] }
    else
      { dataNames := st.dataNames.erase wanted
        newDataNames := st.newDataNames
        outputDataArray := st.outputDataArray ++ [obj] }
  else st

/-- The test on a key's class name that decides whether the key is read regardless of
its name (`PlotManager.cxx:801`). -/
def isTraversableClass (className : String) : Bool :=
  containsStr className "TDirectory" || containsStr className "TList" ||
    containsStr className "TObjArray"

mutual
/-- `PlotManager::ReadData` (`PlotManager.cxx:753-847`): the folder after the call and
the updated request arrays and output array. Keys stay in the list of keys of a
directory; every entry of a collection that the loop visits is removed from it. -/
def ReadData (folder : TObj) (st : ReadState) : TObj × ReadState :=
  match folder with
  | .dir name isFile keys objs =>
    if st.dataNames.isEmpty then (.dir name isFile keys objs, st)
    else if !st.newDataNames.isEmpty && st.newDataNames.length != st.dataNames.length then
      (.dir name isFile keys objs, st)
    else (.dir name isFile keys objs, readKeys (readSubSpec st.dataNames) keys st)
  | .coll name items =>
    if st.dataNames.isEmpty then (.coll name items, st)
    else if !st.newDataNames.isEmpty && st.newDataNames.length != st.dataNames.length then
      (.coll name items, st)
    else
      let r := readItems (readSubSpec st.dataNames) items st
      (.coll name r.1, r.2)
  | .leaf name payload => (.leaf name payload, st)
/-- The loop of `ReadData` over the keys of a directory. -/
def readKeys (subSpec : String) : List TKey → ReadState → ReadState
  | [], st => st
  | .mk keyName className obj :: rest, st =>
    if isTraversableClass className || (subSpec ++ keyName) ∈ st.dataNames then
      let st2 :=
        if obj.isDirectory || obj.isCollection then (ReadData obj st).2
        else matchLeaf subSpec obj st
      if st2.dataNames.isEmpty then st2 else readKeys subSpec rest st2
    else readKeys subSpec rest st
/-- The loop of `ReadData` over the items of a collection; the first component is the
list of items left in the collection. -/
def readItems (subSpec : String) : List TObj → ReadState → List TObj × ReadState
  | [], st => ([], st)
  | obj :: rest, st =>
    let st2 :=
      if obj.isDirectory || obj.isCollection then (ReadData obj st).2
      else matchLeaf subSpec obj st
    if st2.dataNames.isEmpty then (rest, st2) else readItems subSpec rest st2
end

/-- One pass of the loop body of `ReadData` for a materialized object: recursion into
a directory or collection, the leaf branch otherwise (`PlotManager.cxx:812-832`). -/
def readStep (subSpec : String) (obj : TObj) (st : ReadState) : ReadState :=
  if obj.isDirectory || obj.isCollection then (ReadData obj st).2
  else matchLeaf subSpec obj st

/-- The entry tests of `ReadData` that end the call at once: nothing is requested, or
the array of new names has the wrong size (`PlotManager.cxx:755-761`). -/
def readGuard (st : ReadState) : Bool :=
  st.dataNames.isEmpty ||
    (!st.newDataNames.isEmpty && st.newDataNames.length != st.dataNames.length)

/-- Parallel request arrays: as many new names as names, the names pairwise distinct
and the new names pairwise distinct (the arrays `CreatePlots` builds from a set of
names of one source). -/
def Paired (st : ReadState) : Prop :=
  st.dataNames.length = st.newDataNames.length ∧ st.dataNames.Nodup ∧ st.newDataNames.Nodup

/-- Relation between the state before and after a run of `ReadData`: objects were only
appended to the output array, the remaining requests are the former requests with some
pairs deleted, and the names of the appended objects together with the remaining new
names are the former new names. -/
def ReadRel (st st2 : ReadState) : Prop :=
  ∃ added : List TObj, st2.outputDataArray = st.outputDataArray ++ added ∧
    st2.dataNames.length = st2.newDataNames.length ∧
    (st2.dataNames.zip st2.newDataNames).Sublist (st.dataNames.zip st.newDataNames) ∧
    (added.map TObj.GetName ++ st2.newDataNames).Perm st.newDataNames ∧
    ∀ a ∈ added, (a.isDirectory || a.isCollection) = false

mutual
/-- Names of the leaves that `ReadData` can reach in an object, at any depth: through
the items of collections and the keys of directories. -/
def TObj.leafNames : TObj → List String
  | .leaf name _ => [name]
  | .coll _ items => leafNamesItems items
  | .dir _ _ keys _ => leafNamesKeys keys
/-- Leaf names below a list of items. -/
def leafNamesItems : List TObj → List String
  | [] => []
  | obj :: rest => obj.leafNames ++ leafNamesItems rest
/-- Leaf names below a list of keys. -/
def leafNamesKeys : List TKey → List String
  | [] => []
  | .mk _ _ obj :: rest => obj.leafNames ++ leafNamesKeys rest
end

/-- The container has a direct leaf entry with the given name: a leaf item of a
collection, or a key of a directory that carries this name and stores a leaf of this
name. -/
def TObj.hasLeafEntry (container : TObj) (bareName : String) : Prop :=
  match container with
  | .coll _ items => ∃ payload, TObj.leaf bareName payload ∈ items
  | .dir _ _ keys _ =>
    ∃ className payload, TKey.mk bareName className (TObj.leaf bareName payload) ∈ keys
  | .leaf _ _ => False

/-- All names of a request list have the sub-specification `P`. -/
def SharedPrefix (P : String) (names : List String) : Prop :=
  ∀ m ∈ names, subSpecOf m = P

/-! ## Reading from a list of files -/

/-- Insertion into a `std::set<std::string>`, kept in the order of `std::string`. -/
def strSetInsert (s : String) : List String → List String
  | [] => [s]
  | x :: xs =>
    if s.data < x.data then s :: x :: xs
    else if s = x then x :: xs
    else x :: strSetInsert s xs

/-- The set `dataSubSpecs` of sub-specifications of the requested names
(`PlotManager.cxx:590-599`). -/
def dataSubSpecsOf (dataNames : List String) : List String :=
  dataNames.foldl (fun acc dataName => strSetInsert (subSpecOf dataName) acc) []

/-- Outcome of moving the requests of one sub-specification out of the request arrays
(`PlotManager.cxx:644-660`). -/
structure MoveResult where
  curDataNames : List String
  curNewDataNames : List String
  dataNames : List String
  newDataNames : List String

/-- The loop `PlotManager.cxx:647-660`: requests whose sub-specification is
`dataSubSpec` are moved to the current lists, and a moved-from string is left empty.
The result is `none` when `newDataNames[i]` is read beyond the end of the array. -/
def moveGroup (dataSubSpec : String) : List String → List String → Option MoveResult
  | [], news => some ⟨[], [], [], news⟩
  | d :: ds, news =>
    if d ≠ "" ∧ subSpecOf d = dataSubSpec then
      match news with
      | [] => none
      | u :: us =>
        (moveGroup dataSubSpec ds us).map fun r =>
          ⟨d :: r.curDataNames, u :: r.curNewDataNames, "" :: r.dataNames,
            "" :: r.newDataNames⟩
    else
      match news with
      | [] =>
        (moveGroup dataSubSpec ds []).map fun r =>
          ⟨r.curDataNames, r.curNewDataNames, d :: r.dataNames, r.newDataNames⟩
      | u :: us =>
        (moveGroup dataSubSpec ds us).map fun r =>
          ⟨r.curDataNames, r.curNewDataNames, d :: r.dataNames, u :: r.newDataNames⟩

/-- State of the loop over the sub-specifications for one input file
(`PlotManager.cxx:639-678`). `folderAlive` records that the entry folder has not been
destroyed yet. -/
structure GroupState where
  dataNames : List String
  newDataNames : List String
  outputDataArray : List TObj
  remainingDataNames : List String
  remainingNewDataNames : List String
  folderAlive : Bool

/-- The loop over `dataSubSpecs` for one input file (`PlotManager.cxx:642-678`). The
entry folder is `folder`; `isInputFile` tells that it is the `TFile` itself. The result
is `none` when the behaviour is undefined: an array is read beyond its end, or the
entry folder is used after it has been destroyed. -/
def processGroups (folder : TObj) (isInputFile : Bool) :
    List String → GroupState → Option GroupState
  | [], g => some g
  | dataSubSpec :: rest, g =>
    match moveGroup dataSubSpec g.dataNames g.newDataNames with
    | none => none
    | some m =>
      if m.curDataNames.isEmpty then
        processGroups folder isInputFile rest
          { g with dataNames := m.dataNames, newDataNames := m.newDataNames }
      else if !g.folderAlive then none
      else
        let subDirs := splitString dataSubSpec '/'
        let found := FindSubDirectory (some folder) subDirs
        let st : ReadState :=
          match found.node with
          | some subfolder =>
            (ReadData subfolder ⟨m.curDataNames, m.curNewDataNames, g.outputDataArray⟩).2
          | none => ⟨m.curDataNames, m.curNewDataNames, g.outputDataArray⟩
        let destroyed :=
          found.deleted.contains 0 || (found.node.isSome && subDirs.isEmpty && !isInputFile)
        processGroups folder isInputFile rest
          { dataNames := m.dataNames
            newDataNames := m.newDataNames
            outputDataArray := st.outputDataArray
            remainingDataNames := g.remainingDataNames ++ st.dataNames
            remainingNewDataNames := g.remainingNewDataNames ++ st.newDataNames
            folderAlive := !destroyed }

/-- Opening an input file and finding its entry folder (`PlotManager.cxx:605-637`). -/
inductive EntryOutcome where
  | zombie
  | subdirMissing
  | found (folder : TObj) (isInputFile : Bool)

/-- Opening an input file and finding its entry folder (`PlotManager.cxx:605-637`): the
name is split at `:`, the file of the first token is opened, and a second token is the
path of the entry folder inside the file. `fs` gives the keys of the file of a path,
`none` when the file cannot be opened. `isInputFile` tells that the entry folder is the
`TFile` object itself. -/
def findEntry (fs : String → Option (List TKey)) (inputFileName : String) : EntryOutcome :=
  let tokens := splitString inputFileName ':'
  let fileName := tokens.headD ""
  match fs fileName with
  | none => .zombie
  | some keys =>
    let inputFile := TObj.dir fileName true keys []
    if tokens.length > 1 then
      let subDirs := splitString (tokens.getD 1 "") '/'
      match (FindSubDirectory (some inputFile) subDirs).node with
      | none => .subdirMissing
      | some folder => .found folder subDirs.isEmpty
    else .found inputFile true

/-- What happens to one input file name in the loop of `ReadDataFromFiles`. -/
inductive FileOutcome where
  | zombie
  | subdirMissing
  | undefined
  | done (st : ReadState)

/-- The body of the loop over the input files for a `.root` name
(`PlotManager.cxx:605-686`). -/
def processFile (fs : String → Option (List TKey)) (dataSubSpecs : List String)
    (inputFileName : String) (st : ReadState) : FileOutcome :=
  match findEntry fs inputFileName with
  | .zombie => .zombie
  | .subdirMissing => .subdirMissing
  | .found folder isInputFile =>
    match processGroups folder isInputFile dataSubSpecs
        ⟨st.dataNames, st.newDataNames, st.outputDataArray, [], [], true⟩ with
    | none => .undefined
    | some g =>
      .done
        { dataNames := g.dataNames.filter (fun s => s != "") ++ g.remainingDataNames
          newDataNames := g.newDataNames.filter (fun s => s != "") ++ g.remainingNewDataNames
          outputDataArray := g.outputDataArray }

/-- How the loop over the input files ends. -/
inductive LoopOutcome where
  | exit (st : ReadState)
  | abort (st : ReadState)
  | undefined

/-- The loop over the input files (`PlotManager.cxx:601-687`). -/
def filesLoop (fs : String → Option (List TKey)) (dataSubSpecs : List String) :
    List String → ReadState → LoopOutcome
  | [], st => .exit st
  | inputFileName :: rest, st =>
    if st.dataNames.isEmpty then .exit st
    else if !containsStr inputFileName ".root" then filesLoop fs dataSubSpecs rest st
    else
      match processFile fs dataSubSpecs inputFileName st with
      | .zombie => .exit st
      | .subdirMissing => .abort st
      | .undefined => .undefined
      | .done st2 => filesLoop fs dataSubSpecs rest st2

/-- One line of the final report: the text before the first separator and the text
after it (`PlotManager.cxx:693`). Without a separator `find` yields `npos`, the first
part is the whole string and the second starts at index `npos + 3 = 2`; `substr` throws
when the string is shorter, which is the result `none`. Positions count characters,
which are the bytes of the C++ string for names of single-byte characters. -/
def splitUniqueName (dataName : String) : Option (String × String) :=
  match findSub gNameGroupSeparator.data dataName.data with
  | some pos =>
    some (String.mk (dataName.data.take pos),
      String.mk (dataName.data.drop (pos + gNameGroupSeparator.length)))
  | none =>
    if dataName.length < 2 then none
    else some (dataName, String.mk (dataName.data.drop 2))

/-- The warning printed at the end of `ReadDataFromFiles`: the lines of the pending
requests and the file names searched. -/
structure Report where
  lines : List (Option (String × String))
  files : List String

/-- How `ReadDataFromFiles` ends: it runs to its end, with or without the final
warning; or it returns early at a missing sub-directory; or its behaviour is
undefined. -/
inductive FilesOutcome where
  | completed (st : ReadState) (report : Option Report)
  | aborted (st : ReadState)
  | undefined

/-- `PlotManager::ReadDataFromFiles` (`PlotManager.cxx:587-698`). -/
def ReadDataFromFiles (fs : String → Option (List TKey)) (outputDataArray : List TObj)
    (fileNames dataNames newDataNames : List String) : FilesOutcome :=
  match filesLoop fs (dataSubSpecsOf dataNames) fileNames
      ⟨dataNames, newDataNames, outputDataArray⟩ with
  | .exit st =>
    .completed st
      (if !st.dataNames.isEmpty then some ⟨st.newDataNames.map splitUniqueName, fileNames⟩
        else none)
  | .abort st => .aborted st
  | .undefined => .undefined

/-- A request pair is moved by the loop for the sub-specification `dataSubSpec`: its
name is not empty and has this sub-specification. -/
def movesTo (dataSubSpec : String) (p : String × String) : Bool :=
  decide (p.1 ≠ "" ∧ subSpecOf p.1 = dataSubSpec)

/-- What the moving loop leaves at the place of a request pair. -/
def blankMoved (dataSubSpec : String) (p : String × String) : String × String :=
  if movesTo dataSubSpec p then ("", "") else p

/-- The request pairs that are pending in a state of the loop over the
sub-specifications: the pairs not yet moved and the pairs handed back by `ReadData`. -/
def GroupState.live (g : GroupState) : List (String × String) :=
  (g.dataNames.zip g.newDataNames).filter (fun p => p.1 != "") ++
    g.remainingDataNames.zip g.remainingNewDataNames

/-- Invariant of the loop over the sub-specifications: the two request arrays have the
same length and are blanked at the same places, the handed-back arrays have the same
length, and the pending pairs have distinct names, distinct new names and no empty
component. -/
def GroupInv (g : GroupState) : Prop :=
  g.dataNames.length = g.newDataNames.length ∧
  (∀ p ∈ g.dataNames.zip g.newDataNames, (p.1 = "" ↔ p.2 = "")) ∧
  g.remainingDataNames.length = g.remainingNewDataNames.length ∧
  (g.live.map Prod.fst).Nodup ∧ (g.live.map Prod.snd).Nodup ∧
  (∀ p ∈ g.live, p.1 ≠ "" ∧ p.2 ≠ "")

/-- Relation between two states of the loop over the sub-specifications: objects were
appended to the output array, the pending pairs are former pending pairs, and the names
of the appended objects together with the pending new names are the former pending new
names. -/
def GroupRel (g g2 : GroupState) : Prop :=
  ∃ added : List TObj, g2.outputDataArray = g.outputDataArray ++ added ∧
    g2.live.Subperm g.live ∧
    (added.map TObj.GetName ++ g2.live.map Prod.snd).Perm (g.live.map Prod.snd) ∧
    ∀ a ∈ added, (a.isDirectory || a.isCollection) = false

/-- Request arrays as `ReadDataFromFiles` expects them: parallel, with distinct entries,
and without empty strings. -/
def Clean (st : ReadState) : Prop :=
  Paired st ∧ "" ∉ st.dataNames ∧ "" ∉ st.newDataNames

/-- Relation between the states before and after files have been processed: objects
were appended to the output array, the pending pairs are former pending pairs, and the
names of the appended objects together with the pending new names are the former
pending new names. -/
def FilesRel (st st2 : ReadState) : Prop :=
  ∃ added : List TObj, st2.outputDataArray = st.outputDataArray ++ added ∧
    st2.dataNames.length = st2.newDataNames.length ∧
    (st2.dataNames.zip st2.newDataNames).Subperm (st.dataNames.zip st.newDataNames) ∧
    (added.map TObj.GetName ++ st2.newDataNames).Perm st.newDataNames ∧
    ∀ a ∈ added, (a.isDirectory || a.isCollection) = false

/-- Two files for the examples: `a.root` holds the leaf `x`, `b.root` holds the leaf
`h`; no other file can be opened. -/
def twoFiles : String → Option (List TKey) := fun path =>
  if path = "a.root" then some [.mk "x" "TH1D" (.leaf "x" 1)]
  else if path = "b.root" then some [.mk "h" "TH1D" (.leaf "h" 7)]
  else none

/-! ## Plots and their data references -/

/-- Modelled from the spec: a data reference of a pad (`Plot::Pad::Data`, and
`Plot::Pad::Ratio` which adds a denominator), classes declared outside the given
sources: a primary reference with name and input identifier, or a ratio of a numerator
and a denominator reference. -/
inductive Data where
  | data (name inputIdentifier : String)
  | ratio (name inputIdentifier denomName denomIdentifier : String)

/-- `Data::GetType`. -/
def Data.GetType : Data → String
  | .data _ _ => "data"
  | .ratio _ _ _ _ => "ratio"

/-- `Data::GetName`. -/
def Data.GetName : Data → String
  | .data name _ => name
  | .ratio name _ _ _ => name

/-- `Data::GetInputIdentifier`. -/
def Data.GetInputIdentifier : Data → String
  | .data _ inputIdentifier => inputIdentifier
  | .ratio _ inputIdentifier _ _ => inputIdentifier

/-- `Ratio::GetDenomName`, reached through the dynamic cast of a ratio reference. -/
def Data.GetDenomName : Data → String
  | .data _ _ => ""
  | .ratio _ _ denomName _ => denomName

/-- `Ratio::GetDenomIdentifier`, reached through the dynamic cast of a ratio
reference. -/
def Data.GetDenomIdentifier : Data → String
  | .data _ _ => ""
  | .ratio _ _ _ denomIdentifier => denomIdentifier

/-- Modelled from the spec: `Data::GetUniqueName`, the concatenation of name, separator
and input identifier (as `Histogram::GetUniqueName`, `src/Plot.h:54`). -/
def Data.GetUniqueName (d : Data) : String :=
  PlottingFramework.GetUniqueName d.GetName d.GetInputIdentifier

/-- Modelled from the spec: `Ratio::GetUniqueNameDenom`, the concatenation of denominator
name, separator and denominator identifier. -/
def Data.GetUniqueNameDenom (d : Data) : String :=
  PlottingFramework.GetUniqueName d.GetDenomName d.GetDenomIdentifier

/-- Modelled from the spec: an axis definition of a pad (`Plot::Axis`, declared outside
the given sources) with its name and its title when one is set; ranges are left out. -/
structure Axis where
  name : String
  title : Option String

/-- Modelled from the spec: a decoration box of a pad (`LegendBox`, `TextBox`), declared
outside the given sources. -/
inductive Box where
  | legend (title : String)
  | text (text : String)

/-- Modelled from the spec: a pad with its ordered data references (`Pad::GetData`), its
control string when one is set, its boxes and its axes by axis name in key order (the
entries of `mControlString`, `mData`, `mBoxes` and `mAxes` for one pad id in
`Plot.cxx`). -/
structure Pad where
  data : List Data
  controlString : Option String := none
  boxes : List Box := []
  axes : List (String × Axis) := []

/-- Modelled from the spec: a plot with its name, figure group and category, optional
template name and the pads by pad id in key order (`Plot::GetPads`), its plot style and
the current pad `mCurrPad`. Pad ids are `int`; the id `-1` holds axes given by an alias
(`Plot.cxx:176-182`). -/
structure Plot where
  name : String
  figureGroup : String
  figureCategory : String
  plotTemplateName : Option String
  pads : List (Int × Pad)
  plotStyle : String := "default"
  mCurrPad : Int := 1

/-- The names looked up for one data reference in `IsPlotPossible`
(`PlotManager.cxx:859-861`). -/
def neededNames (d : Data) : List String :=
  if d.GetType == "ratio" then [d.GetUniqueName, d.GetUniqueNameDenom] else [d.GetUniqueName]

/-- `PlotManager::IsPlotPossible` (`PlotManager.cxx:854-870`) over the data ledger. -/
def IsPlotPossible (mDataLedger : List TObj) (plot : Plot) : Bool :=
  plot.pads.all fun padEntry =>
    padEntry.2.data.all fun d =>
      (neededNames d).all fun dataName => (FindObject mDataLedger dataName).isSome

/-! ## Required data of the selected plots -/

/-- A `std::set<int32_t>` as its elements in increasing order. -/
def setInsert (v : Int) : List Int → List Int
  | [] => [v]
  | x :: xs => if v < x then v :: x :: xs else if v = x then x :: xs else x :: setInsert v xs

/-- A `std::map<int32_t, std::set<int32_t>>` (`requiredData`, `mLoadedData`) as its entries
in key order. -/
abbrev IdMap := List (Int × List Int)

/-- The statement `m[k].insert(v)`. -/
def idMapInsert (k v : Int) : IdMap → IdMap
  | [] => [(k, [v])]
  | (k2, s) :: rest =>
    if k < k2 then (k, [v]) :: (k2, s) :: rest
    else if k = k2 then (k2, setInsert v s) :: rest
    else (k2, s) :: idMapInsert k v rest

/-- The test `m[k].find(v) != m[k].end()`: the entry of key `k` holds `v`. The empty set
that `operator[]` creates for an absent key does not change any such test. -/
def idMapHas (m : IdMap) (k v : Int) : Bool :=
  m.any fun e => e.1 == k && e.2.contains v

/-- State of the first loop of `CreatePlots`: the name register, the required data, the
plot names still searched and the plots selected so far. -/
structure RequiredState where
  mNameRegister : NameRegister
  requiredData : IdMap
  plotNames : List String
  selectedPlots : List Plot

/-- One data reference in the requirement scan (`PlotManager.cxx:375-384`). -/
def scanData (mLoadedData : IdMap) (d : Data) (reg : NameRegister) (req : IdMap) :
    NameRegister × IdMap :=
  let r1 := GetNameRegisterID reg d.GetInputIdentifier
  let r2 := GetNameRegisterID r1.2 d.GetName
  let req1 := if !idMapHas mLoadedData r1.1 r2.1 then idMapInsert r1.1 r2.1 req else req
  if d.GetType == "ratio" then
    let r3 := GetNameRegisterID r2.2 d.GetDenomIdentifier
    let r4 := GetNameRegisterID r3.2 d.GetDenomName
    (r4.2, if !idMapHas mLoadedData r3.1 r4.1 then idMapInsert r3.1 r4.1 req1 else req1)
  else (r2.2, req1)

/-- The data references of one pad (`PlotManager.cxx:373-385`). -/
def scanDataList (mLoadedData : IdMap) :
    List Data → NameRegister → IdMap → NameRegister × IdMap
  | [], reg, req => (reg, req)
  | d :: ds, reg, req =>
    let r := scanData mLoadedData d reg req
    scanDataList mLoadedData ds r.1 r.2

/-- The pads of one plot (`PlotManager.cxx:371-386`). -/
def scanPads (mLoadedData : IdMap) :
    List (Int × Pad) → NameRegister → IdMap → NameRegister × IdMap
  | [], reg, req => (reg, req)
  | p :: ps, reg, req =>
    let r := scanDataList mLoadedData p.2.data reg req
    scanPads mLoadedData ps r.1 r.2

/-- The loop over `mPlots` that selects plots and accumulates their required data
(`PlotManager.cxx:363-387`). -/
def scanPlots (figureGroup figureCategory : String) (saveAll saveSpecificPlots : Bool)
    (mLoadedData : IdMap) : List Plot → RequiredState → RequiredState
  | [], st => st
  | plot :: rest, st =>
    if !saveAll && !(plot.figureGroup == figureGroup && plot.figureCategory == figureCategory)
    then scanPlots figureGroup figureCategory saveAll saveSpecificPlots mLoadedData rest st
    else if saveSpecificPlots && !(st.plotNames.contains plot.name)
    then scanPlots figureGroup figureCategory saveAll saveSpecificPlots mLoadedData rest st
    else
      let names := if !st.plotNames.isEmpty then st.plotNames.filter (fun n => n != plot.name)
        else st.plotNames
      let r := scanPads mLoadedData plot.pads st.mNameRegister st.requiredData
      scanPlots figureGroup figureCategory saveAll saveSpecificPlots mLoadedData rest
        { mNameRegister := r.1, requiredData := r.2, plotNames := names,
          selectedPlots := st.selectedPlots ++ [plot] }

/-- The first part of `PlotManager::CreatePlots` (`PlotManager.cxx:355-387`): the plots
selected and the required-data mapping, starting from an empty mapping. -/
def CreatePlotsRequired (mPlots : List Plot) (mNameRegister : NameRegister)
    (mLoadedData : IdMap) (figureGroup figureCategory : String) (plotNames : List String) :
    RequiredState :=
  let saveAll := figureGroup == ""
  let saveSpecificPlots := !saveAll && !plotNames.isEmpty
  scanPlots figureGroup figureCategory saveAll saveSpecificPlots mLoadedData mPlots
    { mNameRegister := mNameRegister, requiredData := [], plotNames := plotNames,
      selectedPlots := [] }

/-- A data reference asks for the pair of ids `(sid, nid)` under a register: its source
and name have these ids, or it is a ratio whose denominator source and name have them. -/
def Data.refersTo (reg : NameRegister) (d : Data) (sid nid : Int) : Prop :=
  (reg.lookup d.GetInputIdentifier = some sid ∧ reg.lookup d.GetName = some nid) ∨
  (d.GetType = "ratio" ∧ reg.lookup d.GetDenomIdentifier = some sid ∧
    reg.lookup d.GetDenomName = some nid)

/-- Later registers keep the id of every name registered before. -/
def RegExt (reg reg2 : NameRegister) : Prop :=
  ∀ (s : String) (v : Int), reg.lookup s = some v → reg2.lookup s = some v

/-- Every name a data reference mentions has an id in the register. -/
def Data.registered (reg : NameRegister) (d : Data) : Prop :=
  (∃ v, reg.lookup d.GetInputIdentifier = some v) ∧ (∃ v, reg.lookup d.GetName = some v) ∧
  (d.GetType = "ratio" →
    (∃ v, reg.lookup d.GetDenomIdentifier = some v) ∧ (∃ v, reg.lookup d.GetDenomName = some v))

/-- All data references of a plot, pad by pad. -/
def Plot.allData (plot : Plot) : List Data :=
  plot.pads.flatMap fun padEntry => padEntry.2.data

/-- A file for the examples: `B.root` holds the directory `sub` with the leaf `hist2`,
and the leaf `other` next to it; no other file can be opened. -/
def nestedFile : String → Option (List TKey) := fun path =>
  if path = "B.root" then
    some [.mk "sub" "TDirectoryFile"
        (.dir "sub" false [.mk "hist2" "TH1D" (.leaf "hist2" 5)] []),
      .mk "other" "TH1D" (.leaf "other" 9)]
  else none

/-- A file for the examples: `L.root` holds the list `list` with the two lists `sub`
and `sub2` as items, which hold the leaves `h` and `g`. -/
def listFile : String → Option (List TKey) := fun path =>
  if path = "L.root" then
    some [.mk "list" "TList"
      (.coll "list" [.coll "sub" [.leaf "h" 1], .coll "sub2" [.leaf "g" 2]])]
  else none

/-! ## Maps in key order -/

/-- Order of `std::string` keys. -/
def strLt (a b : String) : Bool := decide (a.data < b.data)

/-- Order of `int` keys. -/
def intLt (a b : Int) : Bool := decide (a < b)

/-- Insertion of an entry with a new key into a key-ordered entry list. -/
def insertKey {K α : Type} (lt : K → K → Bool) (k : K) (v : α) :
    List (K × α) → List (K × α)
  | [] => [(k, v)]
  | e :: rest => if lt k e.1 then (k, v) :: e :: rest else e :: insertKey lt k v rest

/-- A key has an entry in a `std::map` (`m.find(k) != m.end()`). -/
def hasKey {K α : Type} [DecidableEq K] (m : List (K × α)) (k : K) : Bool :=
  m.any fun e => e.1 == k

/-- The expression `m[k]` of a `std::map` followed by a change of the value: an absent
key first gets the entry `dflt`. -/
def mapModify {K α : Type} [DecidableEq K] (lt : K → K → Bool) (k : K) (dflt : α)
    (f : α → α) (m : List (K × α)) : List (K × α) :=
  if hasKey m k then m.map fun e => if e.1 = k then (e.1, f e.2) else e
  else insertKey lt k (f dflt) m

/-- The statement `m[k] = v` of a `std::map`. -/
def mapSet {K α : Type} [DecidableEq K] (lt : K → K → Bool) (k : K) (v : α)
    (m : List (K × α)) : List (K × α) :=
  mapModify lt k v (fun _ => v) m

/-- The statement `m.erase(k)` of a `std::map`. -/
def mapErase {K α : Type} [DecidableEq K] (k : K) (m : List (K × α)) : List (K × α) :=
  m.filter fun e => !(e.1 == k)

/-! ## Plot specifications -/

/-- Modelled from the spec: `Plot::GetUniqueName` (declared outside the given sources),
the canonical unique name of a plot: name, separator and figure group, followed by `:`
and the category when there is one. -/
def Plot.GetUniqueName (plot : Plot) : String :=
  plot.name ++ gNameGroupSeparator ++ plot.figureGroup ++
    (if plot.figureCategory != "" then ":" ++ plot.figureCategory else "")

/-- The text `figureGroup + ((figureCategory != "") ? ":" + figureCategory : "")` of the
messages (`PlotManager.cxx:393`, `418`). -/
def Plot.groupLabel (figureGroup figureCategory : String) : String :=
  figureGroup ++ (if figureCategory != "" then ":" ++ figureCategory else "")

/-- The constructor `Plot(name, figureGroup, plotStyle)` (`Plot.cxx:36-49`): a category
given as `figureGroup:category` is split off at the first `:`. -/
def Plot.create (name figureGroup plotStyle : String) : Plot :=
  match findSub [':'] figureGroup.data with
  | some subPathPos =>
    { name := name, figureGroup := String.mk (figureGroup.data.take subPathPos),
      figureCategory := String.mk (figureGroup.data.drop (subPathPos + 1)),
      plotTemplateName := none, pads := [], plotStyle := plotStyle }
  | none =>
    { name := name, figureGroup := figureGroup, figureCategory := "",
      plotTemplateName := none, pads := [], plotStyle := plotStyle }

/-- `Plot::SetAxisTitle` (`Plot.cxx:174-191`): the axes `X`, `Y`, `Z` belong to the
current pad, any other axis name is an alias kept under the pad id `-1`; the title of an
existing axis is set, otherwise the axis is created with this title. -/
def Plot.SetAxisTitle (plot : Plot) (axis axisTitle : String) : Plot :=
  let seletedPad : Int := if ["X", "Y", "Z"].contains axis then plot.mCurrPad else -1
  { plot with
    pads := mapModify intLt seletedPad ({ data := [] } : Pad)
      (fun pad =>
        { pad with
          axes := mapModify strLt axis ⟨axis, none⟩
            (fun a => { a with title := some axisTitle }) pad.axes })
      plot.pads }

/-- The title of an axis of a pad, when the pad has this axis and the axis a title. -/
def Plot.GetAxisTitle (plot : Plot) (padID : Int) (axis : String) : Option String :=
  (plot.pads.lookup padID).bind fun pad => (pad.axes.lookup axis).bind fun a => a.title

/-- The control string of a pad, when the pad exists and has one. -/
def Plot.GetControlString (plot : Plot) (padID : Int) : Option String :=
  (plot.pads.lookup padID).bind fun pad => pad.controlString

/-- Modelled from the spec: merge of two maps by key (pad index, axis name). An entry of
the plot that has a counterpart in the template is merged with it by `g`, an entry of
the plot alone is kept, and an entry of the template alone is inherited. -/
def mergeMap {K α : Type} [DecidableEq K] (lt : K → K → Bool) (g : α → α → α)
    (t p : List (K × α)) : List (K × α) :=
  t.foldl (fun acc e => if hasKey acc e.1 then acc else insertKey lt e.1 e.2 acc)
    (p.map fun e =>
      (e.1, match t.lookup e.1 with
        | some tv => g tv e.2
        | none => e.2))

/-- Modelled from the spec: merge of a template axis and a plot axis; the title of the
plot wins where it is set, otherwise the title of the template is inherited. -/
def Axis.merge (t p : Axis) : Axis :=
  { name := p.name
    title := match p.title with
      | some title => some title
      | none => t.title }

/-- Modelled from the spec: merge of a template pad and a plot pad, field by field; the
control string, the data list and the boxes of the plot win where they are set (a list
is set when it is not empty), the axes are merged by axis name. -/
def Pad.merge (t p : Pad) : Pad :=
  { data := if p.data.isEmpty then t.data else p.data
    controlString := match p.controlString with
      | some c => some c
      | none => t.controlString
    boxes := if p.boxes.isEmpty then t.boxes else p.boxes
    axes := mergeMap strLt Axis.merge t.axes p.axes }

/-- Modelled from the spec: `operator+(template, plot)` of `Plot` (defined outside the
given sources), the merge of a plot with its template: name, figure group, category,
template name and style are those of the plot, the pads are merged by pad index and
within a pad every field of the plot wins where it is set and is inherited from the
template otherwise. -/
def Plot.merge (t p : Plot) : Plot :=
  { p with pads := mergeMap intLt Pad.merge t.pads p.pads }

/-! ## The plot manager -/

/-- Modelled from the spec: the artifact that the painter returns (`TCanvas`), with its
name and a number standing for its content. -/
structure TCanvas where
  name : String
  content : Nat
deriving DecidableEq

/-- Lines that the manager prints for its own decisions. -/
inductive Message where
  | reservedGroup
  | plotReplaced (uniqueName : String)
  | noFigureGroup
  | templateNotFound (plotTemplateName : String)
  | plotCreated (canvasName : String)
  | plotNotFound (plotName group : String)
  | plotNotPossible (plotName group : String)
  | constructFailed
  | plotFromXmlFailed (key : String)
  | foundPlot (plotName group : String)
  | colonInExpression
  | plotsNotDefined
  | foundPlots (nFoundPlots : Nat)
deriving DecidableEq

/-- The members of `PlotManager` that the modelled functions use, together with the
files written by `TCanvas::SaveAs` and the lines printed. Maps are entry lists in key
order. -/
structure PlotManager where
  mPlots : List Plot
  mPlotTemplates : List Plot
  mPlotLedger : List (String × TCanvas)
  mPlotViewHistory : List String
  mSaveToRootFile : Bool
  mUseUniquePlotNames : Bool
  mOutputDirectory : String
  mDataLedger : List TObj
  mNameRegister : NameRegister
  mLoadedData : IdMap
  mInputFiles : List (String × List String)
  savedFiles : List (String × TCanvas)
  log : List Message

/-- The manager after its constructor (`PlotManager.cxx:26-38`). -/
def PlotManager.init : PlotManager :=
  { mPlots := [], mPlotTemplates := [], mPlotLedger := [], mPlotViewHistory := [],
    mSaveToRootFile := false, mUseUniquePlotNames := false, mOutputDirectory := "",
    mDataLedger := [], mNameRegister := [], mLoadedData := [], mInputFiles := [],
    savedFiles := [], log := [] }

/-- `PlotManager::AddInputDataFiles` (`PlotManager.cxx:92-98`). -/
def AddInputDataFiles (m : PlotManager) (inputIdentifier : String)
    (inputFilePathList : List String) : PlotManager :=
  { m with mInputFiles := mapSet strLt inputIdentifier inputFilePathList m.mInputFiles }

/-- `PlotManager::AddPlot` (`PlotManager.cxx:159-164`): the macro `ERROR` prints its
line and execution goes on with the next statement. -/
def AddPlot (m : PlotManager) (plot : Plot) : PlotManager :=
  let log := if plot.figureGroup == "TEMPLATES" then m.log ++ [Message.reservedGroup]
    else m.log
  { m with
    mPlots := m.mPlots.filter (fun curPlot =>
      !(curPlot.GetUniqueName == plot.GetUniqueName)) ++ [plot]
    log := log }

/-- `PlotManager::AddPlotTemplate` (`PlotManager.cxx:171-176`). -/
def AddPlotTemplate (m : PlotManager) (plotTemplate : Plot) : PlotManager :=
  let t : Plot := { plotTemplate with figureGroup := "TEMPLATES" }
  { m with
    mPlotTemplates := m.mPlotTemplates.filter (fun curPlotTemplate =>
      !(curPlotTemplate.GetUniqueName == t.GetUniqueName)) ++ [t] }

/-- The template resolution of `GeneratePlot` (`PlotManager.cxx:260-273`): the first
template whose name is the template name of the plot is merged with the plot by
`operator+`; without such a template a warning is printed and the plot is used as it
is. -/
def resolvePlot (mPlotTemplates : List Plot) (plot : Plot) : Plot × List Message :=
  match plot.plotTemplateName with
  | none => (plot, [])
  | some plotTemplateName =>
    match mPlotTemplates.find? (fun plotTemplate => plotTemplate.name == plotTemplateName) with
    | some plotTemplate => (Plot.merge plotTemplate plot, [])
    | none => (plot, [Message.templateNotFound plotTemplateName])

/-- The navigation loop of the interactive mode (`PlotManager.cxx:295-315`) for the
double clicks of the user (`true` for a click in the right half, forward): the result
tells whether every canvas looked up in the ledger by a name of the history was there.
A name without an entry gets a null entry from `operator[]`, which is dereferenced at
once. -/
def browse (mPlotLedger : List (String × TCanvas)) (mPlotViewHistory : List String) :
    Nat → List Bool → Bool
  | _, [] => true
  | currPlotIndex, forward :: rest =>
    if forward && currPlotIndex == mPlotViewHistory.length - 1 then true
    else
      let next :=
        if forward then currPlotIndex + 1
        else if currPlotIndex != 0 then currPlotIndex - 1 else currPlotIndex
      if hasKey mPlotLedger (mPlotViewHistory.getD next "") then
        browse mPlotLedger mPlotViewHistory next rest
      else false

/-- The start of `GeneratePlot` (`PlotManager.cxx:245-250`): an entry of the ledger
under the unique name of the plot is announced as replaced and erased. -/
def eraseFromLedger (m : PlotManager) (plot : Plot) : PlotManager :=
  if hasKey m.mPlotLedger plot.GetUniqueName then
    { m with
      log := m.log ++ [Message.plotReplaced plot.GetUniqueName]
      mPlotLedger := mapErase plot.GetUniqueName m.mPlotLedger }
  else m

/-- The end of `GeneratePlot` for a canvas that the painter returned
(`PlotManager.cxx:278-346`). In a mode containing `interactive` the canvas is stored in
the ledger, its name is appended to the view history and the event loop runs; in a mode
containing `file` the canvas is stored in the ledger; in every other mode the canvas is
saved to a file of the output directory and the ledger is not written. The result is
`none` when a null canvas of the ledger is dereferenced. -/
def outputPlot (clicks : List Bool) (m : PlotManager) (plot : Plot) (canvas : TCanvas)
    (outputMode : String) : Option PlotManager :=
  if containsStr outputMode "interactive" then
    let m5 : PlotManager :=
      { m with
        mPlotLedger := mapSet strLt plot.GetUniqueName canvas m.mPlotLedger
        mPlotViewHistory := m.mPlotViewHistory ++ [plot.GetUniqueName] }
    let currPlotIndex := m5.mPlotViewHistory.length - 1
    if currPlotIndex > 0 &&
        !hasKey m5.mPlotLedger (m5.mPlotViewHistory.getD (currPlotIndex - 1) "") then none
    else if browse m5.mPlotLedger m5.mPlotViewHistory currPlotIndex clicks then some m5
    else none
  else if containsStr outputMode "file" then
    some { m with mPlotLedger := mapSet strLt plot.GetUniqueName canvas m.mPlotLedger }
  else
    let fileEnding :=
      if containsStr outputMode "eps" then ".eps"
      else if containsStr outputMode "png" then ".png"
      else if containsStr outputMode "macro" then ".C"
      else ".pdf"
    let fileName0 := if !m.mUseUniquePlotNames then plot.name else plot.GetUniqueName
    let fileName := String.mk
      (fileName0.data.map fun c => if c = '/' then '_' else if c = ':' then '_' else c)
    let folderName0 := m.mOutputDirectory ++ "/" ++ plot.figureGroup
    let folderName :=
      if plot.figureCategory != "" then folderName0 ++ "/" ++ plot.figureCategory
      else folderName0
    some { m with
      savedFiles := m.savedFiles ++ [(folderName ++ "/" ++ fileName ++ fileEnding, canvas)] }

/-- `PlotManager::GeneratePlot` (`PlotManager.cxx:243-347`). `painter` stands for
`PlotPainter::GeneratePlot` (`none` for a null canvas), which reads the plot and the data
ledger and changes neither, and `clicks` for the double clicks that the event loop of
the interactive mode receives before it ends. The members `mPlotTemplates` and
`mDataLedger` are not written on the way, so they are read from the manager handed in.
The result is `none` when the behaviour is undefined. -/
def GeneratePlot (painter : Plot → List TObj → Option TCanvas) (clicks : List Bool)
    (m : PlotManager) (plot : Plot) (outputMode : String) : Option PlotManager :=
  let m1 := eraseFromLedger m plot
  if plot.figureGroup == "" then some { m1 with log := m1.log ++ [Message.noFigureGroup] }
  else
    let resolved := resolvePlot m.mPlotTemplates plot
    let m3 : PlotManager :=
      { m1 with
        mSaveToRootFile := containsStr outputMode "file" || m1.mSaveToRootFile
        log := m1.log ++ resolved.2 }
    match painter resolved.1 m.mDataLedger with
    | none => some m3
    | some canvas =>
      outputPlot clicks { m3 with log := m3.log ++ [Message.plotCreated canvas.name] } plot
        canvas outputMode

/-! ## Reading tables -/

/-- Index of the last occurrence of a character (`s.rfind(c)`), `none` for `npos`. -/
def rfindChar (c : Char) : List Char → Option Nat
  | [] => none
  | d :: ds =>
    match rfindChar c ds with
    | some i => some (i + 1)
    | none => if d = c then some 0 else none

/-- Index of the last occurrence of a string (`s.rfind(pat)`), `none` for `npos`. -/
def rfindSub (pat : List Char) : List Char → Option Nat
  | [] => if pat.isEmpty then some 0 else none
  | d :: ds =>
    match rfindSub pat ds with
    | some i => some (i + 1)
    | none => if pat.isPrefixOf (d :: ds) then some 0 else none

/-- The value `std::string::npos` of a 64-bit `size_t`. -/
def npos : Nat := 2 ^ 64 - 1

/-- `s.substr(pos, len)`: `none` when `pos` is beyond the size (`std::out_of_range`). -/
def substr (s : List Char) (pos len : Nat) : Option (List Char) :=
  if pos > s.length then none else some ((s.drop pos).take len)

/-- The graph name that `ReadDataFromCSVFiles` takes from a path
(`PlotManager.cxx:572`): `substr(rfind('/') + 1, rfind(".csv") - rfind('/') - 1)` in
arithmetic modulo `2^64`. -/
def csvGraphName (inputFileName : String) : Option String :=
  let slash := (rfindChar '/' inputFileName.data).getD npos
  let csv := (rfindSub ".csv".data inputFileName.data).getD npos
  let start := (slash + 1) % 2 ^ 64
  let diff := (csv + 2 ^ 64 - slash) % 2 ^ 64
  let len := (diff + 2 ^ 64 - 1) % 2 ^ 64
  (substr inputFileName.data start len).map String.mk

/-- `PlotManager::ReadDataFromCSVFiles` (`PlotManager.cxx:566-580`). `csvGraph` gives
the content of the graph that `TGraphErrors` builds from a path; the result is `none`
when `substr` throws. -/
def ReadDataFromCSVFiles (csvGraph : String → Nat) (outputDataArray : List TObj) :
    List String → String → Option (List TObj)
  | [], _ => some outputDataArray
  | inputFileName :: rest, inputIdentifier =>
    if !containsStr inputFileName ".csv" then
      ReadDataFromCSVFiles csvGraph outputDataArray rest inputIdentifier
    else
      match csvGraphName inputFileName with
      | none => none
      | some graphName =>
        ReadDataFromCSVFiles csvGraph
          (outputDataArray ++
            [TObj.leaf (graphName ++ gNameGroupSeparator ++ inputIdentifier)
              (csvGraph inputFileName)])
          rest inputIdentifier

/-! ## Creating plots -/

/-- The loop of `CreatePlots` that reads the required data (`PlotManager.cxx:398-409`),
over the entries of `requiredData` in key order: the data ledger after the loop, `none`
when a call does not return normally. Nothing is written to `mLoadedData`. -/
def readRequiredData (fs : String → Option (List TKey)) (csvGraph : String → Nat)
    (mNameRegister : NameRegister) (mOutputDirectory : String)
    (mInputFiles : List (String × List String)) : IdMap → List TObj → Option (List TObj)
  | [], mDataLedger => some mDataLedger
  | inputIDTuple :: rest, mDataLedger =>
    let inputIdentifier := GetNameRegisterName mNameRegister mOutputDirectory inputIDTuple.1
    let dataNames := inputIDTuple.2.map (GetNameRegisterName mNameRegister mOutputDirectory)
    let uniqueDataNames := dataNames.map fun n => n ++ gNameGroupSeparator ++ inputIdentifier
    let fileNames := (mInputFiles.lookup inputIdentifier).getD []
    match ReadDataFromCSVFiles csvGraph mDataLedger fileNames inputIdentifier with
    | none => none
    | some ledger1 =>
      match ReadDataFromFiles fs ledger1 fileNames dataNames uniqueDataNames with
      | .completed st _ =>
        readRequiredData fs csvGraph mNameRegister mOutputDirectory mInputFiles rest
          st.outputDataArray
      | .aborted st =>
        readRequiredData fs csvGraph mNameRegister mOutputDirectory mInputFiles rest
          st.outputDataArray
      | .undefined => none

/-- What the last loop of `CreatePlots` does with a selected plot: it calls
`GeneratePlot`, or it reports that the plot could not be created. -/
inductive PlotEvent where
  | generate (plot : Plot)
  | notPossible (plot : Plot)

/-- The last loop of `CreatePlots` (`PlotManager.cxx:413-420`) over the selected plots:
the manager after the loop and what was done with each plot, in the order of the loop;
`none` when a call of `GeneratePlot` has undefined behaviour. `clicks` gives the double
clicks received while a plot is shown. -/
def generateSelected (painter : Plot → List TObj → Option TCanvas)
    (clicks : String → List Bool) (outputMode : String) :
    List Plot → PlotManager → Option (PlotManager × List PlotEvent)
  | [], m => some (m, [])
  | plot :: rest, m =>
    if IsPlotPossible m.mDataLedger plot then
      match GeneratePlot painter (clicks plot.GetUniqueName) m plot outputMode with
      | none => none
      | some m2 =>
        (generateSelected painter clicks outputMode rest m2).map fun r =>
          (r.1, PlotEvent.generate plot :: r.2)
    else
      (generateSelected painter clicks outputMode rest
        { m with
          log := m.log ++ [Message.plotNotPossible plot.name
            (Plot.groupLabel plot.figureGroup plot.figureCategory)] }).map fun r =>
        (r.1, PlotEvent.notPossible plot :: r.2)

/-- `PlotManager::CreatePlots` (`PlotManager.cxx:355-421`): selection of the plots and
their required data, reading of the data, generation of the plots. The empty sets and
vectors that `operator[]` leaves in `mLoadedData` and `mInputFiles` for absent keys are
not recorded; no statement writes an element to `mLoadedData`. -/
def CreatePlots (painter : Plot → List TObj → Option TCanvas) (clicks : String → List Bool)
    (fs : String → Option (List TKey)) (csvGraph : String → Nat) (m : PlotManager)
    (figureGroup figureCategory : String) (plotNames : List String) (outputMode : String) :
    Option (PlotManager × List PlotEvent) :=
  let r := CreatePlotsRequired m.mPlots m.mNameRegister m.mLoadedData figureGroup
    figureCategory plotNames
  let warnings := r.plotNames.map fun plotName =>
    Message.plotNotFound plotName (Plot.groupLabel figureGroup figureCategory)
  match readRequiredData fs csvGraph r.mNameRegister m.mOutputDirectory m.mInputFiles
      r.requiredData m.mDataLedger with
  | none => none
  | some mDataLedger =>
    generateSelected painter clicks outputMode r.selectedPlots
      { m with
        mNameRegister := r.mNameRegister
        mDataLedger := mDataLedger
        log := m.log ++ warnings }

/-! ## Plot definitions in property trees -/

/-- A boost property tree: the data of a node and its children in order. -/
inductive PTree where
  | node (data : String) (children : List (String × PTree))

/-- The data of a node. -/
def PTree.data : PTree → String
  | .node data _ => data

/-- The children of a node. -/
def PTree.children : PTree → List (String × PTree)
  | .node _ children => children

/-- `tree.get<string>(key)` for a key without `.`: the data of the first child with this
key, `none` when there is no such child and the call throws. -/
def PTree.get (tree : PTree) (key : String) : Option String :=
  (tree.children.find? fun c => c.1 == key).map fun c => c.2.data

/-- Modelled from the spec: the constructors of `Data`, `Ratio`, `LegendBox`, `TextBox`
and `Axis` from a property tree, defined outside the given sources; `none` when the
constructor throws. -/
structure TreeReaders where
  data : PTree → Option Data
  ratio : PTree → Option Data
  legendBox : PTree → Option Box
  textBox : PTree → Option Box
  axis : PTree → Option Axis

/-- A change of the entry of one pad id, which `operator[]` creates when it is
absent. -/
def withPad (plot : Plot) (padID : Int) (f : Pad → Pad) : Plot :=
  { plot with pads := mapModify intLt padID ({ data := [] } : Pad) f plot.pads }

/-- The data branch for one child of a pad tree (`Plot.cxx:67-79`); an error carries the
plot as built so far. -/
def addData (rd : TreeReaders) (padID : Int) (plot : Plot) (content : String × PTree) :
    Except Plot Plot :=
  if containsStr content.1 "DATA" then
    match content.2.get "type" with
    | none => .error plot
    | some type =>
      if type == "data" then
        match rd.data content.2 with
        | none => .error (withPad plot padID id)
        | some d => .ok (withPad plot padID fun pad => { pad with data := pad.data ++ [d] })
      else if type == "ratio" then
        match rd.ratio content.2 with
        | none => .error (withPad plot padID id)
        | some d => .ok (withPad plot padID fun pad => { pad with data := pad.data ++ [d] })
      else .ok plot
  else .ok plot

/-- The box branch for one child of a pad tree (`Plot.cxx:82-93`). -/
def addBox (rd : TreeReaders) (padID : Int) (plot : Plot) (content : String × PTree) :
    Except Plot Plot :=
  if containsStr content.1 "BOX" then
    match content.2.get "type" with
    | none => .error plot
    | some type =>
      if type == "legend" then
        match rd.legendBox content.2 with
        | none => .error (withPad plot padID id)
        | some b => .ok (withPad plot padID fun pad => { pad with boxes := pad.boxes ++ [b] })
      else if type == "text" then
        match rd.textBox content.2 with
        | none => .error (withPad plot padID id)
        | some b => .ok (withPad plot padID fun pad => { pad with boxes := pad.boxes ++ [b] })
      else .ok plot
  else .ok plot

/-- The axis branch for one child of a pad tree (`Plot.cxx:96-100`). -/
def addAxis (rd : TreeReaders) (padID : Int) (plot : Plot) (content : String × PTree) :
    Except Plot Plot :=
  if containsStr content.1 "AXIS" then
    match content.2.get "name" with
    | none => .error plot
    | some axis =>
      match rd.axis content.2 with
      | none => .error plot
      | some a =>
        .ok (withPad plot padID fun pad => { pad with axes := mapSet strLt axis a pad.axes })
  else .ok plot

/-- One child of a pad tree (`Plot.cxx:64-101`). -/
def addContent (rd : TreeReaders) (padID : Int) (plot : Plot) (content : String × PTree) :
    Except Plot Plot :=
  match addData rd padID plot content with
  | .error p => .error p
  | .ok p1 =>
    match addBox rd padID p1 content with
    | .error p => .error p
    | .ok p2 => addAxis rd padID p2 content

/-- The children of a pad tree in order. -/
def addContents (rd : TreeReaders) (padID : Int) :
    Plot → List (String × PTree) → Except Plot Plot
  | plot, [] => .ok plot
  | plot, content :: rest =>
    match addContent rd padID plot content with
    | .error p => .error p
    | .ok p => addContents rd padID p rest

/-- The loop over the children of a plot tree (`Plot.cxx:59-104`) with the running pad
id: a child whose key contains `PAD` gives the next pad. -/
def addPads (rd : TreeReaders) : Plot → Int → List (String × PTree) → Except Plot Plot
  | plot, _, [] => .ok plot
  | plot, padID, pad :: rest =>
    if containsStr pad.1 "PAD" then
      match pad.2.get "controlString" with
      | none => .error plot
      | some c =>
        match addContents rd padID
            (withPad plot padID fun x => { x with controlString := some c })
            pad.2.children with
        | .error p => .error p
        | .ok p => addPads rd p (padID + 1) rest
    else addPads rd plot padID rest

/-- The constructor `Plot::Plot(ptree&)` (`Plot.cxx:52-113`): the plot built and whether
the constructor printed its error. The body is wrapped in `try ... catch(...)`, so an
exception thrown while reading the tree ends the reading, the members assigned up to
then keep their values, and the constructor returns normally. -/
def Plot.fromTree (rd : TreeReaders) (plotTree : PTree) : Plot × Bool :=
  let p0 : Plot :=
    { name := "", figureGroup := "", figureCategory := "", plotTemplateName := none,
      pads := [], plotStyle := "", mCurrPad := 1 }
  match plotTree.get "name" with
  | none => (p0, true)
  | some name =>
    match plotTree.get "figureGroup" with
    | none => ({ p0 with name := name }, true)
    | some figureGroup =>
      match plotTree.get "figureCategory" with
      | none => ({ p0 with name := name, figureGroup := figureGroup }, true)
      | some figureCategory =>
        match plotTree.get "plotStyle" with
        | none =>
          ({ p0 with
            name := name, figureGroup := figureGroup, figureCategory := figureCategory },
            true)
        | some plotStyle =>
          match addPads rd
              { p0 with
                name := name, figureGroup := figureGroup, figureCategory := figureCategory,
                plotStyle := plotStyle }
              1 plotTree.children with
          | .error p => (p, true)
          | .ok p => (p, false)

/-- How the loop over the user's group expressions ends (`PlotManager.cxx:459-477`): with
the pairs of group and category expressions, at a user string with more than one `:`,
or with the exception that a constructor of `std::regex` throws. -/
inductive ExpressionsOutcome where
  | pairs (groupCategoryRegex : List (String × String))
  | colon
  | threw

/-- The pairs of group and category expressions of `ExtractPlotsFromFile`
(`PlotManager.cxx:459-477`), user string by user string: more than one `:` ends the
function with an error line, and an expression that the constructor of `std::regex`
does not accept (`regexValid` is false) throws `std::regex_error`. -/
def groupCategoryExpressions (regexValid : String → Bool) :
    List String → ExpressionsOutcome
  | [] => .pairs []
  | figureGroupWithCategoryUser :: rest =>
    let groupCat := splitString figureGroupWithCategoryUser ':'
    let group :=
      if groupCat.length > 0 && !(groupCat.getD 0 "" == "") then groupCat.getD 0 "" else ".*"
    let category :=
      if groupCat.length > 1 && !(groupCat.getD 1 "" == "") then groupCat.getD 1 "" else ".*"
    if groupCat.length > 2 then .colon
    else if !(regexValid group && regexValid category) then .threw
    else
      match groupCategoryExpressions regexValid rest with
      | .pairs r => .pairs ((group, category) :: r)
      | .colon => .colon
      | .threw => .threw

/-- The manager after a plot object was constructed from a tree: the error line of the
constructor is printed when the construction failed. -/
def logConstruct (m : PlotManager) (failed : Bool) : PlotManager :=
  if failed then { m with log := m.log ++ [Message.constructFailed] } else m

/-- The body of the loop over the plot trees of a group (`PlotManager.cxx:495-530`) with
the manager and the count `nFoundPlots`; an error is an exception that leaves
`ExtractPlotsFromFile`. `regexMatch text expression` stands for `std::regex_match`. The
calls in the `try` block, the constructor and `AddPlot`, do not throw. -/
def loadPlotTree (rd : TreeReaders) (regexMatch : String → String → Bool)
    (groupCategoryRegex : List (String × String)) (plotNamesRegex : List String)
    (isTemplate isSearchRequest : Bool) (st : PlotManager × Nat)
    (plotTree : String × PTree) : Except PlotManager (PlotManager × Nat) :=
  match plotTree.2.get "name" with
  | none => .error st.1
  | some plotName =>
    match plotTree.2.get "figureGroup" with
    | none => .error st.1
    | some figureGroup =>
      match plotTree.2.get "figureCategory" with
      | none => .error st.1
      | some figureCategory =>
        if !(groupCategoryRegex.any fun e =>
            regexMatch figureGroup e.1 && regexMatch figureCategory e.2) && !isTemplate then
          .ok st
        else if !(plotNamesRegex.any fun e => regexMatch plotName e) && !isTemplate then
          .ok st
        else if isTemplate then
          let built := Plot.fromTree rd plotTree.2
          .ok (AddPlotTemplate (logConstruct st.1 built.2) built.1, st.2)
        else if isSearchRequest then
          .ok ({ st.1 with
            log := st.1.log ++
              [Message.foundPlot plotName (Plot.groupLabel figureGroup figureCategory)] },
            (st.2 + 1) % 2 ^ 32)
        else
          let built := Plot.fromTree rd plotTree.2
          .ok (AddPlot (logConstruct st.1 built.2) built.1, (st.2 + 1) % 2 ^ 32)

/-- The plot trees of one group in order. -/
def loadPlotTrees (rd : TreeReaders) (regexMatch : String → String → Bool)
    (groupCategoryRegex : List (String × String)) (plotNamesRegex : List String)
    (isTemplate isSearchRequest : Bool) :
    PlotManager × Nat → List (String × PTree) → Except PlotManager (PlotManager × Nat)
  | st, [] => .ok st
  | st, plotTree :: rest =>
    match loadPlotTree rd regexMatch groupCategoryRegex plotNamesRegex isTemplate
        isSearchRequest st plotTree with
    | .error m => .error m
    | .ok st2 =>
      loadPlotTrees rd regexMatch groupCategoryRegex plotNamesRegex isTemplate
        isSearchRequest st2 rest

/-- The loop over the groups of the input tree (`PlotManager.cxx:487-531`); the group
identifier is the key without its first seven characters, and `substr` throws for a
shorter key. -/
def loadGroups (rd : TreeReaders) (regexMatch : String → String → Bool)
    (groupCategoryRegex : List (String × String)) (plotNamesRegex : List String)
    (isSearchRequest : Bool) :
    PlotManager × Nat → List (String × PTree) → Except PlotManager (PlotManager × Nat)
  | st, [] => .ok st
  | st, plotGroupTree :: rest =>
    if plotGroupTree.1.length < 7 then .error st.1
    else
      let groupIdentifier := String.mk (plotGroupTree.1.data.drop 7)
      let isTemplate := groupIdentifier == "TEMPLATES"
      if !(groupCategoryRegex.any fun e => regexMatch groupIdentifier e.1) && !isTemplate then
        loadGroups rd regexMatch groupCategoryRegex plotNamesRegex isSearchRequest st rest
      else
        match loadPlotTrees rd regexMatch groupCategoryRegex plotNamesRegex isTemplate
            isSearchRequest st plotGroupTree.2.children with
        | .error m => .error m
        | .ok st2 =>
          loadGroups rd regexMatch groupCategoryRegex plotNamesRegex isSearchRequest st2 rest

/-- How `ExtractPlotsFromFile` ends: it returns, an exception leaves it, or the
behaviour is undefined. -/
inductive ExtractOutcome where
  | returned (m : PlotManager) (events : List PlotEvent)
  | threw (m : PlotManager)
  | undefined

/-- `PlotManager::ExtractPlotsFromFile` (`PlotManager.cxx:455-543`). `readXml` gives the
tree that `read_xml` reads from a file, `none` when it throws; the cache of trees is
not recorded. `regexValid` tells whether the constructor of `std::regex` accepts an
expression; for an expression of the user that it does not accept the constructor
throws (`473-474`, `481`) before the file is read. -/
def ExtractPlotsFromFile (rd : TreeReaders) (regexMatch : String → String → Bool)
    (regexValid : String → Bool)
    (readXml : String → Option PTree) (painter : Plot → List TObj → Option TCanvas)
    (clicks : String → List Bool) (fs : String → Option (List TKey))
    (csvGraph : String → Nat) (m : PlotManager) (plotFileName : String)
    (figureGroupsWithCategoryUser plotNamesUser : List String) (mode : String) :
    ExtractOutcome :=
  let isSearchRequest := mode == "find"
  match groupCategoryExpressions regexValid figureGroupsWithCategoryUser with
  | .colon => .returned { m with log := m.log ++ [Message.colonInExpression] } []
  | .threw => .threw m
  | .pairs groupCategoryRegex =>
    if !(plotNamesUser.all regexValid) then .threw m
    else
      match readXml plotFileName with
      | none => .threw m
      | some inputTree =>
        match loadGroups rd regexMatch groupCategoryRegex plotNamesUser isSearchRequest
            (m, 0) inputTree.children with
        | .error m2 => .threw m2
        | .ok st =>
          let m3 : PlotManager :=
            { st.1 with
              log := st.1.log ++
                [if st.2 == 0 then Message.plotsNotDefined else Message.foundPlots st.2] }
          if !isSearchRequest && mode != "load" then
            match CreatePlots painter clicks fs csvGraph m3 "" "" [] mode with
            | none => .undefined
            | some r => .returned r.1 r.2
          else .returned m3 []

/-! ## Examples of plots -/

/-- A plot for the examples: it shows the dataset `h` of the source `A`. -/
def examplePlotH : Plot :=
  { name := "ph", figureGroup := "g", figureCategory := "", plotTemplateName := none,
    pads := [(1, { data := [Data.data "h" "A"] })] }

/-- A plot for the examples: it shows the dataset `zz` of the source `A`, which no file
holds. -/
def examplePlotMissing : Plot :=
  { name := "pz", figureGroup := "g", figureCategory := "", plotTemplateName := none,
    pads := [(1, { data := [Data.data "zz" "A"] })] }

/-- A painter for the examples: it returns a canvas named as the plot. -/
def examplePainter : Plot → List TObj → Option TCanvas :=
  fun plot _ => some ⟨plot.name, 0⟩

/-- A manager for the examples: the source `A` has the candidate file `b.root`, and the
plots `pz` and `ph` are stored in this order. -/
def exampleManager : PlotManager :=
  AddPlot (AddPlot (AddInputDataFiles PlotManager.init "A" ["b.root"]) examplePlotMissing)
    examplePlotH

/-- A manager for the examples: the source `A` has the candidate file `b.root`, and the
plot `ph` is stored. -/
def exampleManagerH : PlotManager :=
  AddPlot (AddInputDataFiles PlotManager.init "A" ["b.root"]) examplePlotH

/-- The manager `exampleManagerH` after `CreatePlots` has run once for all plots in the
output mode `pdf`. -/
def exampleManagerH1 : PlotManager :=
  { exampleManagerH with
    mNameRegister := [("A", 0), ("h", 1)]
    mDataLedger := [TObj.leaf "h_@_A" 7]
    savedFiles := [("/g/ph.pdf", ⟨"ph", 0⟩)]
    log := [Message.plotCreated "ph"] }

/-- What was done with a plot, by the name of the plot: `true` for a call of
`GeneratePlot`. -/
def PlotEvent.summary : PlotEvent → String × Bool
  | .generate plot => (plot.name, true)
  | .notPossible plot => (plot.name, false)

/-! ## Examples of plot definitions -/

/-- Readers for the examples: a data reference has the children `name` and
`inputIdentifier`, an axis the children `name` and `title`; no other object is read. -/
def exampleReaders : TreeReaders :=
  { data := fun t =>
      match t.get "name", t.get "inputIdentifier" with
      | some n, some i => some (Data.data n i)
      | _, _ => none
    ratio := fun _ => none
    legendBox := fun _ => none
    textBox := fun _ => none
    axis := fun t => (t.get "name").map fun n => ⟨n, t.get "title"⟩ }

/-- A plot definition without the field `plotStyle`. -/
def brokenPlotTree : PTree :=
  .node "" [("name", .node "broken" []), ("figureGroup", .node "g" []),
    ("figureCategory", .node "" [])]

/-- A complete plot definition with one pad and one data reference. -/
def goodPlotTree : PTree :=
  .node "" [("name", .node "good" []), ("figureGroup", .node "g" []),
    ("figureCategory", .node "" []), ("plotStyle", .node "default" []),
    ("PAD_1", .node "" [("controlString", .node "" []),
      ("DATA_1", .node "" [("type", .node "data" []), ("name", .node "h" []),
        ("inputIdentifier", .node "A" [])])])]

/-- A plot definition without the field `name`. -/
def namelessPlotTree : PTree :=
  .node "" [("figureGroup", .node "g" []), ("figureCategory", .node "" []),
    ("plotStyle", .node "default" [])]

/-- A plot file with the group `g`: a definition without `plotStyle` followed by a
complete definition. -/
def examplePlotFile : PTree :=
  .node "" [("GROUP::g", .node "" [("PLOT::broken", brokenPlotTree),
    ("PLOT::good", goodPlotTree)])]

/-- A plot file with the group `g`: a definition without `name` followed by a complete
definition. -/
def namelessPlotFile : PTree :=
  .node "" [("GROUP::g", .node "" [("PLOT::nameless", namelessPlotTree),
    ("PLOT::good", goodPlotTree)])]

/-- The manager with which `ExtractPlotsFromFile` returned. -/
def ExtractOutcome.returnedManager : ExtractOutcome → Option PlotManager
  | .returned m _ => some m
  | _ => none

/-- The manager at the time an exception left `ExtractPlotsFromFile`. -/
def ExtractOutcome.thrownManager : ExtractOutcome → Option PlotManager
  | .threw m => some m
  | _ => none

/-- Request arrays of equal length whose new names are pairwise distinct. -/
def Parallel (st : ReadState) : Prop :=
  st.dataNames.length = st.newDataNames.length ∧ st.newDataNames.Nodup

/-- A file for the examples: `N.root` holds the directory `P`, whose first key is the
directory `sub` with a leaf `x` of content `2` and whose second key is a leaf `x` of
content `1`. -/
def shadowFile : String → Option (List TKey) := fun path =>
  if path = "N.root" then
    some [.mk "P" "TDirectoryFile"
      (.dir "P" false
        [.mk "sub" "TDirectoryFile" (.dir "sub" false [.mk "x" "TH1D" (.leaf "x" 2)] []),
          .mk "x" "TH1D" (.leaf "x" 1)] [])]
  else none

/-! ## Examples of ledger states -/

/-- The manager after the plot `p` of group `g` has been generated in the output mode
`interactive` on a new manager. -/
def shownManager : PlotManager :=
  { PlotManager.init with
    mPlotLedger := [("p_@_g", ⟨"p", 0⟩)]
    mPlotViewHistory := ["p_@_g"]
    log := [Message.plotCreated "p"] }

/-- The manager `shownManager` after the plot `p` has been generated again in the output
mode `pdf`. -/
def savedManager : PlotManager :=
  { shownManager with
    mPlotLedger := []
    savedFiles := [("/g/p.pdf", ⟨"p", 0⟩)]
    log := [Message.plotCreated "p", Message.plotReplaced "p_@_g", Message.plotCreated "p"] }

/-- The manager `shownManager` after the plot `p` has been generated again in the output
mode `interactive` with a painter that returns no canvas. -/
def failedManager : PlotManager :=
  { shownManager with
    mPlotLedger := []
    log := [Message.plotCreated "p", Message.plotReplaced "p_@_g"] }

/-! ## Dumping plots -/

/-- The first child with the given key gets a new value. -/
def replaceFirst (key : String) (value : PTree) :
    List (String × PTree) → List (String × PTree)
  | [] => []
  | c :: cs => if c.1 == key then (c.1, value) :: cs else c :: replaceFirst key value cs

/-- `tree.put_child(path, value)` of a boost property tree for the fragments of the
path: missing parents are created at the end of the children, an existing child at the
path is replaced, otherwise the child is appended. The paths of `DumpPlots` have at
least one fragment. -/
def putChild : List String → PTree → PTree → PTree
  | [], _, tree => tree
  | [fragment], value, .node data children =>
    if children.any (fun c => c.1 == fragment) then
      .node data (replaceFirst fragment value children)
    else .node data (children ++ [(fragment, value)])
  | fragment :: more, value, .node data children =>
    match children.find? (fun c => c.1 == fragment) with
    | some c => .node data (replaceFirst fragment (putChild more value c.2) children)
    | none => .node data (children ++ [(fragment, putChild more value (.node "" []))])

/-- The set `usedTemplates` of `DumpPlots` (`PlotManager.cxx:185-186`): the template
names of all stored plots. -/
def usedTemplatesOf (mPlots : List Plot) : List String :=
  mPlots.filterMap fun plot => plot.plotTemplateName

/-- The tests of the loop body of `DumpPlots` (`PlotManager.cxx:192-207`): `false` when
the plot is passed over by a `continue`. -/
def dumpKeeps (usedTemplates : List String) (figureGroup : String) (plotNames : List String)
    (plot : Plot) : Bool :=
  if plot.figureGroup == "TEMPLATES" && !usedTemplates.contains plot.name then false
  else if figureGroup != "" then
    if plot.figureGroup != figureGroup then false
    else if !plotNames.isEmpty then plotNames.any fun plotName => plotName == plot.name
    else true
  else true

/-- The plots that `DumpPlots` puts into the tree, in the order of the loops: templates
first, then plots. -/
def dumpedPlots (m : PlotManager) (figureGroup : String) (plotNames : List String) :
    List Plot :=
  (m.mPlotTemplates ++ m.mPlots).filter
    (dumpKeeps (usedTemplatesOf m.mPlots) figureGroup plotNames)

/-- The path under which `DumpPlots` puts a plot (`PlotManager.cxx:208-211`), as its
fragments between the separators `.`: in the unique name `.` is replaced by `_` and `/`
by `|`, the figure group is used as it is. -/
def dumpPath (plot : Plot) : List String :=
  let displayedName := String.mk
    (plot.GetUniqueName.data.map fun c => if c = '.' then '_' else if c = '/' then '|' else c)
  splitString ("GROUP::" ++ plot.figureGroup ++ ".PLOT::" ++ displayedName) '.'

/-- `PlotManager::DumpPlots` (`PlotManager.cxx:183-213`): the tree handed to
`write_xml`. `toTree` stands for `Plot::GetPropetyTree`, whose result depends on classes
outside the given sources. -/
def DumpPlots (toTree : Plot → PTree) (m : PlotManager) (figureGroup : String)
    (plotNames : List String) : PTree :=
  (dumpedPlots m figureGroup plotNames).foldl
    (fun tree plot => putChild (dumpPath plot) (toTree plot) tree) (.node "" [])

/-- A manager for the examples: the template `T1` and the plot `p` of group `g` that
names the template `T1`. -/
def templateManager : PlotManager :=
  AddPlot (AddPlotTemplate PlotManager.init (Plot.create "T1" "" "default"))
    { Plot.create "p" "g" "default" with plotTemplateName := some "T1" }

/-- Whether a printed line is the error line of `CreatePlots` about a plot that could
not be created (`PlotManager.cxx:416`). -/
def Message.isNotPossible : Message → Bool
  | .plotNotPossible _ _ => true
  | _ => false

/-- Whether a printed line is the line of `GeneratePlot` about a created plot
(`PlotManager.cxx:277`). -/
def Message.isCreated : Message → Bool
  | .plotCreated _ => true
  | _ => false

/-! # Theorems -/

/-! ## Separator and unique names -/

theorem hasSub_append_left (pat x y : List Char) : hasSub pat (x ++ (pat ++ y)) = true := by
  induction x with
  | nil =>
    cases h : pat ++ y with
    | nil =>
      have : pat = [] := (List.append_eq_nil.mp h).1
      simp [hasSub, this]
    | cons c cs =>
      simp only [List.nil_append, hasSub, Bool.or_eq_true]
      left
      rw [← h]
      exact List.isPrefixOf_iff_prefix.mpr (List.prefix_append _ _)
  | cons c cs ih =>
    simp only [List.cons_append, hasSub, Bool.or_eq_true]
    right; exact ih

theorem sep_overlap_absurd (a r b d : List Char) (hr : r ≠ [])
    (h : ['_', '@', '_'] ++ b = r ++ (['_', '@', '_'] ++ d))
    (hc : hasSub ['_', '@', '_'] (a ++ r) = false)
    (hc2 : ¬ ['_', '@'] <:+ (a ++ r)) : False := by
  match r, hr with
  | [c1], _ =>
    simp at h
  | [c1, c2], _ =>
    simp at h
    obtain ⟨h1, h2, -⟩ := h
    subst h1 h2
    exact hc2 ⟨a, rfl⟩
  | c1 :: c2 :: c3 :: r2, _ =>
    simp at h
    obtain ⟨h1, h2, h3, -⟩ := h
    subst h1 h2 h3
    have := hasSub_append_left ['_', '@', '_'] a r2
    simp at this hc
    rw [this] at hc
    exact absurd hc (by simp)

theorem sep_split_unique (a b c d : List Char)
    (h : a ++ (['_', '@', '_'] ++ b) = c ++ (['_', '@', '_'] ++ d))
    (ha : hasSub ['_', '@', '_'] a = false) (hc : hasSub ['_', '@', '_'] c = false)
    (ha2 : ¬ ['_', '@'] <:+ a) (hc2 : ¬ ['_', '@'] <:+ c) : a = c ∧ b = d := by
  rcases List.append_eq_append_iff.mp h with ⟨r, h1, h2⟩ | ⟨r, h1, h2⟩
  · by_cases hr : r = []
    · subst hr; simp at h1 h2; exact ⟨h1.symm, h2⟩
    · subst h1
      exact (sep_overlap_absurd a r b d hr h2 hc hc2).elim
  · by_cases hr : r = []
    · subst hr; simp at h1 h2; exact ⟨h1, h2.symm⟩
    · subst h1
      exact (sep_overlap_absurd c r d b hr h2 ha ha2).elim

/-- C9 (as stated, refuted): the names `a_@` and `a` with the identifiers `b` and `@_b`
contain no separator, yet both pairs have the unique name `a_@_@_b`. -/
theorem uniqueName_not_injective :
    containsSeparator "a_@" = false ∧ containsSeparator "b" = false ∧
    containsSeparator "a" = false ∧ containsSeparator "@_b" = false ∧
    GetUniqueName "a_@" "b" = GetUniqueName "a" "@_b" ∧ ¬ ("a_@" = "a" ∧ "b" = "@_b") := by
  decide

/-- C9 (amended): on names and identifiers that contain no separator, and whose names
do not end in `_@`, the unique name determines the name and the identifier. -/
theorem uniqueName_injective (n1 s1 n2 s2 : String)
    (hn1 : containsSeparator n1 = false) (_hs1 : containsSeparator s1 = false)
    (hn2 : containsSeparator n2 = false) (_hs2 : containsSeparator s2 = false)
    (he1 : endsWithSepHead n1 = false) (he2 : endsWithSepHead n2 = false)
    (h : GetUniqueName n1 s1 = GetUniqueName n2 s2) : n1 = n2 ∧ s1 = s2 := by
  have hd := congrArg String.data h
  simp only [GetUniqueName, gNameGroupSeparator, String.data_append] at hd
  rw [List.append_assoc, List.append_assoc] at hd
  have e1 : ¬ ['_', '@'] <:+ n1.data := by
    intro hx
    have hy := List.isSuffixOf_iff_suffix.mpr hx
    simp [endsWithSepHead, hy] at he1
  have e2 : ¬ ['_', '@'] <:+ n2.data := by
    intro hx
    have hy := List.isSuffixOf_iff_suffix.mpr hx
    simp [endsWithSepHead, hy] at he2
  have := sep_split_unique n1.data s1.data n2.data s2.data hd hn1 hn2 e1 e2
  exact ⟨String.ext this.1, String.ext this.2⟩

theorem uniqueName_injective_witness :
    containsSeparator "hist1" = false ∧ containsSeparator "A" = false ∧
    endsWithSepHead "hist1" = false ∧
    (GetUniqueName "hist1" "A" = GetUniqueName "hist1" "A" → "hist1" = "hist1" ∧ "A" = "A") :=
  ⟨by decide, by decide, by decide,
    uniqueName_injective "hist1" "A" "hist1" "A" (by decide) (by decide) (by decide)
      (by decide) (by decide) (by decide)⟩

/-! ## Name register -/

theorem lookup_mapInsert_self (name : String) (v : Int) (reg : NameRegister) :
    (mapInsert name v reg).lookup name = some v := by
  induction reg with
  | nil => simp [mapInsert, List.lookup]
  | cons e rest ih =>
    obtain ⟨k, w⟩ := e
    simp only [mapInsert]
    split
    · simp [List.lookup]
    · split
      · next h => subst h; simp [List.lookup]
      · next h =>
        have : (name == k) = false := by simpa using h
        simp [List.lookup, this, ih]

theorem lookup_mapInsert_other (name other : String) (v : Int) (reg : NameRegister)
    (h : other ≠ name) : (mapInsert name v reg).lookup other = reg.lookup other := by
  have hne : (other == name) = false := by simpa using h
  induction reg with
  | nil => simp [mapInsert, List.lookup, hne]
  | cons e rest ih =>
    obtain ⟨k, w⟩ := e
    simp only [mapInsert]
    split
    · simp [List.lookup, hne]
    · split
      · next hk => subst hk; simp [List.lookup, hne]
      · cases hk : other == k <;> simp [List.lookup, hk, ih]

theorem lookup_eq_none_not_mem (name : String) (reg : NameRegister)
    (h : reg.lookup name = none) : ∀ e ∈ reg, e.1 ≠ name := by
  induction reg with
  | nil => simp
  | cons e rest ih =>
    obtain ⟨k, w⟩ := e
    cases hk : name == k with
    | true => simp [List.lookup, hk] at h
    | false =>
      simp only [List.lookup, hk] at h
      intro e he
      rcases List.mem_cons.mp he with rfl | he
      · intro hx; simp at hx; subst hx; simp at hk
      · exact ih h e he

theorem mapInsert_perm (name : String) (v : Int) (reg : NameRegister)
    (h : reg.lookup name = none) : (mapInsert name v reg).Perm ((name, v) :: reg) := by
  induction reg with
  | nil => simp [mapInsert]
  | cons e rest ih =>
    obtain ⟨k, w⟩ := e
    have hk : (name == k) = false := by
      cases hk : name == k with
      | true => simp [List.lookup, hk] at h
      | false => rfl
    have hrest : rest.lookup name = none := by simpa [List.lookup, hk] using h
    simp only [mapInsert]
    split
    · exact List.Perm.refl _
    · split
      · next hx => subst hx; simp at hk
      · exact ((ih hrest).cons (k, w)).trans (List.Perm.swap _ _ _)

theorem lookup_some_mem (name : String) (v : Int) (reg : NameRegister)
    (h : reg.lookup name = some v) : (name, v) ∈ reg := by
  induction reg with
  | nil => simp [List.lookup] at h
  | cons e rest ih =>
    obtain ⟨k, w⟩ := e
    cases hk : name == k with
    | true =>
      simp only [List.lookup, hk] at h
      have : name = k := by simpa using hk
      simp at h
      subst this h
      exact List.mem_cons_self _ _
    | false =>
      simp only [List.lookup, hk] at h
      exact List.mem_cons_of_mem _ (ih h)

theorem toInt32_of_lt (n : Nat) (h : n < 2 ^ 31) : toInt32 n = (n : Int) := by
  unfold toInt32
  rw [if_pos h]

theorem registerInv_step (reg : NameRegister) (name : String) (hinv : RegisterInv reg)
    (hsize : reg.length < 2 ^ 31) : RegisterInv (GetNameRegisterID reg name).2 := by
  unfold GetNameRegisterID
  cases hl : reg.lookup name with
  | some v => simpa using hinv
  | none =>
    simp only
    have hp := mapInsert_perm name (toInt32 reg.length) reg hl
    have hlen : (mapInsert name (toInt32 reg.length) reg).length = reg.length + 1 := by
      simpa using hp.length_eq
    rw [toInt32_of_lt _ hsize] at hp ⊢
    rw [toInt32_of_lt _ hsize] at hlen
    constructor
    · intro e he
      rw [hlen]
      rcases List.mem_cons.mp (hp.mem_iff.mp he) with rfl | he
      · simp
      · have := hinv.1 e he
        push_cast
        omega
    · have hn : (((name, (reg.length : Int)) :: reg).map Prod.snd).Nodup := by
        simp only [List.map_cons, List.nodup_cons]
        refine ⟨?_, hinv.2⟩
        intro hm
        obtain ⟨e, he, hv⟩ := List.mem_map.mp hm
        have := (hinv.1 e he).2
        omega
      exact (hp.map Prod.snd).nodup_iff.mpr hn

theorem length_le_step (reg : NameRegister) (name : String) :
    reg.length ≤ (GetNameRegisterID reg name).2.length := by
  unfold GetNameRegisterID
  cases hl : reg.lookup name with
  | some v => simp
  | none =>
    simp only
    have hp := mapInsert_perm name (toInt32 reg.length) reg hl
    have := hp.length_eq
    simp at this
    omega

theorem registerInv_of_reachable (reg : NameRegister) (hr : RegisterReachable reg) :
    reg.length ≤ 2 ^ 31 → RegisterInv reg := by
  induction hr with
  | init => intro _; exact ⟨by simp, by simp⟩
  | call reg name _ ih =>
    intro hsize
    have hle := length_le_step reg name
    by_cases hlt : reg.length < 2 ^ 31
    · exact registerInv_step reg name (ih (by omega)) hlt
    · have heq : reg.length = 2 ^ 31 := by omega
      have hinv := ih (by omega)
      unfold GetNameRegisterID at hsize ⊢
      cases hl : reg.lookup name with
      | some v => simpa using hinv
      | none =>
        exfalso
        simp only [hl] at hsize
        have hp := mapInsert_perm name (toInt32 reg.length) reg hl
        have := hp.length_eq
        simp at this
        omega

theorem find_value_of_inv (reg : NameRegister) (hinv : (reg.map Prod.snd).Nodup)
    (name : String) (v : Int) (hm : (name, v) ∈ reg) (out : String) :
    GetNameRegisterName reg out v = name := by
  unfold GetNameRegisterName
  cases hf : reg.find? (fun e => e.2 == v) with
  | none =>
    have := List.find?_eq_none.mp hf (name, v) hm
    simp at this
  | some e =>
    have hv : e.2 = v := by simpa using List.find?_some hf
    have he : e ∈ reg := List.mem_of_find?_eq_some hf
    have := List.inj_on_of_nodup_map hinv he hm (by simpa using hv)
    simp [this]

theorem GetNameRegisterID_known (reg : NameRegister) (name : String) (v : Int)
    (hl : reg.lookup name = some v) : GetNameRegisterID reg name = (v, reg) := by
  unfold GetNameRegisterID
  rw [hl]

theorem GetNameRegisterID_new (reg : NameRegister) (name : String)
    (hl : reg.lookup name = none) :
    GetNameRegisterID reg name =
      (toInt32 reg.length, mapInsert name (toInt32 reg.length) reg) := by
  unfold GetNameRegisterID
  rw [hl]
  dsimp only
  rw [lookup_mapInsert_self]
  rfl

/-- C8: for a register with fewer than `2^31` names, `GetNameRegisterID` returns the
stored id of a known name and leaves the register unchanged; for an unknown name it
returns the number of names registered before the call, stores that mapping and keeps
the id of every other name; a second call with the same name returns the same id and
changes nothing. -/
theorem GetNameRegisterID_spec (reg : NameRegister) (name : String)
    (hsize : reg.length < 2 ^ 31) :
    (match reg.lookup name with
      | some v => GetNameRegisterID reg name = (v, reg)
      | none =>
        (GetNameRegisterID reg name).1 = (reg.length : Int) ∧
        (GetNameRegisterID reg name).2.lookup name = some (reg.length : Int) ∧
        (GetNameRegisterID reg name).2.length = reg.length + 1 ∧
        ∀ other : String, other ≠ name →
          (GetNameRegisterID reg name).2.lookup other = reg.lookup other) ∧
    GetNameRegisterID (GetNameRegisterID reg name).2 name =
      ((GetNameRegisterID reg name).1, (GetNameRegisterID reg name).2) := by
  cases hl : reg.lookup name with
  | some v =>
    have hk := GetNameRegisterID_known reg name v hl
    refine ⟨hk, ?_⟩
    rw [hk]
    exact hk
  | none =>
    have hn := GetNameRegisterID_new reg name hl
    have h32 := toInt32_of_lt _ hsize
    have hp := mapInsert_perm name (toInt32 reg.length) reg hl
    have hlen := hp.length_eq
    rw [hn]
    dsimp only
    refine ⟨⟨h32, ?_, ?_, ?_⟩, ?_⟩
    · rw [lookup_mapInsert_self, h32]
    · rw [hlen, List.length_cons]
    · intro other ho
      exact lookup_mapInsert_other name other _ reg ho
    · exact GetNameRegisterID_known _ name _ (lookup_mapInsert_self name _ reg)

theorem GetNameRegisterID_spec_witness :
    ([("hist1", 0)] : NameRegister).length < 2 ^ 31 ∧
    (GetNameRegisterID [("hist1", 0)] "hist2").1 = 1 ∧
    (GetNameRegisterID [("hist1", 0)] "hist2").2 = [("hist1", 0), ("hist2", 1)] ∧
    GetNameRegisterID [("hist1", 0), ("hist2", 1)] "hist1" = (0, [("hist1", 0), ("hist2", 1)]) :=
  ⟨by decide, (GetNameRegisterID_spec [("hist1", 0)] "hist2" (by decide)).1.1, by decide,
    by decide⟩

/-- C7: in every register reached through `GetNameRegisterID` calls that holds fewer
than `2^31` names, `GetNameRegisterName (GetNameRegisterID x)` is `x`. -/
theorem GetNameRegisterName_GetNameRegisterID (reg : NameRegister)
    (hr : RegisterReachable reg) (hsize : reg.length < 2 ^ 31) (x mOutputDirectory : String) :
    GetNameRegisterName (GetNameRegisterID reg x).2 mOutputDirectory
      (GetNameRegisterID reg x).1 = x := by
  have hinv := registerInv_step reg x (registerInv_of_reachable reg hr (by omega)) hsize
  apply find_value_of_inv _ hinv.2
  apply lookup_some_mem
  cases hl : reg.lookup x with
  | some v =>
    rw [GetNameRegisterID_known reg x v hl]
    exact hl
  | none =>
    rw [GetNameRegisterID_new reg x hl]
    exact lookup_mapInsert_self x _ reg

theorem GetNameRegisterName_GetNameRegisterID_witness :
    RegisterReachable (GetNameRegisterID [] "hist1").2 ∧
    (GetNameRegisterID [] "hist1").2.length < 2 ^ 31 ∧
    GetNameRegisterName (GetNameRegisterID (GetNameRegisterID [] "hist1").2 "A").2 "out"
      (GetNameRegisterID (GetNameRegisterID [] "hist1").2 "A").1 = "A" :=
  ⟨RegisterReachable.call [] "hist1" RegisterReachable.init, by decide,
    GetNameRegisterName_GetNameRegisterID _
      (RegisterReachable.call [] "hist1" RegisterReachable.init) (by decide) "A" "out"⟩

/-! ## Locating a sub-directory -/

theorem FindSubDirectoryAt_node (segments : List String) :
    ∀ (depth : Nat) (root : TObj),
      (FindSubDirectoryAt depth (some root) segments).node = resolvePath root segments := by
  induction segments with
  | nil =>
    intro depth root
    simp only [FindSubDirectoryAt, resolvePath, walkPath]
    split <;> rfl
  | cons seg rest ih =>
    intro depth root
    cases root with
    | leaf n p => simp [FindSubDirectoryAt, resolvePath, walkPath, namedChild]
    | coll n items =>
      simp only [FindSubDirectoryAt, resolvePath, walkPath, namedChild, FindObject]
      cases h : items.find? (fun o => o.GetName == seg) with
      | none => rfl
      | some sub => simpa [resolvePath] using ih (depth + 1) sub
    | dir n f keys objs =>
      simp only [FindSubDirectoryAt, resolvePath, walkPath, namedChild, FindObject, FindKey]
      cases hk : keys.find? (fun k => k.GetName == seg) with
      | some key => simpa [resolvePath] using ih (depth + 1) key.ReadObj
      | none =>
        cases h : objs.find? (fun o => o.GetName == seg) with
        | none => rfl
        | some sub => simpa [resolvePath] using ih (depth + 1) sub

/-- C4: `FindSubDirectory (root, segments)` returns the node of the reference path
resolution: for no segments the root when it is a directory or collection, otherwise
the traversable node reached by resolving the segments one after the other as named
children (a key before an in-memory object in a directory); it returns nothing exactly
when a segment has no such child or the node reached is not traversable. -/
theorem FindSubDirectory_eq_resolvePath (root : TObj) (segments : List String) :
    (FindSubDirectory (some root) segments).node = resolvePath root segments ∧
    (resolvePath root [] = if root.isDirectory || root.isCollection then some root else none) ∧
    ((FindSubDirectory (some root) segments).node = none ↔
      (walkPath root segments = none ∨
        ∃ node, walkPath root segments = some node ∧
          (node.isDirectory || node.isCollection) = false)) := by
  have h := FindSubDirectoryAt_node segments 0 root
  refine ⟨h, rfl, ?_⟩
  unfold FindSubDirectory
  rw [h]
  unfold resolvePath
  cases hw : walkPath root segments with
  | none => simp
  | some node =>
    cases ht : (node.isDirectory || node.isCollection)
    · simp
    · simp

/-! ## Renderability -/

theorem FindObject_isSome (ledger : List TObj) (name : String) :
    (FindObject ledger name).isSome = true ↔ ∃ o ∈ ledger, o.GetName = name := by
  unfold FindObject
  rw [List.find?_isSome]
  simp

/-- C6: `IsPlotPossible` is true exactly when, for every data reference of every pad,
the ledger holds an entry named with the unique name of the reference and, for a ratio,
also an entry named with the unique name of its denominator. -/
theorem IsPlotPossible_iff (mDataLedger : List TObj) (plot : Plot) :
    IsPlotPossible mDataLedger plot = true ↔
      ∀ padEntry ∈ plot.pads, ∀ d ∈ padEntry.2.data,
        (∃ o ∈ mDataLedger, o.GetName = d.GetUniqueName) ∧
        (d.GetType = "ratio" → ∃ o ∈ mDataLedger, o.GetName = d.GetUniqueNameDenom) := by
  unfold IsPlotPossible
  simp only [List.all_eq_true]
  constructor
  · intro h padEntry hp d hd
    have := h padEntry hp d hd
    unfold neededNames at this
    cases d with
    | data n i =>
      simp [Data.GetType] at this ⊢
      exact (FindObject_isSome _ _).mp this
    | ratio n i dn di =>
      simp [Data.GetType] at this ⊢
      exact ⟨(FindObject_isSome _ _).mp this.1, (FindObject_isSome _ _).mp this.2⟩
  · intro h padEntry hp d hd dataName hn
    have := h padEntry hp d hd
    unfold neededNames at hn
    cases d with
    | data n i =>
      simp [Data.GetType] at hn this
      subst hn
      exact (FindObject_isSome _ _).mpr this
    | ratio n i dn di =>
      simp [Data.GetType] at hn this
      rcases hn with rfl | rfl
      · exact (FindObject_isSome _ _).mpr this.1
      · exact (FindObject_isSome _ _).mpr this.2

/-! ## Required data -/

theorem GetNameRegisterID_lookup_self (reg : NameRegister) (name : String) :
    (GetNameRegisterID reg name).2.lookup name = some (GetNameRegisterID reg name).1 := by
  cases hl : reg.lookup name with
  | some v => rw [GetNameRegisterID_known reg name v hl]; exact hl
  | none => rw [GetNameRegisterID_new reg name hl]; exact lookup_mapInsert_self name _ reg

theorem GetNameRegisterID_ext (reg : NameRegister) (name : String) :
    RegExt reg (GetNameRegisterID reg name).2 := by
  intro s v hs
  cases hl : reg.lookup name with
  | some w => rw [GetNameRegisterID_known reg name w hl]; exact hs
  | none =>
    rw [GetNameRegisterID_new reg name hl]
    have hne : s ≠ name := by
      intro h; subst h; rw [hl] at hs; cases hs
    show (mapInsert name (toInt32 reg.length) reg).lookup s = some v
    rw [lookup_mapInsert_other name s _ reg hne]
    exact hs

theorem regExt_refl (reg : NameRegister) : RegExt reg reg := fun _ _ h => h

theorem regExt_trans {a b c : NameRegister} (h1 : RegExt a b) (h2 : RegExt b c) :
    RegExt a c := fun s v h => h2 s v (h1 s v h)

theorem mem_setInsert (v x : Int) (s : List Int) : x ∈ setInsert v s ↔ x = v ∨ x ∈ s := by
  induction s with
  | nil => simp [setInsert]
  | cons y ys ih =>
    simp only [setInsert]
    split
    · simp
    · split
      · next h => subst h; simp
      · simp [ih]; tauto

theorem idMapHas_insert (k v k2 v2 : Int) (m : IdMap) :
    idMapHas (idMapInsert k v m) k2 v2 = true ↔ (k2 = k ∧ v2 = v) ∨ idMapHas m k2 v2 = true := by
  induction m with
  | nil => simp [idMapInsert, idMapHas]; tauto
  | cons e rest ih =>
    obtain ⟨k3, s⟩ := e
    simp only [idMapInsert]
    split
    · simp [idMapHas]; tauto
    · split
      · next h =>
        subst h
        simp [idMapHas, mem_setInsert]; tauto
      · simp only [idMapHas, List.any_cons, Bool.or_eq_true] at ih ⊢
        rw [ih]; tauto

theorem refersTo_ext (reg reg2 : NameRegister) (d : Data) (hreg : d.registered reg)
    (hext : RegExt reg reg2) (sid nid : Int) :
    d.refersTo reg sid nid ↔ d.refersTo reg2 sid nid := by
  obtain ⟨⟨a, ha⟩, ⟨b, hb⟩, hr⟩ := hreg
  have ha2 := hext _ _ ha
  have hb2 := hext _ _ hb
  unfold Data.refersTo
  by_cases ht : d.GetType = "ratio"
  · obtain ⟨⟨c, hc⟩, ⟨e, he⟩⟩ := hr ht
    have hc2 := hext _ _ hc
    have he2 := hext _ _ he
    simp [ha, hb, ha2, hb2, hc, he, hc2, he2]
  · simp [ha, hb, ha2, hb2, ht]

theorem registered_ext (reg reg2 : NameRegister) (d : Data) (hreg : d.registered reg)
    (hext : RegExt reg reg2) : d.registered reg2 := by
  obtain ⟨⟨a, ha⟩, ⟨b, hb⟩, hr⟩ := hreg
  refine ⟨⟨a, hext _ _ ha⟩, ⟨b, hext _ _ hb⟩, ?_⟩
  intro ht
  obtain ⟨⟨c, hc⟩, ⟨e, he⟩⟩ := hr ht
  exact ⟨⟨c, hext _ _ hc⟩, ⟨e, hext _ _ he⟩⟩

theorem idMapHas_addMissing (L req : IdMap) (a b sid nid : Int) :
    idMapHas (if !idMapHas L a b then idMapInsert a b req else req) sid nid = true ↔
      idMapHas req sid nid = true ∨ ((sid = a ∧ nid = b) ∧ idMapHas L sid nid = false) := by
  cases h : idMapHas L a b with
  | true =>
    simp only [Bool.not_true, Bool.false_eq_true, if_false]
    constructor
    · intro hx; exact Or.inl hx
    · rintro (hx | ⟨⟨rfl, rfl⟩, hx⟩)
      · exact hx
      · rw [h] at hx; cases hx
  | false =>
    simp only [Bool.not_false, if_true]
    rw [idMapHas_insert]
    constructor
    · rintro (⟨rfl, rfl⟩ | hx)
      · exact Or.inr ⟨⟨rfl, rfl⟩, h⟩
      · exact Or.inl hx
    · rintro (hx | ⟨hx, -⟩)
      · exact Or.inr hx
      · exact Or.inl hx

theorem scanData_spec (L : IdMap) (d : Data) (reg : NameRegister) (req : IdMap) :
    RegExt reg (scanData L d reg req).1 ∧ d.registered (scanData L d reg req).1 ∧
    ∀ sid nid, idMapHas (scanData L d reg req).2 sid nid = true ↔
      idMapHas req sid nid = true ∨
        (d.refersTo (scanData L d reg req).1 sid nid ∧ idMapHas L sid nid = false) := by
  have e1 := GetNameRegisterID_ext reg d.GetInputIdentifier
  have s1 := GetNameRegisterID_lookup_self reg d.GetInputIdentifier
  have e2 := GetNameRegisterID_ext (GetNameRegisterID reg d.GetInputIdentifier).2 d.GetName
  have s2 := GetNameRegisterID_lookup_self (GetNameRegisterID reg d.GetInputIdentifier).2
    d.GetName
  unfold scanData
  cases d with
  | data n i =>
    simp only [Data.GetType, Data.GetName, Data.GetInputIdentifier] at *
    have hne : ("data" == "ratio") = false := by decide
    simp only [hne, Bool.false_eq_true, if_false]
    have hno : ¬ ("data" = "ratio") := by decide
    refine ⟨regExt_trans e1 e2, ⟨⟨_, e2 _ _ s1⟩, ⟨_, s2⟩, fun h => absurd h hno⟩, ?_⟩
    intro sid nid
    rw [idMapHas_addMissing]
    unfold Data.refersTo
    simp only [Data.GetType, Data.GetName, Data.GetInputIdentifier, e2 _ _ s1, s2,
      Option.some.injEq, hno, false_and, or_false]
    constructor
    · rintro (h | ⟨⟨rfl, rfl⟩, h⟩)
      · exact Or.inl h
      · exact Or.inr ⟨⟨rfl, rfl⟩, h⟩
    · rintro (h | ⟨⟨rfl, rfl⟩, h⟩)
      · exact Or.inl h
      · exact Or.inr ⟨⟨rfl, rfl⟩, h⟩
  | ratio n i dn di =>
    simp only [Data.GetType, Data.GetName, Data.GetInputIdentifier, Data.GetDenomName,
      Data.GetDenomIdentifier] at *
    have e3 := GetNameRegisterID_ext
      (GetNameRegisterID (GetNameRegisterID reg i).2 n).2 di
    have s3 := GetNameRegisterID_lookup_self
      (GetNameRegisterID (GetNameRegisterID reg i).2 n).2 di
    have e4 := GetNameRegisterID_ext
      (GetNameRegisterID (GetNameRegisterID (GetNameRegisterID reg i).2 n).2 di).2 dn
    have s4 := GetNameRegisterID_lookup_self
      (GetNameRegisterID (GetNameRegisterID (GetNameRegisterID reg i).2 n).2 di).2 dn
    have heq : ("ratio" == "ratio") = true := by decide
    simp only [heq, if_true]
    have l1 := e4 _ _ (e3 _ _ (e2 _ _ s1))
    have l2 := e4 _ _ (e3 _ _ s2)
    have l3 := e4 _ _ s3
    refine ⟨regExt_trans (regExt_trans (regExt_trans e1 e2) e3) e4, ⟨⟨_, l1⟩, ⟨_, l2⟩, fun _ => ⟨⟨_, l3⟩, ⟨_, s4⟩⟩⟩, ?_⟩
    intro sid nid
    rw [idMapHas_addMissing, idMapHas_addMissing]
    unfold Data.refersTo
    simp only [Data.GetType, Data.GetName, Data.GetInputIdentifier, Data.GetDenomName,
      Data.GetDenomIdentifier, l1, l2, l3, s4, Option.some.injEq, true_and]
    constructor
    · rintro ((h | ⟨⟨rfl, rfl⟩, h⟩) | ⟨⟨rfl, rfl⟩, h⟩)
      · exact Or.inl h
      · exact Or.inr ⟨Or.inl ⟨rfl, rfl⟩, h⟩
      · exact Or.inr ⟨Or.inr ⟨rfl, rfl⟩, h⟩
    · rintro (h | ⟨⟨rfl, rfl⟩ | ⟨rfl, rfl⟩, h⟩)
      · exact Or.inl (Or.inl h)
      · exact Or.inl (Or.inr ⟨⟨rfl, rfl⟩, h⟩)
      · exact Or.inr ⟨⟨rfl, rfl⟩, h⟩

theorem scanDataList_spec (L : IdMap) (ds : List Data) :
    ∀ (reg : NameRegister) (req : IdMap),
      RegExt reg (scanDataList L ds reg req).1 ∧
      (∀ d ∈ ds, d.registered (scanDataList L ds reg req).1) ∧
      ∀ sid nid, idMapHas (scanDataList L ds reg req).2 sid nid = true ↔
        idMapHas req sid nid = true ∨
          ((∃ d ∈ ds, d.refersTo (scanDataList L ds reg req).1 sid nid) ∧
            idMapHas L sid nid = false) := by
  induction ds with
  | nil => intro reg req; simp [scanDataList, regExt_refl]
  | cons d ds ih =>
    intro reg req
    simp only [scanDataList]
    obtain ⟨hx1, hx2, hx3⟩ := scanData_spec L d reg req
    obtain ⟨hy1, hy2, hy3⟩ := ih (scanData L d reg req).1 (scanData L d reg req).2
    refine ⟨regExt_trans hx1 hy1, ?_, ?_⟩
    · intro e he
      rcases List.mem_cons.mp he with rfl | he
      · exact registered_ext _ _ _ hx2 hy1
      · exact hy2 e he
    · intro sid nid
      rw [hy3, hx3, refersTo_ext _ _ d hx2 hy1]
      simp only [List.mem_cons, exists_eq_or_imp]
      tauto

theorem scanDataList_append (L : IdMap) (a b : List Data) :
    ∀ (reg : NameRegister) (req : IdMap),
      scanDataList L (a ++ b) reg req =
        scanDataList L b (scanDataList L a reg req).1 (scanDataList L a reg req).2 := by
  induction a with
  | nil => intro reg req; rfl
  | cons d ds ih =>
    intro reg req
    simp only [List.cons_append, scanDataList]
    exact ih _ _

theorem scanPads_eq (L : IdMap) (pads : List (Int × Pad)) :
    ∀ (reg : NameRegister) (req : IdMap),
      scanPads L pads reg req =
        scanDataList L (pads.flatMap fun padEntry => padEntry.2.data) reg req := by
  induction pads with
  | nil => intro reg req; rfl
  | cons p ps ih =>
    intro reg req
    simp only [scanPads, List.flatMap_cons, scanDataList_append, ih]

theorem scanPlots_eq (figureGroup figureCategory : String) (saveAll saveSpecificPlots : Bool)
    (L : IdMap) (plots : List Plot) :
    ∀ st : RequiredState,
      ∃ sel : List Plot,
        (scanPlots figureGroup figureCategory saveAll saveSpecificPlots L plots st).selectedPlots
          = st.selectedPlots ++ sel ∧
        ((scanPlots figureGroup figureCategory saveAll saveSpecificPlots L plots st).mNameRegister,
          (scanPlots figureGroup figureCategory saveAll saveSpecificPlots L plots st).requiredData)
          = scanDataList L (sel.flatMap Plot.allData) st.mNameRegister st.requiredData := by
  induction plots with
  | nil => intro st; exact ⟨[], by simp [scanPlots, scanDataList]⟩
  | cons plot rest ih =>
    intro st
    simp only [scanPlots]
    split
    · exact ih st
    · split
      · exact ih st
      · obtain ⟨sel, h1, h2⟩ := ih
          { mNameRegister := (scanPads L plot.pads st.mNameRegister st.requiredData).1,
            requiredData := (scanPads L plot.pads st.mNameRegister st.requiredData).2,
            plotNames := if !st.plotNames.isEmpty then
              st.plotNames.filter (fun n => n != plot.name) else st.plotNames,
            selectedPlots := st.selectedPlots ++ [plot] }
        refine ⟨plot :: sel, ?_, ?_⟩
        · rw [h1]; simp
        · rw [h2]
          simp only [List.flatMap_cons, scanDataList_append, scanPads_eq, Plot.allData]

/-- C5: the required-data mapping built by `CreatePlots` holds the pair
`(source id, name id)` exactly when some data reference of a selected plot has that
source and name (for a ratio its numerator pair or its denominator pair) and the pair is
not in the already-loaded data. -/
theorem CreatePlotsRequired_iff (mPlots : List Plot) (mNameRegister : NameRegister)
    (mLoadedData : IdMap) (figureGroup figureCategory : String) (plotNames : List String)
    (sid nid : Int) :
    idMapHas (CreatePlotsRequired mPlots mNameRegister mLoadedData figureGroup figureCategory
        plotNames).requiredData sid nid = true ↔
      (∃ plot ∈ (CreatePlotsRequired mPlots mNameRegister mLoadedData figureGroup
          figureCategory plotNames).selectedPlots,
        ∃ padEntry ∈ plot.pads, ∃ d ∈ padEntry.2.data,
          d.refersTo (CreatePlotsRequired mPlots mNameRegister mLoadedData figureGroup
            figureCategory plotNames).mNameRegister sid nid) ∧
      idMapHas mLoadedData sid nid = false := by
  unfold CreatePlotsRequired
  obtain ⟨sel, h1, h2⟩ := scanPlots_eq figureGroup figureCategory (figureGroup == "")
    (!(figureGroup == "") && !plotNames.isEmpty) mLoadedData mPlots
    { mNameRegister := mNameRegister, requiredData := [], plotNames := plotNames,
      selectedPlots := [] }
  simp only [List.nil_append] at h1
  have hreg := congrArg Prod.fst h2
  have hreq := congrArg Prod.snd h2
  simp only at hreg hreq
  obtain ⟨-, -, h3⟩ := scanDataList_spec mLoadedData (sel.flatMap Plot.allData) mNameRegister []
  simp only
  rw [h1, hreg, hreq, h3]
  have hempty : idMapHas [] sid nid = false := rfl
  simp only [hempty, Bool.false_eq_true, false_or, Plot.allData, List.mem_flatMap]
  constructor
  · rintro ⟨⟨d, ⟨plot, hp, padEntry, hpad, hd⟩, hr⟩, hl⟩
    exact ⟨⟨plot, hp, padEntry, hpad, d, hd, hr⟩, hl⟩
  · rintro ⟨⟨plot, hp, padEntry, hpad, d, hd, hr⟩, hl⟩
    exact ⟨⟨d, ⟨plot, hp, padEntry, hpad, hd⟩, hr⟩, hl⟩

/-! ## Recursive extraction -/

theorem readRel_refl (st : ReadState) (h : st.dataNames.length = st.newDataNames.length) :
    ReadRel st st :=
  ⟨[], by simp, h, List.Sublist.refl _, by simp, by simp⟩

theorem readRel_trans {a b c : ReadState} (h1 : ReadRel a b) (h2 : ReadRel b c) :
    ReadRel a c := by
  obtain ⟨ad1, ho1, _, hs1, hp1, hl1⟩ := h1
  obtain ⟨ad2, ho2, hlen2, hs2, hp2, hl2⟩ := h2
  refine ⟨ad1 ++ ad2, ?_, hlen2, hs2.trans hs1, ?_, ?_⟩
  · rw [ho2, ho1, List.append_assoc]
  · rw [List.map_append, List.append_assoc]
    exact (List.Perm.append_left _ hp2).trans hp1
  · intro x hx
    rcases List.mem_append.mp hx with hx | hx
    · exact hl1 x hx
    · exact hl2 x hx

theorem zip_sublist_fst {α β : Type} : ∀ (a c : List α) (b d : List β),
    a.length = b.length → c.length = d.length → (a.zip b).Sublist (c.zip d) → a.Sublist c := by
  intro a c b d h1 h2 h
  have := h.map Prod.fst
  rwa [List.map_fst_zip _ _ (by omega), List.map_fst_zip _ _ (by omega)] at this

theorem zip_sublist_snd {α β : Type} : ∀ (a c : List α) (b d : List β),
    a.length = b.length → c.length = d.length → (a.zip b).Sublist (c.zip d) → b.Sublist d := by
  intro a c b d h1 h2 h
  have := h.map Prod.snd
  rwa [List.map_snd_zip _ _ (by omega), List.map_snd_zip _ _ (by omega)] at this

theorem paired_of_rel {st st2 : ReadState} (hp : Paired st) (hr : ReadRel st st2) :
    Paired st2 := by
  obtain ⟨added, _, hlen, hs, _, _⟩ := hr
  exact ⟨hlen, (zip_sublist_fst _ _ _ _ hlen hp.1 hs).nodup hp.2.1,
    (zip_sublist_snd _ _ _ _ hlen hp.1 hs).nodup hp.2.2⟩
theorem erase_pair (a : List String) : ∀ (b : List String), a.length = b.length → b.Nodup →
    ∀ w : String, w ∈ a →
      b.getD (a.indexOf w) "" ∈ b ∧
      (a.erase w).length = (b.erase (b.getD (a.indexOf w) "")).length ∧
      ((a.erase w).zip (b.erase (b.getD (a.indexOf w) ""))).Sublist (a.zip b) := by
  induction a with
  | nil => intro b _ _ w hw; cases hw
  | cons x xs ih =>
    intro b hlen hb w hw
    cases b with
    | nil => simp at hlen
    | cons y ys =>
      have hlen2 : xs.length = ys.length := by simpa using hlen
      have hys : ys.Nodup := (List.nodup_cons.mp hb).2
      have hy : y ∉ ys := (List.nodup_cons.mp hb).1
      by_cases hx : x = w
      · subst hx
        simp only [List.indexOf_cons_self, List.getD_cons_zero, List.erase_cons_head]
        refine ⟨List.mem_cons_self _ _, hlen2, ?_⟩
        simp only [List.zip_cons_cons]
        exact List.sublist_cons_self _ _
      · have hw2 : w ∈ xs := by
          rcases List.mem_cons.mp hw with h | h
          · exact absurd h.symm hx
          · exact h
        obtain ⟨h1, h2, h3⟩ := ih ys hlen2 hys w hw2
        have hidx : (x :: xs).indexOf w = xs.indexOf w + 1 := by
          rw [List.indexOf_cons_ne _ hx]
        rw [hidx]
        simp only [List.getD_cons_succ]
        have hne : y ≠ ys.getD (xs.indexOf w) "" := by
          intro h; rw [← h] at h1; exact hy h1
        have hxw : (x == w) = false := by simpa using hx
        have hyu : (y == ys.getD (xs.indexOf w) "") = false := by simpa using hne
        rw [List.erase_cons, List.erase_cons, hxw, hyu]
        simp only [Bool.false_eq_true, if_false, List.length_cons, List.zip_cons_cons]
        exact ⟨List.mem_cons_of_mem _ h1, by omega, h3.cons₂ _⟩

theorem matchLeaf_rel (subSpec : String) (obj : TObj) (st : ReadState) (hp : Paired st)
    (hobj : (obj.isDirectory || obj.isCollection) = false) :
    ReadRel st (matchLeaf subSpec obj st) := by
  unfold matchLeaf
  by_cases hw : (subSpec ++ obj.GetName) ∈ st.dataNames
  · simp only [hw, if_true]
    obtain ⟨h1, h2, h3⟩ := erase_pair st.dataNames st.newDataNames hp.1 hp.2.2 _ hw
    have hne : st.newDataNames.isEmpty = false := by
      cases hn : st.newDataNames with
      | nil => rw [hn] at h1; cases h1
      | cons _ _ => rfl
    simp only [hne, Bool.not_false, if_true]
    refine ⟨[obj.SetName (st.newDataNames.getD (st.dataNames.indexOf (subSpec ++ obj.GetName)) "")],
      rfl, h2, h3, ?_, ?_⟩
    · have hname : ∀ (o : TObj) (n : String), (o.SetName n).GetName = n := by
        intro o n; cases o <;> rfl
      simp only [List.map_cons, List.map_nil, List.singleton_append, hname]
      exact (List.perm_cons_erase h1).symm
    · intro a ha
      simp only [List.mem_singleton] at ha
      subst ha
      cases obj <;> simp_all [TObj.SetName, TObj.isDirectory, TObj.isCollection]
  · simp only [hw, if_false]
    exact readRel_refl st hp.1
theorem readKeys_cons (subSpec keyName className : String) (obj : TObj) (rest : List TKey)
    (st : ReadState) :
    readKeys subSpec (.mk keyName className obj :: rest) st =
      if isTraversableClass className || decide ((subSpec ++ keyName) ∈ st.dataNames) then
        (if (readStep subSpec obj st).dataNames.isEmpty then readStep subSpec obj st
          else readKeys subSpec rest (readStep subSpec obj st))
      else readKeys subSpec rest st := by
  rw [readKeys]
  rfl

theorem readItems_cons (subSpec : String) (obj : TObj) (rest : List TObj) (st : ReadState) :
    readItems subSpec (obj :: rest) st =
      if (readStep subSpec obj st).dataNames.isEmpty then (rest, readStep subSpec obj st)
      else readItems subSpec rest (readStep subSpec obj st) := by
  rw [readItems]
  rfl

theorem ReadData_coll (name : String) (items : List TObj) (st : ReadState) :
    ReadData (.coll name items) st =
      if readGuard st then (.coll name items, st)
      else (.coll name (readItems (readSubSpec st.dataNames) items st).1,
        (readItems (readSubSpec st.dataNames) items st).2) := by
  rw [ReadData]
  unfold readGuard
  cases h1 : st.dataNames.isEmpty
  · cases h2 : (!st.newDataNames.isEmpty && st.newDataNames.length != st.dataNames.length) <;>
      simp [h1, h2]
  · simp [h1]

theorem ReadData_dir (name : String) (isFile : Bool) (keys : List TKey) (objs : List TObj)
    (st : ReadState) :
    ReadData (.dir name isFile keys objs) st =
      if readGuard st then (.dir name isFile keys objs, st)
      else (.dir name isFile keys objs, readKeys (readSubSpec st.dataNames) keys st) := by
  rw [ReadData]
  unfold readGuard
  cases h1 : st.dataNames.isEmpty
  · cases h2 : (!st.newDataNames.isEmpty && st.newDataNames.length != st.dataNames.length) <;>
      simp [h1, h2]
  · simp [h1]

theorem ReadData_leaf (name : String) (payload : Nat) (st : ReadState) :
    ReadData (.leaf name payload) st = (.leaf name payload, st) := by
  rw [ReadData]

theorem readStep_rel (subSpec : String) (obj : TObj) (st : ReadState) (hp : Paired st)
    (hrec : ∀ s, Paired s → ReadRel s (ReadData obj s).2) :
    ReadRel st (readStep subSpec obj st) := by
  unfold readStep
  cases h : (obj.isDirectory || obj.isCollection) with
  | true => simpa using hrec st hp
  | false => simpa using matchLeaf_rel subSpec obj st hp h

mutual
theorem ReadData_rel : ∀ (folder : TObj) (st : ReadState), Paired st →
    ReadRel st (ReadData folder st).2
  | .leaf name payload, st, hp => by
    rw [ReadData_leaf]
    exact readRel_refl st hp.1
  | .coll name items, st, hp => by
    rw [ReadData_coll]
    split
    · exact readRel_refl st hp.1
    · exact readItems_rel items _ st hp
  | .dir name isFile keys objs, st, hp => by
    rw [ReadData_dir]
    split
    · exact readRel_refl st hp.1
    · exact readKeys_rel keys _ st hp
theorem readKeys_rel : ∀ (keys : List TKey) (subSpec : String) (st : ReadState), Paired st →
    ReadRel st (readKeys subSpec keys st)
  | [], subSpec, st, hp => by
    rw [readKeys]
    exact readRel_refl st hp.1
  | .mk keyName className obj :: rest, subSpec, st, hp => by
    rw [readKeys_cons]
    have h1 := readStep_rel subSpec obj st hp (ReadData_rel obj)
    split
    · split
      · exact h1
      · exact readRel_trans h1 (readKeys_rel rest subSpec _ (paired_of_rel hp h1))
    · exact readKeys_rel rest subSpec st hp
theorem readItems_rel : ∀ (items : List TObj) (subSpec : String) (st : ReadState), Paired st →
    ReadRel st (readItems subSpec items st).2
  | [], subSpec, st, hp => by
    rw [readItems]
    exact readRel_refl st hp.1
  | obj :: rest, subSpec, st, hp => by
    rw [readItems_cons]
    have h1 := readStep_rel subSpec obj st hp (ReadData_rel obj)
    split
    · exact h1
    · exact readRel_trans h1 (readItems_rel rest subSpec _ (paired_of_rel hp h1))
end

theorem ReadRel.dataNames_sublist {st st2 : ReadState} (hp : Paired st) (hr : ReadRel st st2) :
    st2.dataNames.Sublist st.dataNames := by
  obtain ⟨added, _, hlen, hs, _, _⟩ := hr
  exact zip_sublist_fst _ _ _ _ hlen hp.1 hs

theorem matchLeaf_removes (subSpec name : String) (payload : Nat) (st : ReadState)
    (hp : Paired st) :
    (subSpec ++ name) ∉ (matchLeaf subSpec (.leaf name payload) st).dataNames := by
  unfold matchLeaf
  simp only [TObj.GetName]
  by_cases hw : (subSpec ++ name) ∈ st.dataNames
  · simp only [hw, if_true]
    split <;> exact fun h => (List.Nodup.mem_erase_iff hp.2.1).mp h |>.1 rfl
  · simpa only [hw, if_false] using hw

theorem readStep_leaf (subSpec name : String) (payload : Nat) (st : ReadState) :
    readStep subSpec (.leaf name payload) st = matchLeaf subSpec (.leaf name payload) st := by
  unfold readStep
  simp [TObj.isDirectory, TObj.isCollection]

theorem readStep_rel_all (subSpec : String) (obj : TObj) (st : ReadState) (hp : Paired st) :
    ReadRel st (readStep subSpec obj st) :=
  readStep_rel subSpec obj st hp (ReadData_rel obj)

theorem readItems_removes (subSpec bare : String) (payload : Nat) :
    ∀ (items : List TObj) (st : ReadState), Paired st → TObj.leaf bare payload ∈ items →
      (subSpec ++ bare) ∉ (readItems subSpec items st).2.dataNames := by
  intro items
  induction items with
  | nil => intro st _ h; cases h
  | cons obj rest ih =>
    intro st hp hmem
    rw [readItems_cons]
    have h1 := readStep_rel_all subSpec obj st hp
    have hp2 := paired_of_rel hp h1
    split
    · next hempty =>
      simp only [List.isEmpty_iff] at hempty
      simp [hempty]
    · rcases List.mem_cons.mp hmem with heq | hrest
      · subst heq
        have hrm : (subSpec ++ bare) ∉ (readStep subSpec (.leaf bare payload) st).dataNames := by
          rw [readStep_leaf]; exact matchLeaf_removes subSpec bare payload st hp
        have h2 := readItems_rel rest subSpec _ hp2
        exact fun h => hrm ((h2.dataNames_sublist hp2).subset h)
      · exact ih _ hp2 hrest

theorem readKeys_removes (subSpec bare className : String) (payload : Nat) :
    ∀ (keys : List TKey) (st : ReadState), Paired st →
      TKey.mk bare className (TObj.leaf bare payload) ∈ keys →
      (subSpec ++ bare) ∉ (readKeys subSpec keys st).dataNames := by
  intro keys
  induction keys with
  | nil => intro st _ h; cases h
  | cons key rest ih =>
    intro st hp hmem
    obtain ⟨keyName, cls, obj⟩ := key
    rw [readKeys_cons]
    have h1 := readStep_rel_all subSpec obj st hp
    have hp2 := paired_of_rel hp h1
    rcases List.mem_cons.mp hmem with heq | hrest
    · injection heq with e1 e2 e3
      subst e1 e2 e3
      split
      · have hrm : (subSpec ++ bare) ∉
            (readStep subSpec (.leaf bare payload) st).dataNames := by
          rw [readStep_leaf]; exact matchLeaf_removes subSpec bare payload st hp
        split
        · exact hrm
        · have h2 := readKeys_rel rest subSpec _ hp2
          exact fun h => hrm ((h2.dataNames_sublist hp2).subset h)
      · next hc =>
        have hnot : (subSpec ++ bare) ∉ st.dataNames := by
          intro hin
          apply hc
          simp [hin]
        have h2 := readKeys_rel rest subSpec st hp
        exact fun h => hnot ((h2.dataNames_sublist hp).subset h)
    · split
      · split
        · next hempty =>
          simp only [List.isEmpty_iff] at hempty
          simp [hempty]
        · exact ih _ hp2 hrest
      · exact ih _ hp hrest

theorem ReadData_removes (container : TObj) (bare : String) (st : ReadState) (hp : Paired st)
    (hentry : container.hasLeafEntry bare) :
    (readSubSpec st.dataNames ++ bare) ∉ (ReadData container st).2.dataNames := by
  have hguard : readGuard st = true → st.dataNames = [] := by
    intro hg
    unfold readGuard at hg
    cases hd : st.dataNames with
    | nil => rfl
    | cons d ds =>
      have hlen := hp.1
      rw [hd] at hlen
      cases hn : st.newDataNames with
      | nil => rw [hn] at hlen; simp at hlen
      | cons u us =>
        rw [hn] at hlen
        simp [hd, hn] at hg
        simp at hlen
        omega
  cases container with
  | leaf n p => exact absurd hentry (by simp [TObj.hasLeafEntry])
  | coll n items =>
    obtain ⟨payload, hmem⟩ := hentry
    rw [ReadData_coll]
    split
    · next hg => simp [hguard hg]
    · exact readItems_removes _ bare payload items st hp hmem
  | dir n f keys objs =>
    obtain ⟨cls, payload, hmem⟩ := hentry
    rw [ReadData_dir]
    split
    · next hg => simp [hguard hg]
    · exact readKeys_removes _ bare cls payload keys st hp hmem
theorem zip_snd_unique (a b : List String) (hlen : a.length = b.length) (hb : b.Nodup)
    (p q : String × String) (hp : p ∈ a.zip b) (hq : q ∈ a.zip b) (h : p.2 = q.2) : p = q := by
  have hn : ((a.zip b).map Prod.snd).Nodup := by
    rw [List.map_snd_zip _ _ (by omega)]; exact hb
  exact List.inj_on_of_nodup_map hn hp hq h

theorem ReadRel.count_added {st st2 : ReadState} (hp : Paired st) (hr : ReadRel st st2)
    (n u : String) (hreq : (n, u) ∈ st.dataNames.zip st.newDataNames)
    (hgone : n ∉ st2.dataNames) :
    ∃ added, st2.outputDataArray = st.outputDataArray ++ added ∧
      (added.map TObj.GetName).count u = 1 ∧
      ∀ a ∈ added, (a.isDirectory || a.isCollection) = false := by
  obtain ⟨added, ho, hlen, hs, hperm, hleaf⟩ := hr
  refine ⟨added, ho, ?_, hleaf⟩
  have hu : u ∈ st.newDataNames := (List.of_mem_zip hreq).2
  have hnot : u ∉ st2.newDataNames := by
    intro hin
    have hin2 : u ∈ (st2.dataNames.zip st2.newDataNames).map Prod.snd := by
      rw [List.map_snd_zip _ _ (by omega)]; exact hin
    obtain ⟨p, hpz, hp2⟩ := List.mem_map.mp hin2
    have hpz0 := hs.subset hpz
    have := zip_snd_unique _ _ hp.1 hp.2.2 p (n, u) hpz0 hreq hp2
    subst this
    exact hgone (List.of_mem_zip hpz).1
  have hc := hperm.count_eq u
  rw [List.count_append, List.count_eq_zero_of_not_mem hnot,
    List.count_eq_one_of_mem hp.2.2 hu] at hc
  simpa using hc

/-- C1: for every container and every request list of distinct names with distinct paired
new names whose names share one directory prefix, after `ReadData` each requested name
whose bare name (the name without that prefix) is the name of a leaf entry of the
container is no longer pending, and exactly one object carrying its paired new name has
been appended to the output array. -/
theorem ReadData_extracts_leaf_entries (container : TObj) (st : ReadState) (hp : Paired st)
    (hshare : ∀ m ∈ st.dataNames, subSpecOf m = subSpecOf (st.dataNames.headD ""))
    (n u bare : String) (hreq : (n, u) ∈ st.dataNames.zip st.newDataNames)
    (hbare : n = withSlash (subSpecOf n) ++ bare) (hentry : container.hasLeafEntry bare) :
    n ∉ (ReadData container st).2.dataNames ∧
    ∃ added, (ReadData container st).2.outputDataArray = st.outputDataArray ++ added ∧
      (added.map TObj.GetName).count u = 1 ∧
      ∀ a ∈ added, (a.isDirectory || a.isCollection) = false := by
  have hn : n ∈ st.dataNames := (List.of_mem_zip hreq).1
  have hsub : readSubSpec st.dataNames = withSlash (subSpecOf n) := by
    unfold readSubSpec; rw [hshare n hn]
  have hgone : n ∉ (ReadData container st).2.dataNames := by
    have := ReadData_removes container bare st hp hentry
    rw [hsub, ← hbare] at this
    exact this
  exact ⟨hgone, (ReadData_rel container st hp).count_added hp n u hreq hgone⟩

theorem ReadData_extracts_leaf_entries_witness :
    (ReadData (.dir "fileA.root" true [.mk "hist1" "TH1D" (.leaf "hist1" 7)] [])
      ⟨["hist1"], ["hist1_@_A"], []⟩).2.outputDataArray.map TObj.GetName = ["hist1_@_A"] ∧
    "hist1" ∉ (ReadData (.dir "fileA.root" true [.mk "hist1" "TH1D" (.leaf "hist1" 7)] [])
      ⟨["hist1"], ["hist1_@_A"], []⟩).2.dataNames :=
  ⟨by decide,
    (ReadData_extracts_leaf_entries
      (.dir "fileA.root" true [.mk "hist1" "TH1D" (.leaf "hist1" 7)] [])
      ⟨["hist1"], ["hist1_@_A"], []⟩ ⟨rfl, by simp, by simp⟩ (by decide) "hist1" "hist1_@_A"
      "hist1" (by decide) (by decide) ⟨"TH1D", 7, List.Mem.head _⟩).1⟩

theorem matchLeaf_nomatch (subSpec : String) (obj : TObj) (st : ReadState)
    (h : (subSpec ++ obj.GetName) ∉ st.dataNames) : matchLeaf subSpec obj st = st := by
  unfold matchLeaf
  simp only [h, if_false]

theorem readStep_nomatch (obj : TObj) (st : ReadState)
    (hrec : (∀ z ∈ obj.leafNames, readSubSpec st.dataNames ++ z ∉ st.dataNames) →
      (ReadData obj st).2 = st)
    (h : ∀ z ∈ obj.leafNames, readSubSpec st.dataNames ++ z ∉ st.dataNames) :
    readStep (readSubSpec st.dataNames) obj st = st := by
  unfold readStep
  cases hc : (obj.isDirectory || obj.isCollection) with
  | true => simpa using hrec h
  | false =>
    simp only [Bool.false_eq_true, if_false]
    cases obj with
    | leaf name payload =>
      apply matchLeaf_nomatch
      exact h name (by simp [TObj.leafNames, TObj.GetName])
    | coll _ _ => simp [TObj.isCollection] at hc
    | dir _ _ _ _ => simp [TObj.isDirectory] at hc

mutual
theorem ReadData_nomatch : ∀ (folder : TObj) (st : ReadState),
    (∀ z ∈ folder.leafNames, readSubSpec st.dataNames ++ z ∉ st.dataNames) →
    (ReadData folder st).2 = st
  | .leaf name payload, st, _ => by rw [ReadData_leaf]
  | .coll name items, st, h => by
    rw [ReadData_coll]
    split
    · rfl
    · rw [TObj.leafNames] at h
      exact readItems_nomatch items st h
  | .dir name isFile keys objs, st, h => by
    rw [ReadData_dir]
    split
    · rfl
    · rw [TObj.leafNames] at h
      exact readKeys_nomatch keys st h
theorem readKeys_nomatch : ∀ (keys : List TKey) (st : ReadState),
    (∀ z ∈ leafNamesKeys keys, readSubSpec st.dataNames ++ z ∉ st.dataNames) →
    readKeys (readSubSpec st.dataNames) keys st = st
  | [], st, _ => by rw [readKeys]
  | .mk keyName className obj :: rest, st, h => by
    rw [readKeys_cons]
    rw [leafNamesKeys] at h
    have h1 : readStep (readSubSpec st.dataNames) obj st = st :=
      readStep_nomatch obj st (ReadData_nomatch obj st)
        (fun z hz => h z (List.mem_append_left _ hz))
    have h2 := readKeys_nomatch rest st (fun z hz => h z (List.mem_append_right _ hz))
    rw [h1, h2]
    simp
theorem readItems_nomatch : ∀ (items : List TObj) (st : ReadState),
    (∀ z ∈ leafNamesItems items, readSubSpec st.dataNames ++ z ∉ st.dataNames) →
    (readItems (readSubSpec st.dataNames) items st).2 = st
  | [], st, _ => by rw [readItems]
  | obj :: rest, st, h => by
    rw [readItems_cons]
    rw [leafNamesItems] at h
    have h1 : readStep (readSubSpec st.dataNames) obj st = st :=
      readStep_nomatch obj st (ReadData_nomatch obj st)
        (fun z hz => h z (List.mem_append_left _ hz))
    have h2 := readItems_nomatch rest st (fun z hz => h z (List.mem_append_right _ hz))
    rw [h1]
    split
    · rfl
    · exact h2
end

theorem leafNamesItems_append (a b : List TObj) :
    leafNamesItems (a ++ b) = leafNamesItems a ++ leafNamesItems b := by
  induction a with
  | nil => simp [leafNamesItems]
  | cons o rest ih => simp [leafNamesItems, ih]

theorem readSubSpec_of_shared (P : String) (names : List String) (hne : names ≠ [])
    (hs : SharedPrefix P names) : readSubSpec names = withSlash P := by
  cases names with
  | nil => exact absurd rfl hne
  | cons d ds =>
    unfold readSubSpec
    simp only [List.headD_cons]
    rw [hs d (List.mem_cons_self _ _)]

theorem Paired.guard_false {st : ReadState} (hp : Paired st) (hne : st.dataNames ≠ []) :
    readGuard st = false := by
  unfold readGuard
  have hlen := hp.1
  cases hd : st.dataNames with
  | nil => exact absurd hd hne
  | cons d ds =>
    rw [hd] at hlen
    cases hn : st.newDataNames with
    | nil => rw [hn] at hlen; simp at hlen
    | cons u us =>
      rw [hn] at hlen
      simp at hlen
      simp [hlen]

theorem sharedPrefix_of_rel {P : String} {st st2 : ReadState} (hp : Paired st)
    (hs : SharedPrefix P st.dataNames) (hr : ReadRel st st2) : SharedPrefix P st2.dataNames :=
  fun m hm => hs m ((hr.dataNames_sublist hp).subset hm)

theorem readStep_origin (P : String) (obj : TObj) (st : ReadState)
    (hrec : ∀ n ∈ st.dataNames, n ∉ (ReadData obj st).2.dataNames →
      ∃ x ∈ obj.leafNames, n = withSlash P ++ x)
    (n : String) (hn : n ∈ st.dataNames)
    (hgone : n ∉ (readStep (withSlash P) obj st).dataNames) :
    ∃ x ∈ obj.leafNames, n = withSlash P ++ x := by
  unfold readStep at hgone
  cases hc : (obj.isDirectory || obj.isCollection) with
  | true =>
    simp only [hc, if_true] at hgone
    exact hrec n hn hgone
  | false =>
    simp only [hc, Bool.false_eq_true, if_false] at hgone
    cases obj with
    | leaf name payload =>
      refine ⟨name, by simp [TObj.leafNames], ?_⟩
      unfold matchLeaf at hgone
      simp only [TObj.GetName] at hgone
      by_cases hw : (withSlash P ++ name) ∈ st.dataNames
      · simp only [hw, if_true] at hgone
        by_contra hne
        have hin : n ∈ st.dataNames.erase (withSlash P ++ name) :=
          (List.mem_erase_of_ne hne).mpr hn
        split at hgone <;> exact hgone hin
      · simp only [hw, if_false] at hgone
        exact absurd hn hgone
    | coll _ _ => simp [TObj.isCollection] at hc
    | dir _ _ _ _ => simp [TObj.isDirectory] at hc

mutual
theorem ReadData_origin : ∀ (folder : TObj) (st : ReadState) (P : String), Paired st →
    SharedPrefix P st.dataNames → ∀ n ∈ st.dataNames, n ∉ (ReadData folder st).2.dataNames →
    ∃ x ∈ folder.leafNames, n = withSlash P ++ x
  | .leaf name payload, st, P, _, _, n, hn, hgone => by
    rw [ReadData_leaf] at hgone
    exact absurd hn hgone
  | .coll name items, st, P, hp, hs, n, hn, hgone => by
    have hne : st.dataNames ≠ [] := List.ne_nil_of_mem hn
    rw [ReadData_coll, hp.guard_false hne, readSubSpec_of_shared P _ hne hs] at hgone
    simp only [Bool.false_eq_true, if_false] at hgone
    obtain ⟨visited, hv, _, hor⟩ := readItems_origin items st P hp hs
    obtain ⟨x, hx, hnx⟩ := hor n hn hgone
    refine ⟨x, ?_, hnx⟩
    rw [TObj.leafNames, ← hv, leafNamesItems_append]
    exact List.mem_append_left _ hx
  | .dir name isFile keys objs, st, P, hp, hs, n, hn, hgone => by
    have hne : st.dataNames ≠ [] := List.ne_nil_of_mem hn
    rw [ReadData_dir, hp.guard_false hne, readSubSpec_of_shared P _ hne hs] at hgone
    simp only [Bool.false_eq_true, if_false] at hgone
    rw [TObj.leafNames]
    exact readKeys_origin keys st P hp hs n hn hgone
theorem readKeys_origin : ∀ (keys : List TKey) (st : ReadState) (P : String), Paired st →
    SharedPrefix P st.dataNames →
    ∀ n ∈ st.dataNames, n ∉ (readKeys (withSlash P) keys st).dataNames →
    ∃ x ∈ leafNamesKeys keys, n = withSlash P ++ x
  | [], st, P, _, _, n, hn, hgone => by
    rw [readKeys] at hgone
    exact absurd hn hgone
  | .mk keyName className obj :: rest, st, P, hp, hs, n, hn, hgone => by
    rw [readKeys_cons] at hgone
    rw [leafNamesKeys]
    have h1 := readStep_rel_all (withSlash P) obj st hp
    have hp2 := paired_of_rel hp h1
    have hstep := readStep_origin P obj st (ReadData_origin obj st P hp hs) n hn
    split at hgone
    · by_cases hin : n ∈ (readStep (withSlash P) obj st).dataNames
      · split at hgone
        · exact absurd hin hgone
        · obtain ⟨x, hx, hnx⟩ := readKeys_origin rest _ P hp2 (sharedPrefix_of_rel hp hs h1) n hin hgone
          exact ⟨x, List.mem_append_right _ hx, hnx⟩
      · obtain ⟨x, hx, hnx⟩ := hstep hin
        exact ⟨x, List.mem_append_left _ hx, hnx⟩
    · obtain ⟨x, hx, hnx⟩ := readKeys_origin rest st P hp hs n hn hgone
      exact ⟨x, List.mem_append_right _ hx, hnx⟩
theorem readItems_origin : ∀ (items : List TObj) (st : ReadState) (P : String), Paired st →
    SharedPrefix P st.dataNames →
    ∃ visited, visited ++ (readItems (withSlash P) items st).1 = items ∧
      ((readItems (withSlash P) items st).1 = [] ∨
        (readItems (withSlash P) items st).2.dataNames = []) ∧
      ∀ n ∈ st.dataNames, n ∉ (readItems (withSlash P) items st).2.dataNames →
        ∃ x ∈ leafNamesItems visited, n = withSlash P ++ x
  | [], st, P, _, _ => by
    rw [readItems]
    exact ⟨[], rfl, Or.inl rfl, fun n hn hgone => absurd hn hgone⟩
  | obj :: rest, st, P, hp, hs => by
    rw [readItems_cons]
    have h1 := readStep_rel_all (withSlash P) obj st hp
    have hp2 := paired_of_rel hp h1
    have hstep := readStep_origin P obj st (ReadData_origin obj st P hp hs)
    split
    · next hempty =>
      simp only [List.isEmpty_iff] at hempty
      refine ⟨[obj], rfl, Or.inr hempty, ?_⟩
      intro n hn hgone
      obtain ⟨x, hx, hnx⟩ := hstep n hn hgone
      exact ⟨x, by simpa [leafNamesItems] using hx, hnx⟩
    · obtain ⟨visited, hv, hor, horigin⟩ := readItems_origin rest _ P hp2 (sharedPrefix_of_rel hp hs h1)
      refine ⟨obj :: visited, by rw [List.cons_append, hv], hor, ?_⟩
      intro n hn hgone
      rw [leafNamesItems]
      by_cases hin : n ∈ (readStep (withSlash P) obj st).dataNames
      · obtain ⟨x, hx, hnx⟩ := horigin n hin hgone
        exact ⟨x, List.mem_append_right _ hx, hnx⟩
      · obtain ⟨x, hx, hnx⟩ := hstep n hn hin
        exact ⟨x, List.mem_append_left _ hx, hnx⟩
end
theorem string_append_left_cancel (p a b : String) (h : p ++ a = p ++ b) : a = b := by
  have hd := congrArg String.data h
  simp only [String.data_append] at hd
  exact String.ext (List.append_cancel_left hd)

theorem ReadData_leftover (name : String) (items : List TObj) (st : ReadState)
    (hp : Paired st)
    (hshare : ∀ m ∈ st.dataNames, subSpecOf m = subSpecOf (st.dataNames.headD ""))
    (hnames : (leafNamesItems items).Nodup) :
    ∀ z ∈ (ReadData (.coll name items) st).1.leafNames,
      readSubSpec st.dataNames ++ z ∉ st.dataNames := by
  intro z hz hin
  have hne : st.dataNames ≠ [] := List.ne_nil_of_mem hin
  have hs : SharedPrefix (subSpecOf (st.dataNames.headD "")) st.dataNames := hshare
  have hsub := readSubSpec_of_shared _ _ hne hs
  rw [ReadData_coll, hp.guard_false hne, hsub] at hz
  simp only [Bool.false_eq_true, if_false, TObj.leafNames] at hz
  obtain ⟨visited, hv, hor, horigin⟩ := readItems_origin items st _ hp hs
  rcases hor with hnil | hdone
  · rw [hnil] at hz
    simp [leafNamesItems] at hz
  · rw [hsub] at hin
    obtain ⟨x, hx, hnx⟩ := horigin _ hin (by rw [hdone]; simp)
    have hzx : z = x := string_append_left_cancel _ _ _ hnx
    subst hzx
    rw [← hv, leafNamesItems_append] at hnames
    exact (List.disjoint_of_nodup_append hnames) hx hz

/-- C10 (as stated, refuted): `ReadData` leaves the list of keys of a directory as it
was, so the matched key is still listed and a second run with the original request list
appends the dataset again; and a collection that holds two leaves of one name still
yields the second leaf in a second run. -/
theorem ReadData_second_run_adds :
    (ReadData (.dir "fileA.root" true [.mk "h" "TH1D" (.leaf "h" 7)] [])
      ⟨["h"], ["h_@_A"], []⟩).1 = .dir "fileA.root" true [.mk "h" "TH1D" (.leaf "h" 7)] [] ∧
    (ReadData (ReadData (.dir "fileA.root" true [.mk "h" "TH1D" (.leaf "h" 7)] [])
      ⟨["h"], ["h_@_A"], []⟩).1
      ⟨["h"], ["h_@_A"], [.leaf "h_@_A" 7]⟩).2.outputDataArray =
        [.leaf "h_@_A" 7, .leaf "h_@_A" 7] ∧
    (ReadData (ReadData (.coll "list" [.leaf "h" 1, .leaf "h" 2]) ⟨["h"], ["h_@_A"], []⟩).1
      ⟨["h"], ["h_@_A"], [.leaf "h_@_A" 1]⟩).2.outputDataArray =
        [.leaf "h_@_A" 1, .leaf "h_@_A" 2] := by
  refine ⟨by rfl, by rfl, by rfl⟩

/-- C10 (amended): for a collection whose leaves have pairwise distinct names and a request
list of distinct names sharing one directory prefix, after `ReadData` no leaf left in
the collection answers a request of the list, and a second `ReadData` on the collection
with the original request list changes nothing, so it adds nothing to the output array.
The list of keys of a directory is never changed by `ReadData`. -/
theorem ReadData_collection_depleted (name : String) (items : List TObj) (st : ReadState)
    (hp : Paired st)
    (hshare : ∀ m ∈ st.dataNames, subSpecOf m = subSpecOf (st.dataNames.headD ""))
    (hnames : (leafNamesItems items).Nodup) :
    (∀ z ∈ (ReadData (.coll name items) st).1.leafNames,
      readSubSpec st.dataNames ++ z ∉ st.dataNames) ∧
    (ReadData (ReadData (.coll name items) st).1
      ⟨st.dataNames, st.newDataNames,
        (ReadData (.coll name items) st).2.outputDataArray⟩).2 =
      ⟨st.dataNames, st.newDataNames, (ReadData (.coll name items) st).2.outputDataArray⟩ ∧
    (∀ (dirName : String) (isFile : Bool) (keys : List TKey) (objs : List TObj)
      (s : ReadState),
      (ReadData (.dir dirName isFile keys objs) s).1 = .dir dirName isFile keys objs) := by
  have hA := ReadData_leftover name items st hp hshare hnames
  refine ⟨hA, ReadData_nomatch _ _ hA, ?_⟩
  intro dirName isFile keys objs s
  rw [ReadData_dir]
  split <;> rfl

theorem ReadData_collection_depleted_witness :
    (ReadData (.coll "list" [.leaf "a" 1, .leaf "h" 2, .leaf "c" 3])
      ⟨["h"], ["h_@_A"], []⟩).1 = .coll "list" [.leaf "c" 3] ∧
    (ReadData (.coll "list" [.leaf "c" 3]) ⟨["h"], ["h_@_A"], [.leaf "h_@_A" 2]⟩).2 =
      ⟨["h"], ["h_@_A"], [.leaf "h_@_A" 2]⟩ :=
  ⟨by rfl,
    (ReadData_collection_depleted "list" [.leaf "a" 1, .leaf "h" 2, .leaf "c" 3]
      ⟨["h"], ["h_@_A"], []⟩ ⟨rfl, by simp, by simp⟩ (by decide) (by decide)).2.1⟩

/-! ## Reading from a list of files -/

theorem dataSubSpecsOf_single (n : String) : dataSubSpecsOf [n] = [subSpecOf n] := by
  simp [dataSubSpecsOf, strSetInsert]

theorem moveGroup_single (n u : String) (hn : n ≠ "") :
    moveGroup (subSpecOf n) [n] [u] = some ⟨[n], [u], [""], [""]⟩ := by
  simp [moveGroup, hn]

theorem processFile_single (fs : String → Option (List TKey)) (f n u : String)
    (out : List TObj) (folder : TObj) (b : Bool) (hn : n ≠ "")
    (he : findEntry fs f = .found folder b) :
    processFile fs [subSpecOf n] f ⟨[n], [u], out⟩ =
      .done (match (FindSubDirectory (some folder) (splitString (subSpecOf n) '/')).node with
        | some subfolder => (ReadData subfolder ⟨[n], [u], out⟩).2
        | none => ⟨[n], [u], out⟩) := by
  unfold processFile
  rw [he]
  simp only [processGroups, moveGroup_single n u hn]
  simp

theorem ReadRel.single_done {n u : String} {out : List TObj} {st2 : ReadState}
    (hr : ReadRel ⟨[n], [u], out⟩ st2) (hgone : n ∉ st2.dataNames) :
    ∃ a, a.GetName = u ∧ (a.isDirectory || a.isCollection) = false ∧
      st2 = ⟨[], [], out ++ [a]⟩ := by
  have hp : Paired ⟨[n], [u], out⟩ := ⟨rfl, by simp, by simp⟩
  have hsub := hr.dataNames_sublist hp
  obtain ⟨added, ho, hlen, hs, hperm, hleaf⟩ := hr
  have hd : st2.dataNames = [] := by
    cases hd : st2.dataNames with
    | nil => rfl
    | cons d ds =>
      rw [hd] at hsub
      have hmem : d ∈ [n] := hsub.subset (List.mem_cons_self _ _)
      simp only [List.mem_singleton] at hmem
      subst hmem
      exact absurd (by rw [hd]; exact List.mem_cons_self _ _) hgone
  have hnw : st2.newDataNames = [] := by
    rw [hd] at hlen
    exact List.length_eq_zero.mp hlen.symm
  rw [hnw, List.append_nil] at hperm
  have hmap : added.map TObj.GetName = [u] := List.perm_singleton.mp hperm
  cases added with
  | nil => simp at hmap
  | cons a rest =>
    cases rest with
    | cons _ _ => simp at hmap
    | nil =>
      simp only [List.map_cons, List.map_nil, List.cons.injEq, and_true] at hmap
      refine ⟨a, hmap, hleaf a (List.mem_cons_self _ _), ?_⟩
      cases st2
      simp only at hd hnw ho
      subst hd hnw ho
      rfl

theorem moveGroup_zip (spec : String) : ∀ (ds news : List String), ds.length = news.length →
    ∃ m, moveGroup spec ds news = some m ∧
      m.curDataNames.length = m.curNewDataNames.length ∧
      m.dataNames.length = m.newDataNames.length ∧
      m.curDataNames.zip m.curNewDataNames = (ds.zip news).filter (movesTo spec) ∧
      m.dataNames.zip m.newDataNames = (ds.zip news).map (blankMoved spec) := by
  intro ds
  induction ds with
  | nil =>
    intro news hlen
    cases news with
    | nil => exact ⟨⟨[], [], [], []⟩, rfl, rfl, rfl, rfl, rfl⟩
    | cons _ _ => simp at hlen
  | cons d ds ih =>
    intro news hlen
    cases news with
    | nil => simp at hlen
    | cons u us =>
      obtain ⟨m, hm, h1, h2, h3, h4⟩ := ih us (by simpa using hlen)
      by_cases hc : d ≠ "" ∧ subSpecOf d = spec
      · refine ⟨⟨d :: m.curDataNames, u :: m.curNewDataNames, "" :: m.dataNames,
          "" :: m.newDataNames⟩, ?_, ?_, ?_, ?_, ?_⟩
        · simp only [moveGroup, hc, and_self, if_true, hm, Option.map_some', ne_eq,
            not_false_eq_true]
        · simp [h1]
        · simp [h2]
        · have : movesTo spec (d, u) = true := by simp [movesTo, hc]
          simp only [List.zip_cons_cons, List.filter_cons, this, if_true, h3]
        · have : movesTo spec (d, u) = true := by simp [movesTo, hc]
          simp only [List.zip_cons_cons, List.map_cons, blankMoved, this, if_true, h4]
      · refine ⟨⟨m.curDataNames, m.curNewDataNames, d :: m.dataNames,
          u :: m.newDataNames⟩, ?_, h1, ?_, ?_, ?_⟩
        · simp only [moveGroup, hc, if_false, hm, Option.map_some']
        · simp [h2]
        · have : movesTo spec (d, u) = false := by simp [movesTo]; tauto
          simp only [List.zip_cons_cons, List.filter_cons, this, Bool.false_eq_true, if_false,
            h3]
        · have : movesTo spec (d, u) = false := by simp [movesTo]; tauto
          simp only [List.zip_cons_cons, List.map_cons, blankMoved, this, Bool.false_eq_true,
            if_false, h4]

theorem filter_zip_nonblank : ∀ (ds news : List String), ds.length = news.length →
    (∀ p ∈ ds.zip news, (p.1 = "" ↔ p.2 = "")) →
    (ds.filter (fun s => s != "")).zip (news.filter (fun s => s != "")) =
      (ds.zip news).filter (fun p => p.1 != "") := by
  intro ds
  induction ds with
  | nil => intro news _ _; simp
  | cons d ds ih =>
    intro news hlen hco
    cases news with
    | nil => simp at hlen
    | cons u us =>
      have hrest := ih us (by simpa using hlen)
        (fun p hp => hco p (by simp only [List.zip_cons_cons]; exact List.mem_cons_of_mem _ hp))
      have hdu := hco (d, u) (by simp)
      simp only at hdu
      by_cases hd : d = ""
      · have hu : u = "" := hdu.mp hd
        subst hd hu
        simpa using hrest
      · have hu : u ≠ "" := fun h => hd (hdu.mpr h)
        simp [hd, hu, hrest]

theorem FindSubDirectoryAt_cons (depth : Nat) (folder : TObj) (seg : String)
    (rest : List String) :
    FindSubDirectoryAt depth (some folder) (seg :: rest) =
      match namedChild folder seg with
      | none => ⟨none, if folder.isDirectory || folder.isTFile then [] else [depth]⟩
      | some sub =>
        ⟨(FindSubDirectoryAt (depth + 1) (some sub) rest).node,
          (if folder.isDirectory || folder.isTFile then [] else [depth]) ++
            (FindSubDirectoryAt (depth + 1) (some sub) rest).deleted⟩ := by
  cases folder with
  | leaf n p => simp [FindSubDirectoryAt, namedChild, TObj.isDirectory, TObj.isTFile]
  | coll n items =>
    simp only [FindSubDirectoryAt, namedChild, FindObject, TObj.isDirectory, TObj.isTFile]
    cases items.find? (fun o => o.GetName == seg) <;> simp
  | dir n f keys objs =>
    simp only [FindSubDirectoryAt, namedChild, FindObject, FindKey, TObj.isDirectory,
      TObj.isTFile]
    cases keys.find? (fun k => k.GetName == seg) with
    | some key => simp
    | none => cases objs.find? (fun o => o.GetName == seg) <;> simp

theorem deleted_ge (segs : List String) : ∀ (depth : Nat) (o : TObj),
    ∀ d ∈ (FindSubDirectoryAt depth (some o) segs).deleted, depth ≤ d := by
  induction segs with
  | nil =>
    intro depth folder d hd
    simp only [FindSubDirectoryAt] at hd
    split at hd <;> simp at hd
  | cons seg rest ih =>
    intro depth folder d hd
    rw [FindSubDirectoryAt_cons] at hd
    have hhere : ∀ x ∈ (if folder.isDirectory || folder.isTFile then [] else [depth]),
        depth ≤ x := by
      intro x hx
      split at hx
      · cases hx
      · simp only [List.mem_singleton] at hx; omega
    cases hc : namedChild folder seg with
    | none =>
      rw [hc] at hd
      exact hhere d hd
    | some sub =>
      rw [hc] at hd
      simp only [List.mem_append] at hd
      rcases hd with hd | hd
      · exact hhere d hd
      · have := ih (depth + 1) sub d hd
        omega

theorem file_not_deleted (name : String) (isFile : Bool) (keys : List TKey) (objs : List TObj)
    (segs : List String) :
    (FindSubDirectory (some (.dir name isFile keys objs)) segs).deleted.contains 0 = false := by
  have hno : (0 : Nat) ∉ (FindSubDirectory (some (.dir name isFile keys objs)) segs).deleted := by
    unfold FindSubDirectory
    cases segs with
    | nil => simp [FindSubDirectoryAt, TObj.isDirectory]
    | cons seg rest =>
      rw [FindSubDirectoryAt_cons]
      cases hc : namedChild (.dir name isFile keys objs) seg with
      | none => simp [TObj.isDirectory]
      | some sub =>
        simp only [TObj.isDirectory, Bool.true_or, if_true, List.nil_append]
        intro hm
        have := deleted_ge rest 1 sub 0 hm
        omega
  cases hc : (FindSubDirectory (some (.dir name isFile keys objs)) segs).deleted.contains 0 with
  | false => rfl
  | true => exact absurd (by simpa using hc) hno

theorem filter_blank (spec : String) (Z : List (String × String)) :
    (Z.map (blankMoved spec)).filter (fun p => p.1 != "") =
      Z.filter (fun p => p.1 != "" && !movesTo spec p) := by
  induction Z with
  | nil => rfl
  | cons p rest ih =>
    simp only [List.map_cons, List.filter_cons, ih]
    cases hm : movesTo spec p with
    | true => simp [blankMoved, hm]
    | false => simp [blankMoved, hm]

theorem filter_moves_perm (spec : String) (Z : List (String × String)) :
    (Z.filter (fun p => p.1 != "")).Perm
      (Z.filter (fun p => p.1 != "" && !movesTo spec p) ++ Z.filter (movesTo spec)) := by
  induction Z with
  | nil => simp
  | cons p rest ih =>
    simp only [List.filter_cons]
    cases hm : movesTo spec p with
    | true =>
      have hnb : (p.1 != "") = true := by
        simp only [movesTo, decide_eq_true_eq] at hm
        simpa using hm.1
      simp only [hnb, Bool.not_true, Bool.and_false, Bool.false_eq_true, if_false, if_true]
      exact (List.Perm.cons p ih).trans List.perm_middle.symm
    | false =>
      cases hnb : (p.1 != "") with
      | true => simpa using ih
      | false => simpa using ih

theorem moves_sublist_nonblank (spec : String) (Z : List (String × String)) :
    (Z.filter (movesTo spec)).Sublist (Z.filter (fun p => p.1 != "")) := by
  apply List.monotone_filter_right
  intro p hm
  simp only [movesTo, decide_eq_true_eq] at hm
  simpa using hm.1

theorem nodup_map_of_subperm {α β : Type} (f : α → β) {l1 l2 : List α}
    (h : l1.Subperm l2) (hn : (l2.map f).Nodup) : (l1.map f).Nodup := by
  obtain ⟨l, hperm, hsub⟩ := h
  exact (hperm.map f).nodup_iff.mp ((hsub.map f).nodup hn)
theorem group_step (spec : String) (g : GroupState) (hinv : GroupInv g) (m : MoveResult)
    (h1 : m.curDataNames.length = m.curNewDataNames.length)
    (h2 : m.dataNames.length = m.newDataNames.length)
    (h3 : m.curDataNames.zip m.curNewDataNames =
      (g.dataNames.zip g.newDataNames).filter (movesTo spec))
    (h4 : m.dataNames.zip m.newDataNames = (g.dataNames.zip g.newDataNames).map (blankMoved spec))
    (st : ReadState) (hr : ReadRel ⟨m.curDataNames, m.curNewDataNames, g.outputDataArray⟩ st)
    (alive : Bool) :
    GroupInv ⟨m.dataNames, m.newDataNames, st.outputDataArray,
      g.remainingDataNames ++ st.dataNames, g.remainingNewDataNames ++ st.newDataNames, alive⟩ ∧
    GroupRel g ⟨m.dataNames, m.newDataNames, st.outputDataArray,
      g.remainingDataNames ++ st.dataNames, g.remainingNewDataNames ++ st.newDataNames, alive⟩ := by
  obtain ⟨hlen, hco, hrlen, hnd1, hnd2, hnb⟩ := hinv
  obtain ⟨added, ho, hslen, hs, hperm, hleaf⟩ := hr
  simp only at ho hs hperm
  -- the pending pairs after the step
  have hlive2 : (GroupState.mk m.dataNames m.newDataNames st.outputDataArray
      (g.remainingDataNames ++ st.dataNames) (g.remainingNewDataNames ++ st.newDataNames)
      alive).live =
      (g.dataNames.zip g.newDataNames).filter (fun p => p.1 != "" && !movesTo spec p) ++
        (g.remainingDataNames.zip g.remainingNewDataNames ++
          st.dataNames.zip st.newDataNames) := by
    simp only [GroupState.live]
    rw [h4, filter_blank, List.zip_append hrlen]
  have hsub : (GroupState.mk m.dataNames m.newDataNames st.outputDataArray
      (g.remainingDataNames ++ st.dataNames) (g.remainingNewDataNames ++ st.newDataNames)
      alive).live.Subperm g.live := by
    rw [hlive2]
    have hp1 := filter_moves_perm spec (g.dataNames.zip g.newDataNames)
    have e1 : ((g.dataNames.zip g.newDataNames).filter (fun p => p.1 != "" && !movesTo spec p) ++
        (g.remainingDataNames.zip g.remainingNewDataNames ++
          (g.dataNames.zip g.newDataNames).filter (movesTo spec))).Perm g.live := by
      simp only [GroupState.live]
      refine List.Perm.trans ?_ (List.Perm.append_right _ hp1.symm)
      rw [List.append_assoc]
      exact List.Perm.append_left _ List.perm_append_comm
    refine List.Subperm.trans ?_ e1.subperm
    rw [List.subperm_append_left, List.subperm_append_left]
    rw [← h3]
    exact hs.subperm
  have hsnd : (st.dataNames.zip st.newDataNames).map Prod.snd = st.newDataNames :=
    List.map_snd_zip _ _ (by omega)
  have hcur : ((g.dataNames.zip g.newDataNames).filter (movesTo spec)).map Prod.snd =
      m.curNewDataNames := by
    rw [← h3]; exact List.map_snd_zip _ _ (by omega)
  have hnames : (added.map TObj.GetName ++ (GroupState.mk m.dataNames m.newDataNames
      st.outputDataArray (g.remainingDataNames ++ st.dataNames)
      (g.remainingNewDataNames ++ st.newDataNames) alive).live.map Prod.snd).Perm
      (g.live.map Prod.snd) := by
    rw [hlive2]
    have hp1 := (filter_moves_perm spec (g.dataNames.zip g.newDataNames)).map Prod.snd
    simp only [GroupState.live, List.map_append, hsnd] at hp1 ⊢
    rw [hcur] at hp1
    -- abbreviations
    generalize ((g.dataNames.zip g.newDataNames).filter
      (fun p => p.1 != "" && !movesTo spec p)).map Prod.snd = A at hp1 ⊢
    generalize (g.remainingDataNames.zip g.remainingNewDataNames).map Prod.snd = R
    generalize ((g.dataNames.zip g.newDataNames).filter (fun p => p.1 != "")).map Prod.snd = N
      at hp1 ⊢
    generalize added.map TObj.GetName = D at hperm ⊢
    have s1 : (D ++ (A ++ (R ++ st.newDataNames))).Perm (A ++ (R ++ (D ++ st.newDataNames))) := by
      have : (D ++ (A ++ (R ++ st.newDataNames))).Perm ((A ++ R) ++ (D ++ st.newDataNames)) := by
        rw [← List.append_assoc A R, ← List.append_assoc D, ← List.append_assoc (A ++ R)]
        exact List.Perm.append_right _ List.perm_append_comm
      simpa [List.append_assoc] using this
    have s2 : (A ++ (R ++ (D ++ st.newDataNames))).Perm (A ++ (R ++ m.curNewDataNames)) :=
      List.Perm.append_left _ (List.Perm.append_left _ hperm)
    have s3 : (A ++ (R ++ m.curNewDataNames)).Perm (N ++ R) := by
      have : (A ++ (R ++ m.curNewDataNames)).Perm ((A ++ m.curNewDataNames) ++ R) := by
        rw [List.append_assoc]
        exact List.Perm.append_left _ List.perm_append_comm
      exact this.trans (List.Perm.append_right _ hp1.symm)
    exact (s1.trans s2).trans s3
  refine ⟨⟨h2, ?_, ?_, nodup_map_of_subperm _ hsub hnd1, nodup_map_of_subperm _ hsub hnd2, ?_⟩,
    ⟨added, ho, hsub, hnames, hleaf⟩⟩
  · intro p hp
    simp only at hp
    rw [h4] at hp
    obtain ⟨q, hq, hqp⟩ := List.mem_map.mp hp
    unfold blankMoved at hqp
    split at hqp
    · subst hqp; simp
    · subst hqp; exact hco q hq
  · simp only [List.length_append]
    omega
  · intro p hp
    exact hnb p (hsub.subset hp)
theorem groupRel_refl (g : GroupState) : GroupRel g g :=
  ⟨[], by simp, List.Subperm.refl _, by simp, by simp⟩

theorem groupRel_trans {a b c : GroupState} (h1 : GroupRel a b) (h2 : GroupRel b c) :
    GroupRel a c := by
  obtain ⟨ad1, ho1, hs1, hp1, hl1⟩ := h1
  obtain ⟨ad2, ho2, hs2, hp2, hl2⟩ := h2
  refine ⟨ad1 ++ ad2, ?_, hs2.trans hs1, ?_, ?_⟩
  · rw [ho2, ho1, List.append_assoc]
  · rw [List.map_append, List.append_assoc]
    exact (List.Perm.append_left _ hp2).trans hp1
  · intro x hx
    rcases List.mem_append.mp hx with hx | hx
    · exact hl1 x hx
    · exact hl2 x hx

theorem moved_paired (spec : String) (g : GroupState) (hinv : GroupInv g) (m : MoveResult)
    (h1 : m.curDataNames.length = m.curNewDataNames.length)
    (h3 : m.curDataNames.zip m.curNewDataNames =
      (g.dataNames.zip g.newDataNames).filter (movesTo spec)) (out : List TObj) :
    Paired ⟨m.curDataNames, m.curNewDataNames, out⟩ := by
  obtain ⟨_, _, _, hnd1, hnd2, _⟩ := hinv
  have hsub : (m.curDataNames.zip m.curNewDataNames).Sublist g.live := by
    rw [h3]
    exact (moves_sublist_nonblank spec _).trans (List.sublist_append_left _ _)
  refine ⟨h1, ?_, ?_⟩
  · have := (hsub.map Prod.fst).nodup hnd1
    rwa [List.map_fst_zip _ _ (by omega)] at this
  · have := (hsub.map Prod.snd).nodup hnd2
    rwa [List.map_snd_zip _ _ (by omega)] at this

theorem processGroups_inv (name : String) (isFile : Bool) (keys : List TKey) (objs : List TObj)
    (specs : List String) :
    ∀ g : GroupState, GroupInv g → g.folderAlive = true →
      ∃ g2, processGroups (.dir name isFile keys objs) true specs g = some g2 ∧
        GroupInv g2 ∧ GroupRel g g2 := by
  induction specs with
  | nil => intro g hinv _; exact ⟨g, rfl, hinv, groupRel_refl g⟩
  | cons spec rest ih =>
    intro g hinv halive
    obtain ⟨m, hm, h1, h2, h3, h4⟩ := moveGroup_zip spec g.dataNames g.newDataNames hinv.1
    rw [processGroups, hm]
    simp only
    have hpaired := moved_paired spec g hinv m h1 h3 g.outputDataArray
    by_cases hempty : m.curDataNames.isEmpty = true
    · simp only [hempty, if_true]
      have hcur : m.curDataNames = [] := List.isEmpty_iff.mp hempty
      have hnew : m.curNewDataNames = [] := by
        rw [hcur] at h1; exact List.length_eq_zero.mp h1.symm
      have hstep := group_step spec g hinv m h1 h2 h3 h4
        ⟨m.curDataNames, m.curNewDataNames, g.outputDataArray⟩ (readRel_refl _ h1) g.folderAlive
      simp only [hcur, hnew, List.append_nil] at hstep
      obtain ⟨g2, hg2, hinv2, hrel2⟩ := ih _ hstep.1 halive
      exact ⟨g2, hg2, hinv2, groupRel_trans hstep.2 hrel2⟩
    · simp only [hempty, Bool.false_eq_true, if_false, halive, Bool.not_true]
      have hdel := file_not_deleted name isFile keys objs (splitString spec '/')
      have hr : ReadRel ⟨m.curDataNames, m.curNewDataNames, g.outputDataArray⟩
          (match (FindSubDirectory (some (.dir name isFile keys objs))
              (splitString spec '/')).node with
            | some subfolder =>
              (ReadData subfolder ⟨m.curDataNames, m.curNewDataNames, g.outputDataArray⟩).2
            | none => ⟨m.curDataNames, m.curNewDataNames, g.outputDataArray⟩) := by
        cases (FindSubDirectory (some (.dir name isFile keys objs)) (splitString spec '/')).node with
        | none => exact readRel_refl _ h1
        | some subfolder => exact ReadData_rel subfolder _ hpaired
      have hstep := group_step spec g hinv m h1 h2 h3 h4 _ hr true
      obtain ⟨g2, hg2, hinv2, hrel2⟩ := ih _ hstep.1 rfl
      refine ⟨g2, ?_, hinv2, groupRel_trans hstep.2 hrel2⟩
      rw [← hg2, hdel]
      simp
theorem filter_nonblank_length : ∀ (ds news : List String), ds.length = news.length →
    (∀ p ∈ ds.zip news, (p.1 = "" ↔ p.2 = "")) →
    (ds.filter (fun s => s != "")).length = (news.filter (fun s => s != "")).length := by
  intro ds
  induction ds with
  | nil => intro news hlen _; cases news <;> simp_all
  | cons d ds ih =>
    intro news hlen hco
    cases news with
    | nil => simp at hlen
    | cons u us =>
      have hrest := ih us (by simpa using hlen)
        (fun p hp => hco p (by simp only [List.zip_cons_cons]; exact List.mem_cons_of_mem _ hp))
      have hdu := hco (d, u) (by simp)
      simp only at hdu
      by_cases hd : d = ""
      · have hu : u = "" := hdu.mp hd
        subst hd hu
        simpa using hrest
      · have hu : u ≠ "" := fun h => hd (hdu.mpr h)
        simp [hd, hu, hrest]

theorem getlineTokens_no_delim (delim : Char) : ∀ cs : List Char, delim ∉ cs → cs ≠ [] →
    getlineTokens delim cs = [cs] := by
  intro cs
  induction cs with
  | nil => intro _ h; exact absurd rfl h
  | cons c rest ih =>
    intro hno _
    have hc : c ≠ delim := fun h => hno (by simp [h])
    have hrest : delim ∉ rest := fun h => hno (List.mem_cons_of_mem _ h)
    simp only [getlineTokens, hc, if_false]
    cases rest with
    | nil => simp [getlineTokens]
    | cons c2 r2 => rw [ih hrest (by simp)]

theorem findEntry_plain (fs : String → Option (List TKey)) (f : String)
    (hplain : ':' ∉ f.data) (hne : f.data ≠ []) :
    findEntry fs f =
      match fs f with
      | none => .zombie
      | some keys => .found (.dir f true keys []) true := by
  unfold findEntry
  have ht : splitString f ':' = [f] := by
    unfold splitString
    rw [getlineTokens_no_delim ':' f.data hplain hne]
    rfl
  simp only [ht, List.headD_cons, List.length_singleton, gt_iff_lt, Nat.lt_irrefl, if_false]

theorem filesRel_refl (st : ReadState) (h : st.dataNames.length = st.newDataNames.length) :
    FilesRel st st :=
  ⟨[], by simp, h, List.Subperm.refl _, by simp, by simp⟩

theorem filesRel_trans {a b c : ReadState} (h1 : FilesRel a b) (h2 : FilesRel b c) :
    FilesRel a c := by
  obtain ⟨ad1, ho1, _, hs1, hp1, hl1⟩ := h1
  obtain ⟨ad2, ho2, hlen2, hs2, hp2, hl2⟩ := h2
  refine ⟨ad1 ++ ad2, ?_, hlen2, hs2.trans hs1, ?_, ?_⟩
  · rw [ho2, ho1, List.append_assoc]
  · rw [List.map_append, List.append_assoc]
    exact (List.Perm.append_left _ hp2).trans hp1
  · intro x hx
    rcases List.mem_append.mp hx with hx | hx
    · exact hl1 x hx
    · exact hl2 x hx

theorem processGroups_rel (folder : TObj) (isInputFile : Bool) (specs : List String) :
    ∀ g g2 : GroupState, GroupInv g → processGroups folder isInputFile specs g = some g2 →
      GroupInv g2 ∧ GroupRel g g2 := by
  induction specs with
  | nil =>
    intro g g2 hinv h
    rw [processGroups] at h
    cases h
    exact ⟨hinv, groupRel_refl g⟩
  | cons spec rest ih =>
    intro g g2 hinv h
    obtain ⟨m, hm, h1, h2, h3, h4⟩ := moveGroup_zip spec g.dataNames g.newDataNames hinv.1
    rw [processGroups, hm] at h
    simp only at h
    have hpaired := moved_paired spec g hinv m h1 h3 g.outputDataArray
    by_cases hempty : m.curDataNames.isEmpty = true
    · simp only [hempty, if_true] at h
      have hcur : m.curDataNames = [] := List.isEmpty_iff.mp hempty
      have hnew : m.curNewDataNames = [] := by
        rw [hcur] at h1; exact List.length_eq_zero.mp h1.symm
      have hstep := group_step spec g hinv m h1 h2 h3 h4
        ⟨m.curDataNames, m.curNewDataNames, g.outputDataArray⟩ (readRel_refl _ h1) g.folderAlive
      simp only [hcur, hnew, List.append_nil] at hstep
      obtain ⟨hinv2, hrel2⟩ := ih _ g2 hstep.1 h
      exact ⟨hinv2, groupRel_trans hstep.2 hrel2⟩
    · simp only [hempty, Bool.false_eq_true, if_false] at h
      cases halive : g.folderAlive with
      | false => simp [halive] at h
      | true =>
        simp only [halive, Bool.not_true, Bool.false_eq_true, if_false] at h
        have hr : ReadRel ⟨m.curDataNames, m.curNewDataNames, g.outputDataArray⟩
            (match (FindSubDirectory (some folder) (splitString spec '/')).node with
              | some subfolder =>
                (ReadData subfolder ⟨m.curDataNames, m.curNewDataNames, g.outputDataArray⟩).2
              | none => ⟨m.curDataNames, m.curNewDataNames, g.outputDataArray⟩) := by
          cases (FindSubDirectory (some folder) (splitString spec '/')).node with
          | none => exact readRel_refl _ h1
          | some subfolder => exact ReadData_rel subfolder _ hpaired
        have hstep := group_step spec g hinv m h1 h2 h3 h4 _ hr
          (!((FindSubDirectory (some folder) (splitString spec '/')).deleted.contains 0 ||
            ((FindSubDirectory (some folder) (splitString spec '/')).node.isSome &&
              (splitString spec '/').isEmpty && !isInputFile)))
        obtain ⟨hinv2, hrel2⟩ := ih _ g2 hstep.1 h
        exact ⟨hinv2, groupRel_trans hstep.2 hrel2⟩

theorem clean_groupInv (st : ReadState) (hclean : Clean st) :
    GroupInv ⟨st.dataNames, st.newDataNames, st.outputDataArray, [], [], true⟩ := by
  obtain ⟨⟨hlen, hnd1, hnd2⟩, hb1, hb2⟩ := hclean
  have hall : ∀ p ∈ st.dataNames.zip st.newDataNames, p.1 ≠ "" ∧ p.2 ≠ "" := by
    intro p hp
    have := List.of_mem_zip hp
    exact ⟨fun h => hb1 (h ▸ this.1), fun h => hb2 (h ▸ this.2)⟩
  have hlive0 : (GroupState.mk st.dataNames st.newDataNames st.outputDataArray [] []
      true).live = st.dataNames.zip st.newDataNames := by
    simp only [GroupState.live, List.zip_nil_left, List.append_nil]
    rw [List.filter_eq_self]
    intro p hp
    simpa using (hall p hp).1
  refine ⟨hlen, ?_, rfl, ?_, ?_, ?_⟩
  · intro p hp
    have := hall p hp
    constructor
    · intro h; exact absurd h this.1
    · intro h; exact absurd h this.2
  · rw [hlive0, List.map_fst_zip _ _ (by omega)]; exact hnd1
  · rw [hlive0, List.map_snd_zip _ _ (by omega)]; exact hnd2
  · rw [hlive0]; exact hall

theorem processFile_rel (fs : String → Option (List TKey)) (specs : List String)
    (f : String) (st st2 : ReadState) (hclean : Clean st)
    (h : processFile fs specs f st = .done st2) : FilesRel st st2 ∧ Clean st2 := by
  unfold processFile at h
  cases he : findEntry fs f with
  | zombie => rw [he] at h; cases h
  | subdirMissing => rw [he] at h; cases h
  | found folder isInputFile =>
    rw [he] at h
    simp only at h
    obtain ⟨⟨hlen, hnd1, hnd2⟩, hb1, hb2⟩ := hclean
    have hall : ∀ p ∈ st.dataNames.zip st.newDataNames, p.1 ≠ "" ∧ p.2 ≠ "" := by
      intro p hp
      have := List.of_mem_zip hp
      exact ⟨fun h => hb1 (h ▸ this.1), fun h => hb2 (h ▸ this.2)⟩
    have hlive0 : (GroupState.mk st.dataNames st.newDataNames st.outputDataArray [] []
        true).live = st.dataNames.zip st.newDataNames := by
      simp only [GroupState.live, List.zip_nil_left, List.append_nil]
      rw [List.filter_eq_self]
      intro p hp
      simpa using (hall p hp).1
    have hinv0 := clean_groupInv st ⟨⟨hlen, hnd1, hnd2⟩, hb1, hb2⟩
    cases hpg : processGroups folder isInputFile specs
        ⟨st.dataNames, st.newDataNames, st.outputDataArray, [], [], true⟩ with
    | none => rw [hpg] at h; cases h
    | some g2 =>
      rw [hpg] at h
      simp only [FileOutcome.done.injEq] at h
      obtain ⟨hinv2, hrel2⟩ := processGroups_rel folder isInputFile specs _ g2 hinv0 hpg
      obtain ⟨hlen2, hco2, hrlen2, hn1, hn2, hnb2⟩ := hinv2
      obtain ⟨added, ho, hsub, hperm, hleaf⟩ := hrel2
      have hflen := filter_nonblank_length g2.dataNames g2.newDataNames hlen2 hco2
      have hzip : (g2.dataNames.filter (fun s => s != "") ++ g2.remainingDataNames).zip
          (g2.newDataNames.filter (fun s => s != "") ++ g2.remainingNewDataNames) = g2.live := by
        rw [List.zip_append hflen, filter_zip_nonblank _ _ hlen2 hco2]
        rfl
      have hlen3 : (g2.dataNames.filter (fun s => s != "") ++ g2.remainingDataNames).length =
          (g2.newDataNames.filter (fun s => s != "") ++ g2.remainingNewDataNames).length := by
        simp only [List.length_append]; omega
      have hfst : g2.live.map Prod.fst =
          g2.dataNames.filter (fun s => s != "") ++ g2.remainingDataNames := by
        rw [← hzip]; exact List.map_fst_zip _ _ (by omega)
      have hsnd : g2.live.map Prod.snd =
          g2.newDataNames.filter (fun s => s != "") ++ g2.remainingNewDataNames := by
        rw [← hzip]; exact List.map_snd_zip _ _ (by omega)
      subst h
      refine ⟨⟨added, ho, hlen3, ?_, ?_, hleaf⟩, ⟨hlen3, ?_, ?_⟩, ?_, ?_⟩
      · simp only
        rw [hzip, ← hlive0]
        exact hsub
      · simp only
        rw [← hsnd]
        rw [hlive0, List.map_snd_zip _ _ (by omega)] at hperm
        exact hperm
      · simp only; rw [← hfst]; exact hn1
      · simp only; rw [← hsnd]; exact hn2
      · simp only
        rw [← hfst]
        intro hmem
        obtain ⟨p, hp, hp1⟩ := List.mem_map.mp hmem
        exact (hnb2 p hp).1 hp1
      · simp only
        rw [← hsnd]
        intro hmem
        obtain ⟨p, hp, hp1⟩ := List.mem_map.mp hmem
        exact (hnb2 p hp).2 hp1

theorem processFile_plain (fs : String → Option (List TKey)) (specs : List String)
    (f : String) (st : ReadState) (hclean : Clean st) (hplain : ':' ∉ f.data)
    (hne : f.data ≠ []) :
    processFile fs specs f st = .zombie ∨ ∃ st2, processFile fs specs f st = .done st2 := by
  unfold processFile
  rw [findEntry_plain fs f hplain hne]
  cases hfs : fs f with
  | none => exact Or.inl rfl
  | some keys =>
    right
    simp only
    obtain ⟨g2, hg2, _, _⟩ :=
      processGroups_inv f true keys [] specs _ (clean_groupInv st hclean) rfl
    rw [hg2]
    exact ⟨_, rfl⟩

theorem hasSub_nil_false (pat : List Char) (h : pat ≠ []) : hasSub pat [] = false := by
  cases pat with
  | nil => exact absurd rfl h
  | cons _ _ => rfl

theorem filesLoop_rel (fs : String → Option (List TKey)) (specs : List String) :
    ∀ (files : List String) (st st2 : ReadState), Clean st →
      filesLoop fs specs files st = .exit st2 → FilesRel st st2 ∧ Clean st2 := by
  intro files
  induction files with
  | nil =>
    intro st st2 hclean h
    rw [filesLoop] at h
    cases h
    exact ⟨filesRel_refl st hclean.1.1, hclean⟩
  | cons f rest ih =>
    intro st st2 hclean h
    rw [filesLoop] at h
    split at h
    · cases h
      exact ⟨filesRel_refl st hclean.1.1, hclean⟩
    · split at h
      · exact ih st st2 hclean h
      · cases hpf : processFile fs specs f st with
        | zombie =>
          rw [hpf] at h
          cases h
          exact ⟨filesRel_refl st hclean.1.1, hclean⟩
        | subdirMissing => rw [hpf] at h; cases h
        | undefined => rw [hpf] at h; cases h
        | done st1 =>
          rw [hpf] at h
          obtain ⟨hrel, hclean1⟩ := processFile_rel fs specs f st st1 hclean hpf
          obtain ⟨hrel2, hclean2⟩ := ih st1 st2 hclean1 h
          exact ⟨filesRel_trans hrel hrel2, hclean2⟩

theorem filesLoop_plain (fs : String → Option (List TKey)) (specs : List String) :
    ∀ (files : List String) (st : ReadState), Clean st → (∀ f ∈ files, ':' ∉ f.data) →
      ∃ st2, filesLoop fs specs files st = .exit st2 := by
  intro files
  induction files with
  | nil => intro st _ _; exact ⟨st, rfl⟩
  | cons f rest ih =>
    intro st hclean hplain
    rw [filesLoop]
    split
    · exact ⟨st, rfl⟩
    · split
      · exact ih st hclean (fun g hg => hplain g (List.mem_cons_of_mem _ hg))
      · next hroot =>
        have hne : f.data ≠ [] := by
          intro h
          apply hroot
          unfold containsStr
          rw [h, hasSub_nil_false _ (by decide)]
          rfl
        rcases processFile_plain fs specs f st hclean (hplain f (List.mem_cons_self _ _)) hne
          with hz | ⟨st2, hd⟩
        · rw [hz]
          exact ⟨st, rfl⟩
        · rw [hd]
          simp only
          exact ih st2 (processFile_rel fs specs f st st2 hclean hd).2
            (fun g hg => hplain g (List.mem_cons_of_mem _ hg))

theorem findSub_separator (n s : List Char) (hn : hasSub ['_', '@', '_'] n = false)
    (he : ¬ ['_', '@'] <:+ n) :
    findSub ['_', '@', '_'] (n ++ (['_', '@', '_'] ++ s)) = some n.length := by
  induction n with
  | nil => simp [findSub]
  | cons c cs ih =>
    have hcs : hasSub ['_', '@', '_'] cs = false := by
      simp only [hasSub, Bool.or_eq_false_iff] at hn
      exact hn.2
    have hpre : (['_', '@', '_'] : List Char).isPrefixOf (c :: cs) = false := by
      simp only [hasSub, Bool.or_eq_false_iff] at hn
      exact hn.1
    have hes : ¬ ['_', '@'] <:+ cs := fun h => he (h.trans (List.suffix_cons c cs))
    have hnot : (['_', '@', '_'] : List Char).isPrefixOf
        (c :: (cs ++ (['_', '@', '_'] ++ s))) = false := by
      match cs, hpre, he with
      | [], _, _ => simp [List.isPrefixOf]
      | [c2], _, he2 =>
        cases hx : (['_', '@', '_'] : List Char).isPrefixOf
          (c :: ([c2] ++ (['_', '@', '_'] ++ s))) with
        | false => rfl
        | true =>
          exfalso
          simp [List.isPrefixOf] at hx
          apply he2
          rw [← hx.1, ← hx.2]
      | c2 :: c3 :: r, hpre2, _ =>
        simp only [List.cons_append, List.isPrefixOf] at hpre2 ⊢
        exact hpre2
    have hfind : findSub ['_', '@', '_'] (c :: (cs ++ (['_', '@', '_'] ++ s))) =
        (findSub ['_', '@', '_'] (cs ++ (['_', '@', '_'] ++ s))).map (· + 1) := by
      rw [findSub, hnot]
      rfl
    rw [List.cons_append, hfind, ih hcs hes]
    rfl

/-- The report line of a unique name gives back the name and the identifier when the
name contains no separator and does not end in `_@`. -/
theorem splitUniqueName_GetUniqueName (name inputIdentifier : String)
    (hn : containsSeparator name = false) (he : endsWithSepHead name = false) :
    splitUniqueName (GetUniqueName name inputIdentifier) = some (name, inputIdentifier) := by
  have he2 : ¬ ['_', '@'] <:+ name.data := by
    intro hx
    have hy := List.isSuffixOf_iff_suffix.mpr hx
    simp [endsWithSepHead, hy] at he
  have hf := findSub_separator name.data inputIdentifier.data hn he2
  have hdata : (GetUniqueName name inputIdentifier).data =
      name.data ++ (['_', '@', '_'] ++ inputIdentifier.data) := by
    simp [GetUniqueName, gNameGroupSeparator]
  have hlen : gNameGroupSeparator.length = 3 := rfl
  have hsep : gNameGroupSeparator.data = ['_', '@', '_'] := rfl
  unfold splitUniqueName
  rw [hsep, hdata, hf, hlen]
  simp only [List.take_left', Option.some.injEq, Prod.mk.injEq, true_and]
  have h3 : name.data ++ (['_', '@', '_'] ++ inputIdentifier.data) =
      (name.data ++ ['_', '@', '_']) ++ inputIdentifier.data := by simp
  have hl : name.data.length + 3 = (name.data ++ ['_', '@', '_']).length := by simp
  rw [h3, hl, List.drop_left]

/-- C3 (as stated, refuted): with the file reference `a.root:q`, whose internal
sub-path `q` does not exist, `ReadDataFromFiles` returns early: the requested name is in
no file and not in the output array, yet no report is made. -/
theorem ReadDataFromFiles_no_report :
    ReadDataFromFiles twoFiles [] ["a.root:q"] ["h"] ["h_@_A"] =
      .aborted ⟨["h"], ["h_@_A"], []⟩ := by
  rfl

/-- C3 (amended): for request arrays of distinct non-empty names with distinct non-empty
new names, whenever `ReadDataFromFiles` runs to its end: the names of the objects it
appended to the output array together with the new names still pending are the
requested new names, so a requested new name is pending exactly when no appended object
carries it; the report is made exactly when names are pending, and it lists each pending
new name split at the separator and all file names. For file names without an internal
sub-path the function always runs to its end. -/
theorem ReadDataFromFiles_report (fs : String → Option (List TKey)) (out : List TObj)
    (fileNames dataNames newDataNames : List String)
    (hclean : Clean ⟨dataNames, newDataNames, out⟩) :
    (∀ (st : ReadState) (report : Option Report),
      ReadDataFromFiles fs out fileNames dataNames newDataNames = .completed st report →
        report = (if !st.dataNames.isEmpty then
          some ⟨st.newDataNames.map splitUniqueName, fileNames⟩ else none) ∧
        st.dataNames.length = st.newDataNames.length ∧
        ∃ added : List TObj, st.outputDataArray = out ++ added ∧
          (added.map TObj.GetName ++ st.newDataNames).Perm newDataNames ∧
          (∀ u ∈ newDataNames, (u ∈ st.newDataNames ↔ u ∉ added.map TObj.GetName)) ∧
          st.dataNames.zip st.newDataNames ⊆ dataNames.zip newDataNames) ∧
    ((∀ f ∈ fileNames, ':' ∉ f.data) →
      ∃ (st : ReadState) (report : Option Report),
        ReadDataFromFiles fs out fileNames dataNames newDataNames = .completed st report) := by
  constructor
  · intro st report h
    unfold ReadDataFromFiles at h
    cases hloop : filesLoop fs (dataSubSpecsOf dataNames) fileNames
        ⟨dataNames, newDataNames, out⟩ with
    | abort s => rw [hloop] at h; cases h
    | undefined => rw [hloop] at h; cases h
    | exit s =>
      rw [hloop] at h
      simp only [FilesOutcome.completed.injEq] at h
      obtain ⟨hs, hrep⟩ := h
      subst hs
      obtain ⟨⟨added, ho, hlen, hsub, hperm, _⟩, _⟩ :=
        filesLoop_rel fs _ fileNames _ s hclean hloop
      refine ⟨hrep.symm, hlen, added, ho, hperm, ?_, hsub.subset⟩
      intro u hu
      have hnd : (added.map TObj.GetName ++ s.newDataNames).Nodup :=
        hperm.nodup_iff.mpr hclean.1.2.2
      have hdisj := List.disjoint_of_nodup_append hnd
      have hmem := (hperm.mem_iff (a := u)).mpr hu
      constructor
      · intro h1 h2; exact hdisj h2 h1
      · intro h1
        rcases List.mem_append.mp hmem with h | h
        · exact absurd h h1
        · exact h
  · intro hplain
    obtain ⟨st, hloop⟩ := filesLoop_plain fs (dataSubSpecsOf dataNames) fileNames _ hclean hplain
    unfold ReadDataFromFiles
    rw [hloop]
    exact ⟨_, _, rfl⟩

theorem ReadDataFromFiles_report_witness :
    ReadDataFromFiles twoFiles [] ["a.root", "b.root"] ["h", "z"] ["h_@_A", "z_@_A"] =
      .completed ⟨["z"], ["z_@_A"], [.leaf "h_@_A" 7]⟩
        (some ⟨[some ("z", "A")], ["a.root", "b.root"]⟩) ∧
    ∃ (st : ReadState) (report : Option Report),
      ReadDataFromFiles twoFiles [] ["a.root", "b.root"] ["h", "z"] ["h_@_A", "z_@_A"] =
        .completed st report :=
  ⟨by rfl,
    (ReadDataFromFiles_report twoFiles [] ["a.root", "b.root"] ["h", "z"] ["h_@_A", "z_@_A"]
      ⟨⟨rfl, by decide, by decide⟩, by decide, by decide⟩).2 (by decide)⟩

/-! ## Requests with a path -/

theorem beforeLastSlash_none (x : List Char) (hx : '/' ∉ x) : beforeLastSlash x = none := by
  induction x with
  | nil => rfl
  | cons c cs ih =>
    simp only [List.mem_cons, not_or] at hx
    simp only [beforeLastSlash, ih hx.2]
    rw [if_neg (fun h => hx.1 h.symm)]

theorem beforeLastSlash_append (P x : List Char) (hx : '/' ∉ x) :
    beforeLastSlash (P ++ '/' :: x) = some P := by
  induction P with
  | nil => simp [beforeLastSlash, beforeLastSlash_none x hx]
  | cons c cs ih => simp [beforeLastSlash, ih]

theorem subSpecOf_path (P x : String) (hx : '/' ∉ x.data) :
    subSpecOf (P ++ "/" ++ x) = P := by
  unfold subSpecOf
  have hd : (P ++ "/" ++ x).data = P.data ++ '/' :: x.data := by
    simp [String.data_append]
  rw [hd, beforeLastSlash_append P.data x.data hx]

theorem path_ne_empty (P x : String) : P ++ "/" ++ x ≠ "" := by
  intro h
  have hd : (P ++ "/" ++ x).data = P.data ++ '/' :: x.data := by
    simp [String.data_append]
  rw [h] at hd
  simp at hd

theorem splitString_ne_nil (P : String) (c : Char) (hP : P ≠ "") : splitString P c ≠ [] := by
  unfold splitString
  have hd : P.data ≠ [] := by
    intro h
    apply hP
    cases P
    simp only at h
    subst h
    rfl
  cases hdata : P.data with
  | nil => exact absurd hdata hd
  | cons d ds =>
    simp only [getlineTokens]
    split
    · simp
    · cases getlineTokens c ds <;> simp

theorem processGroups_single_alive (folder : TObj) (b : Bool) (n u : String)
    (out : List TObj) (hn : n ≠ "") (hP : subSpecOf n ≠ "")
    (hdir : folder.isDirectory = true) :
    (processGroups folder b [subSpecOf n] ⟨[n], [u], out, [], [], true⟩).map
      (fun g => g.folderAlive) = some true := by
  have hne := splitString_ne_nil (subSpecOf n) '/' hP
  have hempty : (splitString (subSpecOf n) '/').isEmpty = false := by
    cases h : splitString (subSpecOf n) '/' with
    | nil => exact absurd h hne
    | cons _ _ => rfl
  have hdel : (FindSubDirectory (some folder) (splitString (subSpecOf n) '/')).deleted.contains 0
      = false := by
    cases folder with
    | dir name isFile keys objs => exact file_not_deleted name isFile keys objs _
    | leaf _ _ => cases hdir
    | coll _ _ => cases hdir
  have hdel2 : 0 ∉ (FindSubDirectory (some folder) (splitString (subSpecOf n) '/')).deleted := by
    simpa using hdel
  simp only [processGroups, moveGroup_single n u hn]
  simp [hdel2, hempty]

/-- C11: for a request named `P/x` (`P` not empty, `x` without `/`) with new name `u`
and a `.root` file name whose entry folder is found, where the path `P` resolves in the
entry folder to a container `sub` that has the leaf entry `x`: `FindSubDirectory`
locates `sub`, `ReadDataFromFiles` appends exactly one object, a leaf named `u`, to the
output array and ends with empty pending arrays and without a report; an entry folder
that is a directory is alive after the pass over the sub-specifications; and the
`TFile` object is left as it was by both operations the loop applies to it:
`FindSubDirectory` never destroys it and `ReadData` returns it with its keys and objects
unchanged. -/
theorem ReadDataFromFiles_nested (fs : String → Option (List TKey)) (out : List TObj)
    (f P x u : String) (folder sub : TObj) (b : Bool) (hP : P ≠ "") (hx : '/' ∉ x.data)
    (hroot : containsStr f ".root" = true) (he : findEntry fs f = .found folder b)
    (hloc : resolvePath folder (splitString P '/') = some sub)
    (hentry : sub.hasLeafEntry x) :
    (FindSubDirectory (some folder) (splitString P '/')).node = some sub ∧
    (∃ a, a.GetName = u ∧ (a.isDirectory || a.isCollection) = false ∧
      ReadDataFromFiles fs out [f] [P ++ "/" ++ x] [u] =
        .completed ⟨[], [], out ++ [a]⟩ none) ∧
    (folder.isDirectory = true →
      (processGroups folder b (dataSubSpecsOf [P ++ "/" ++ x])
        ⟨[P ++ "/" ++ x], [u], out, [], [], true⟩).map (fun g => g.folderAlive) = some true) ∧
    ∀ (name : String) (keys : List TKey) (objs : List TObj),
      (∀ segs, 0 ∉ (FindSubDirectory (some (.dir name true keys objs)) segs).deleted) ∧
      ∀ st, (ReadData (.dir name true keys objs) st).1 = .dir name true keys objs := by
  have hn : P ++ "/" ++ x ≠ "" := path_ne_empty P x
  have hsub : subSpecOf (P ++ "/" ++ x) = P := subSpecOf_path P x hx
  have hfind : (FindSubDirectory (some folder) (splitString P '/')).node = some sub := by
    unfold FindSubDirectory
    rw [FindSubDirectoryAt_node, hloc]
  have hp : Paired ⟨[P ++ "/" ++ x], [u], out⟩ := ⟨rfl, by simp, by simp⟩
  have hgone : (P ++ "/" ++ x) ∉ (ReadData sub ⟨[P ++ "/" ++ x], [u], out⟩).2.dataNames := by
    have := ReadData_removes sub x ⟨[P ++ "/" ++ x], [u], out⟩ hp hentry
    have hs : readSubSpec [P ++ "/" ++ x] = P ++ "/" := by
      show withSlash (subSpecOf (P ++ "/" ++ x)) = P ++ "/"
      rw [hsub]
      unfold withSlash
      simp [hP]
    simp only at this
    rw [hs] at this
    exact this
  obtain ⟨a, ha, hleaf, hst⟩ :=
    (ReadData_rel sub ⟨[P ++ "/" ++ x], [u], out⟩ hp).single_done hgone
  refine ⟨hfind, ⟨a, ha, hleaf, ?_⟩, ?_, ?_⟩
  · have h2 : processFile fs (dataSubSpecsOf [P ++ "/" ++ x]) f ⟨[P ++ "/" ++ x], [u], out⟩ =
        .done ⟨[], [], out ++ [a]⟩ := by
      rw [dataSubSpecsOf_single, processFile_single fs f _ u out folder b hn he, hsub, hfind]
      simp only
      rw [hst]
    unfold ReadDataFromFiles
    simp only [filesLoop, hroot, h2]
    simp
  · intro hdir
    rw [dataSubSpecsOf_single]
    exact processGroups_single_alive folder b _ u out hn (by rw [hsub]; exact hP) hdir
  · intro name keys objs
    refine ⟨fun segs hm => ?_, fun st => ?_⟩
    · have := file_not_deleted name true keys objs segs
      simp only [List.contains_eq_any_beq, List.any_eq_false] at this
      exact this 0 hm (by simp)
    · unfold ReadData
      split <;> (try split) <;> rfl

theorem ReadDataFromFiles_nested_witness :
    (FindSubDirectory (some (.dir "B.root" true
        [.mk "sub" "TDirectoryFile"
          (.dir "sub" false [.mk "hist2" "TH1D" (.leaf "hist2" 5)] []),
          .mk "other" "TH1D" (.leaf "other" 9)] [])) (splitString "sub" '/')).node =
      some (.dir "sub" false [.mk "hist2" "TH1D" (.leaf "hist2" 5)] []) ∧
    ∃ a, a.GetName = "sub/hist2_@_B" ∧ (a.isDirectory || a.isCollection) = false ∧
      ReadDataFromFiles nestedFile [] ["B.root"] ["sub" ++ "/" ++ "hist2"] ["sub/hist2_@_B"] =
        .completed ⟨[], [], [] ++ [a]⟩ none :=
  have h := ReadDataFromFiles_nested nestedFile [] "B.root" "sub" "hist2" "sub/hist2_@_B"
    (.dir "B.root" true
      [.mk "sub" "TDirectoryFile"
        (.dir "sub" false [.mk "hist2" "TH1D" (.leaf "hist2" 5)] []),
        .mk "other" "TH1D" (.leaf "other" 9)] [])
    (.dir "sub" false [.mk "hist2" "TH1D" (.leaf "hist2" 5)] []) true
    (by decide) (by decide) (by decide) (by rfl) (by rfl)
    ⟨"TH1D", 5, by simp⟩
  ⟨h.1, h.2.1⟩

/-! ## Nodes destroyed while locating a sub-directory -/

theorem deleted_lt (segs : List String) : ∀ (depth : Nat) (o : TObj),
    ∀ d ∈ (FindSubDirectoryAt depth (some o) segs).deleted, d < depth + segs.length := by
  induction segs with
  | nil =>
    intro depth folder d hd
    simp only [FindSubDirectoryAt] at hd
    split at hd <;> simp at hd
  | cons seg rest ih =>
    intro depth folder d hd
    rw [FindSubDirectoryAt_cons] at hd
    have hhere : ∀ x ∈ (if folder.isDirectory || folder.isTFile then [] else [depth]),
        x < depth + (seg :: rest).length := by
      intro x hx
      split at hx
      · cases hx
      · simp only [List.mem_singleton] at hx
        simp only [List.length_cons]
        omega
    cases hc : namedChild folder seg with
    | none =>
      rw [hc] at hd
      exact hhere d hd
    | some sub =>
      rw [hc] at hd
      simp only [List.mem_append] at hd
      rcases hd with hd | hd
      · exact hhere d hd
      · have := ih (depth + 1) sub d hd
        simp only [List.length_cons]
        omega

theorem deleted_sorted (segs : List String) : ∀ (depth : Nat) (o : TObj),
    (FindSubDirectoryAt depth (some o) segs).deleted.Pairwise (fun a b => a < b) := by
  induction segs with
  | nil =>
    intro depth folder
    simp only [FindSubDirectoryAt]
    split <;> exact List.Pairwise.nil
  | cons seg rest ih =>
    intro depth folder
    rw [FindSubDirectoryAt_cons]
    cases hc : namedChild folder seg with
    | none =>
      simp only
      split
      · exact List.Pairwise.nil
      · exact List.pairwise_singleton _ _
    | some sub =>
      simp only
      split
      · simpa using ih (depth + 1) sub
      · simp only [List.singleton_append, List.pairwise_cons]
        refine ⟨fun d hd => ?_, ih (depth + 1) sub⟩
        have := deleted_ge rest (depth + 1) sub d hd
        omega

/-- C12, counterexample: a root that is a collection is destroyed by the call (depth `0`
is in the trace of destroyed nodes), both when the path is found and when it is not. -/
theorem FindSubDirectory_destroys_collection_root :
    (FindSubDirectory (some (.coll "list" [.coll "sub" []])) ["sub"]).node =
      some (.coll "sub" []) ∧
    (FindSubDirectory (some (.coll "list" [.coll "sub" []])) ["sub"]).deleted = [0] ∧
    (FindSubDirectory (some (.coll "list" [])) ["sub"]).node = none ∧
    (FindSubDirectory (some (.coll "list" [])) ["sub"]).deleted = [0] := by
  refine ⟨rfl, rfl, rfl, rfl⟩

/-- C12, amended: a root that is a directory (a `TFile` or any other `TDirectory`) is
never destroyed by `FindSubDirectory`, whatever the segments and whether or not the path
is found; for every root, nothing is destroyed when there are no segments, the destroyed
nodes have strictly increasing depths on the descended path (each is destroyed once),
and each lies above the depth of the returned node, which is the number of segments. -/
theorem FindSubDirectory_ownership (name : String) (isFile : Bool) (keys : List TKey)
    (objs : List TObj) (root : TObj) (segs : List String) :
    0 ∉ (FindSubDirectory (some (.dir name isFile keys objs)) segs).deleted ∧
    (FindSubDirectory (some root) []).deleted = [] ∧
    (FindSubDirectory (some root) segs).deleted.Pairwise (fun a b => a < b) ∧
    ∀ d ∈ (FindSubDirectory (some root) segs).deleted, d < segs.length := by
  refine ⟨fun hm => ?_, ?_, deleted_sorted segs 0 root, fun d hd => ?_⟩
  · have := file_not_deleted name isFile keys objs segs
    simp only [List.contains_eq_any_beq, List.any_eq_false] at this
    exact this 0 hm (by simp)
  · simp only [FindSubDirectory, FindSubDirectoryAt]
    split <;> rfl
  · have := deleted_lt segs 0 root d hd
    omega

theorem FindSubDirectory_ownership_witness :
    0 ∉ (FindSubDirectory (some (.dir "d" false [] [.coll "list" [.coll "sub" []]]))
      ["list", "sub"]).deleted ∧
    (FindSubDirectory (some (.dir "d" false [] [.coll "list" [.coll "sub" []]]))
      ["list", "sub"]).deleted = [1] ∧
    ∀ d ∈ (FindSubDirectory (some (.dir "d" false [] [.coll "list" [.coll "sub" []]]))
      ["list", "sub"]).deleted, d < ["list", "sub"].length :=
  have h := FindSubDirectory_ownership "d" false [] [.coll "list" [.coll "sub" []]]
    (.dir "d" false [] [.coll "list" [.coll "sub" []]]) ["list", "sub"]
  ⟨h.1, rfl, h.2.2.2⟩

theorem ReadDataFromFiles_destroyed_folder_reused :
    (match ReadDataFromFiles listFile [] ["L.root:list"] ["sub/h", "sub2/g"]
        ["sub/h_@_A", "sub2/g_@_A"] with
      | .undefined => true
      | _ => false) = true := by
  rfl

/-! ## Files that cannot be used -/

theorem findEntry_zombie (fs : String → Option (List TKey)) (f : String)
    (hz : fs ((splitString f ':').headD "") = none) : findEntry fs f = .zombie := by
  unfold findEntry
  simp only [hz]

/-- C13, counterexample: the first file `c.root` cannot be opened and the second file
`b.root` holds the requested leaf `h`; the loop over the files ends at the first file,
the request stays pending, nothing is added to the output array and the final warning
lists both files. -/
theorem ReadDataFromFiles_unopenable_stops :
    ReadDataFromFiles twoFiles [] ["c.root", "b.root"] ["h"] ["h_@_A"] =
      .completed ⟨["h"], ["h_@_A"], []⟩
        (some ⟨[some ("h", "A")], ["c.root", "b.root"]⟩) ∧
    ReadDataFromFiles twoFiles [] ["b.root"] ["h"] ["h_@_A"] =
      .completed ⟨[], [], [TObj.leaf "h_@_A" 7]⟩ none := by
  constructor <;> rfl

/-- C13, amended: when the loop over the candidate files reaches a `.root` file that
cannot be opened while requests are pending, the loop ends there with the state
unchanged: no later candidate file is opened; when this is the first candidate,
`ReadDataFromFiles` leaves the request arrays and the output array as they were and
ends with the final warning for all pending requests, listing all candidate files. -/
theorem ReadDataFromFiles_unopenable (fs : String → Option (List TKey)) (out : List TObj)
    (f : String) (rest dataNames newDataNames : List String) (hne : dataNames ≠ [])
    (hroot : containsStr f ".root" = true)
    (hz : fs ((splitString f ':').headD "") = none) :
    (∀ specs st, st.dataNames ≠ [] → filesLoop fs specs (f :: rest) st = .exit st) ∧
    ReadDataFromFiles fs out (f :: rest) dataNames newDataNames =
      .completed ⟨dataNames, newDataNames, out⟩
        (some ⟨newDataNames.map splitUniqueName, f :: rest⟩) := by
  have hloop : ∀ specs st, st.dataNames ≠ [] → filesLoop fs specs (f :: rest) st = .exit st := by
    intro specs st hst
    have he : st.dataNames.isEmpty = false := by
      cases hd : st.dataNames with
      | nil => exact absurd hd hst
      | cons _ _ => rfl
    simp only [filesLoop, he, hroot, processFile, findEntry_zombie fs f hz]
    simp
  refine ⟨hloop, ?_⟩
  unfold ReadDataFromFiles
  rw [hloop _ ⟨dataNames, newDataNames, out⟩ hne]
  have he : dataNames.isEmpty = false := by
    cases dataNames with
    | nil => exact absurd rfl hne
    | cons _ _ => rfl
  simp [he]

theorem ReadDataFromFiles_unopenable_witness :
    ReadDataFromFiles twoFiles [] ("c.root" :: ["a.root"]) ["x"] ["x_@_A"] =
      .completed ⟨["x"], ["x_@_A"], []⟩
        (some ⟨["x_@_A"].map splitUniqueName, "c.root" :: ["a.root"]⟩) :=
  (ReadDataFromFiles_unopenable twoFiles [] "c.root" ["a.root"] ["x"] ["x_@_A"]
    (by decide) (by decide) (by rfl)).2

/-- C14, counterexample: the first file reference `a.root:q` names a sub-path that is
not in the file and the second file `b.root` holds the requested leaf `h`;
`ReadDataFromFiles` returns at the first reference, the second file is not searched,
the request stays pending and no final warning is printed. -/
theorem ReadDataFromFiles_missing_subpath_returns :
    ReadDataFromFiles twoFiles [] ["a.root:q", "b.root"] ["h"] ["h_@_A"] =
      .aborted ⟨["h"], ["h_@_A"], []⟩ ∧
    ReadDataFromFiles twoFiles [] ["b.root"] ["h"] ["h_@_A"] =
      .completed ⟨[], [], [TObj.leaf "h_@_A" 7]⟩ none := by
  constructor <;> rfl

/-- C14, amended: when the loop over the candidate files reaches a `.root` file
reference whose internal sub-path is not found in the file while requests are pending,
`ReadDataFromFiles` returns at once with the state unchanged: the output array is not
changed by that file, no following candidate file is searched, and no final warning is
printed; the request arrays keep their content. -/
theorem ReadDataFromFiles_missing_subpath (fs : String → Option (List TKey))
    (out : List TObj) (f : String) (rest dataNames newDataNames : List String)
    (hne : dataNames ≠ []) (hroot : containsStr f ".root" = true)
    (hm : findEntry fs f = .subdirMissing) :
    (∀ specs st, st.dataNames ≠ [] → filesLoop fs specs (f :: rest) st = .abort st) ∧
    ReadDataFromFiles fs out (f :: rest) dataNames newDataNames =
      .aborted ⟨dataNames, newDataNames, out⟩ := by
  have hloop : ∀ specs st, st.dataNames ≠ [] →
      filesLoop fs specs (f :: rest) st = .abort st := by
    intro specs st hst
    have he : st.dataNames.isEmpty = false := by
      cases hd : st.dataNames with
      | nil => exact absurd hd hst
      | cons _ _ => rfl
    simp only [filesLoop, he, hroot, processFile, hm]
    simp
  refine ⟨hloop, ?_⟩
  unfold ReadDataFromFiles
  rw [hloop _ ⟨dataNames, newDataNames, out⟩ hne]

theorem ReadDataFromFiles_missing_subpath_witness :
    ReadDataFromFiles twoFiles [] ("a.root:q" :: ["b.root"]) ["h"] ["h_@_A"] =
      .aborted ⟨["h"], ["h_@_A"], []⟩ :=
  (ReadDataFromFiles_missing_subpath twoFiles [] "a.root:q" ["b.root"] ["h"] ["h_@_A"]
    (by decide) (by decide) (by rfl)).2

/-! ## Maps in key order -/

theorem hasKey_false_lookup {K α : Type} [DecidableEq K] (m : List (K × α)) (k : K) :
    hasKey m k = false ↔ m.lookup k = none := by
  induction m with
  | nil => simp [hasKey]
  | cons e rest ih =>
    obtain ⟨a, b⟩ := e
    simp only [hasKey, List.any_cons, Bool.or_eq_false_iff, List.lookup_cons] at ih ⊢
    by_cases h : k = a
    · subst h
      simp
    · have h2 : (a == k) = false := by simpa using fun h3 => h h3.symm
      have h3 : (k == a) = false := by simpa using h
      rw [h2, h3]
      simpa using ih

theorem lookup_insertKey_self {K α : Type} [DecidableEq K] (lt : K → K → Bool) (k : K)
    (v : α) (m : List (K × α)) (h : m.lookup k = none) :
    (insertKey lt k v m).lookup k = some v := by
  induction m with
  | nil => simp [insertKey, List.lookup_cons]
  | cons e rest ih =>
    obtain ⟨a, b⟩ := e
    simp only [List.lookup_cons] at h
    cases hka : k == a with
    | true => rw [hka] at h; simp at h
    | false =>
      rw [hka] at h
      simp only at h
      simp only [insertKey]
      split
      · simp [List.lookup_cons]
      · simp only [List.lookup_cons, hka]
        exact ih h

theorem lookup_insertKey_other {K α : Type} [DecidableEq K] (lt : K → K → Bool) (k k2 : K)
    (v : α) (m : List (K × α)) (h : k2 ≠ k) :
    (insertKey lt k v m).lookup k2 = m.lookup k2 := by
  have hk : (k2 == k) = false := by simpa using h
  induction m with
  | nil => simp [insertKey, List.lookup_cons, hk]
  | cons e rest ih =>
    obtain ⟨a, b⟩ := e
    simp only [insertKey]
    split
    · simp [List.lookup_cons, hk]
    · simp only [List.lookup_cons]
      rw [ih]

theorem lookup_fold_insert {K α : Type} [DecidableEq K] (lt : K → K → Bool) (k : K)
    (t : List (K × α)) : ∀ acc : List (K × α),
    (t.foldl (fun acc e => if hasKey acc e.1 then acc else insertKey lt e.1 e.2 acc) acc).lookup k =
      match acc.lookup k with
      | some v => some v
      | none => t.lookup k := by
  induction t with
  | nil =>
    intro acc
    simp only [List.foldl_nil, List.lookup_nil]
    cases acc.lookup k <;> rfl
  | cons e rest ih =>
    intro acc
    obtain ⟨a, b⟩ := e
    simp only [List.foldl_cons]
    rw [ih]
    by_cases hk : hasKey acc a = true
    · simp only [hk, if_true]
      cases hl : acc.lookup k with
      | some v => rfl
      | none =>
        simp only [List.lookup_cons]
        have hne : (k == a) = false := by
          cases hka : k == a with
          | false => rfl
          | true =>
            have : k = a := by simpa using hka
            subst this
            rw [(hasKey_false_lookup acc k).mpr hl] at hk
            exact absurd hk (by simp)
        rw [hne]
    · have hk2 : hasKey acc a = false := by simpa using hk
      simp only [hk2, Bool.false_eq_true, if_false]
      by_cases hka : k = a
      · subst hka
        have hnone := (hasKey_false_lookup acc k).mp hk2
        rw [lookup_insertKey_self lt k b acc hnone, hnone]
        simp [List.lookup_cons]
      · rw [lookup_insertKey_other lt a k b acc hka]
        cases acc.lookup k with
        | some v => rfl
        | none =>
          have : (k == a) = false := by simpa using hka
          simp [List.lookup_cons, this]

theorem lookup_mergeMap {K α : Type} [DecidableEq K] (lt : K → K → Bool) (g : α → α → α)
    (t p : List (K × α)) (k : K) :
    (mergeMap lt g t p).lookup k =
      match p.lookup k with
      | some pv =>
        (match t.lookup k with
          | some tv => some (g tv pv)
          | none => some pv)
      | none => t.lookup k := by
  unfold mergeMap
  rw [lookup_fold_insert]
  induction p with
  | nil => rfl
  | cons e rest ih =>
    obtain ⟨a, b⟩ := e
    simp only [List.map_cons, List.lookup_cons]
    cases hka : k == a with
    | true =>
      have : k = a := by simpa using hka
      subst this
      simp only
      cases t.lookup k <;> rfl
    | false => exact ih

/-! ## Merging a plot with its template -/

theorem merge_GetAxisTitle (t p : Plot) (padID : Int) (axis : String) :
    (Plot.merge t p).GetAxisTitle padID axis =
      match p.GetAxisTitle padID axis with
      | some title => some title
      | none => t.GetAxisTitle padID axis := by
  simp only [Plot.GetAxisTitle, Plot.merge, lookup_mergeMap]
  cases hp : p.pads.lookup padID with
  | none =>
    simp only [Option.bind]
  | some pp =>
    cases ht : t.pads.lookup padID with
    | none =>
      simp only [Option.bind]
      cases (pp.axes.lookup axis) with
      | none => rfl
      | some a => simp only; cases a.title <;> rfl
    | some tp =>
      simp only [Option.bind, Pad.merge, lookup_mergeMap]
      cases hpa : pp.axes.lookup axis with
      | none => simp only
      | some pa =>
        cases hta : tp.axes.lookup axis with
        | none => simp only; cases pa.title <;> rfl
        | some ta =>
          cases hpt : pa.title <;> simp [Axis.merge, hpt]

theorem merge_GetControlString (t p : Plot) (padID : Int) :
    (Plot.merge t p).GetControlString padID =
      match p.GetControlString padID with
      | some c => some c
      | none => t.GetControlString padID := by
  simp only [Plot.GetControlString, Plot.merge, lookup_mergeMap]
  cases hp : p.pads.lookup padID with
  | none => simp only [Option.bind]
  | some pp =>
    cases ht : t.pads.lookup padID with
    | none =>
      simp only [Option.bind]
      cases pp.controlString <;> rfl
    | some tp =>
      cases hc : pp.controlString <;> simp [Option.bind, Pad.merge, hc]

/-- C20: when the plot names a template and the manager holds a template of that name,
the plot that `GeneratePlot` hands to the painter is the merge of the first such
template with the plot; in the merge the name, figure group, category and style are
those of the plot, and for every pad and axis the axis title and the control string are
those of the plot where it sets them and those of the template otherwise. -/
theorem GeneratePlot_template_merge (mPlotTemplates : List Plot) (plot plotTemplate : Plot)
    (plotTemplateName : String) (hname : plot.plotTemplateName = some plotTemplateName)
    (hfind : mPlotTemplates.find? (fun t => t.name == plotTemplateName) = some plotTemplate) :
    resolvePlot mPlotTemplates plot = (Plot.merge plotTemplate plot, []) ∧
    (Plot.merge plotTemplate plot).name = plot.name ∧
    (Plot.merge plotTemplate plot).figureGroup = plot.figureGroup ∧
    (Plot.merge plotTemplate plot).figureCategory = plot.figureCategory ∧
    (Plot.merge plotTemplate plot).plotStyle = plot.plotStyle ∧
    (∀ padID axis, (Plot.merge plotTemplate plot).GetAxisTitle padID axis =
      match plot.GetAxisTitle padID axis with
      | some title => some title
      | none => plotTemplate.GetAxisTitle padID axis) ∧
    (∀ padID, (Plot.merge plotTemplate plot).GetControlString padID =
      match plot.GetControlString padID with
      | some c => some c
      | none => plotTemplate.GetControlString padID) := by
  refine ⟨?_, rfl, rfl, rfl, rfl, merge_GetAxisTitle plotTemplate plot,
    merge_GetControlString plotTemplate plot⟩
  unfold resolvePlot
  rw [hname]
  simp only
  rw [hfind]

theorem GeneratePlot_template_merge_witness :
    ((resolvePlot [(Plot.create "T1" "TEMPLATES" "default").SetAxisTitle "X" "pT"]
      { Plot.create "p" "g" "default" with plotTemplateName := some "T1" }).1.GetAxisTitle
        1 "X") = some "pT" := by
  have h := GeneratePlot_template_merge
    [(Plot.create "T1" "TEMPLATES" "default").SetAxisTitle "X" "pT"]
    { Plot.create "p" "g" "default" with plotTemplateName := some "T1" }
    ((Plot.create "T1" "TEMPLATES" "default").SetAxisTitle "X" "pT") "T1" rfl rfl
  rw [h.1, h.2.2.2.2.2.1]
  rfl

/-! ## Generating plots -/

theorem hasKey_mapErase {K α : Type} [DecidableEq K] (m : List (K × α)) (k : K) :
    hasKey (mapErase k m) k = false := by
  simp [hasKey, mapErase]

theorem mapErase_of_not_hasKey {K α : Type} [DecidableEq K] (m : List (K × α)) (k : K)
    (h : hasKey m k = false) : mapErase k m = m := by
  unfold mapErase
  rw [List.filter_eq_self]
  intro e he
  simp only [hasKey, List.any_eq_false] at h
  simpa using h e he

theorem mapSet_of_not_hasKey {K α : Type} [DecidableEq K] (lt : K → K → Bool) (k : K) (v : α)
    (m : List (K × α)) (h : hasKey m k = false) : mapSet lt k v m = insertKey lt k v m := by
  simp [mapSet, mapModify, h]

theorem filter_insertKey {K α : Type} [DecidableEq K] (lt : K → K → Bool) (k : K) (v : α)
    (m : List (K × α)) (h : hasKey m k = false) :
    (insertKey lt k v m).filter (fun e => e.1 == k) = [(k, v)] := by
  induction m with
  | nil => simp [insertKey]
  | cons e rest ih =>
    simp only [hasKey, List.any_cons, Bool.or_eq_false_iff] at h
    have hrest : rest.filter (fun e => e.1 == k) = [] := by
      rw [List.filter_eq_nil_iff]
      intro x hx
      have := h.2
      simp only [List.any_eq_false] at this
      simpa using this x hx
    simp only [insertKey]
    split
    · simp [List.filter_cons, h.1, hrest]
    · simp only [List.filter_cons, h.1]
      exact ih (by simpa [hasKey] using h.2)

theorem hasKey_insertKey {K α : Type} [DecidableEq K] (lt : K → K → Bool) (k : K) (v : α)
    (m : List (K × α)) : hasKey (insertKey lt k v m) k = true := by
  induction m with
  | nil => simp [insertKey, hasKey]
  | cons e rest ih =>
    simp only [insertKey]
    split
    · simp [hasKey]
    · simp only [hasKey, List.any_cons, Bool.or_eq_true]
      right
      exact ih

theorem eraseFromLedger_spec (m : PlotManager) (plot : Plot) :
    (eraseFromLedger m plot).mPlotLedger = mapErase plot.GetUniqueName m.mPlotLedger ∧
    (eraseFromLedger m plot).log = m.log ++
      (if hasKey m.mPlotLedger plot.GetUniqueName then
        [Message.plotReplaced plot.GetUniqueName] else []) ∧
    (eraseFromLedger m plot).mDataLedger = m.mDataLedger ∧
    (eraseFromLedger m plot).mLoadedData = m.mLoadedData ∧
    (eraseFromLedger m plot).mPlots = m.mPlots ∧
    (eraseFromLedger m plot).mPlotTemplates = m.mPlotTemplates ∧
    (eraseFromLedger m plot).mPlotViewHistory = m.mPlotViewHistory ∧
    (eraseFromLedger m plot).savedFiles = m.savedFiles := by
  unfold eraseFromLedger
  by_cases h : hasKey m.mPlotLedger plot.GetUniqueName = true
  · simp [h]
  · have h2 : hasKey m.mPlotLedger plot.GetUniqueName = false := by simpa using h
    simp [h2, mapErase_of_not_hasKey _ _ h2]

theorem outputPlot_frame (clicks : List Bool) (m m2 : PlotManager) (plot : Plot)
    (canvas : TCanvas) (outputMode : String)
    (h : outputPlot clicks m plot canvas outputMode = some m2) :
    m2.mDataLedger = m.mDataLedger ∧ m2.mLoadedData = m.mLoadedData ∧
    m2.mPlots = m.mPlots ∧ m2.mPlotTemplates = m.mPlotTemplates ∧ m2.log = m.log := by
  unfold outputPlot at h
  simp only at h
  split at h
  · split at h
    · cases h
    · split at h
      · cases h
        exact ⟨rfl, rfl, rfl, rfl, rfl⟩
      · cases h
  · split at h
    · cases h
      exact ⟨rfl, rfl, rfl, rfl, rfl⟩
    · cases h
      exact ⟨rfl, rfl, rfl, rfl, rfl⟩

theorem outputPlot_ledger (clicks : List Bool) (m m2 : PlotManager) (plot : Plot)
    (canvas : TCanvas) (outputMode : String)
    (hmode : (containsStr outputMode "interactive" || containsStr outputMode "file") = true)
    (h : outputPlot clicks m plot canvas outputMode = some m2) :
    m2.mPlotLedger = mapSet strLt plot.GetUniqueName canvas m.mPlotLedger := by
  unfold outputPlot at h
  simp only at h
  split at h
  · split at h
    · cases h
    · split at h
      · cases h
        rfl
      · cases h
  · next hni =>
    split at h
    · cases h
      rfl
    · next hnf =>
      simp only [Bool.not_eq_true] at hni hnf
      rw [hni, hnf] at hmode
      cases hmode

theorem outputPlot_not_interactive (clicks : List Bool) (m : PlotManager) (plot : Plot)
    (canvas : TCanvas) (outputMode : String)
    (hni : containsStr outputMode "interactive" = false) :
    (outputPlot clicks m plot canvas outputMode).isSome = true := by
  unfold outputPlot
  simp only [hni, Bool.false_eq_true, if_false]
  split <;> rfl

theorem outputPlot_other_mode (clicks : List Bool) (m m2 : PlotManager) (plot : Plot)
    (canvas : TCanvas) (outputMode : String)
    (hni : containsStr outputMode "interactive" = false)
    (hnf : containsStr outputMode "file" = false)
    (h : outputPlot clicks m plot canvas outputMode = some m2) :
    m2.mPlotLedger = m.mPlotLedger ∧ m2.mPlotViewHistory = m.mPlotViewHistory := by
  unfold outputPlot at h
  simp only [hni, hnf, Bool.false_eq_true, if_false] at h
  cases h
  exact ⟨rfl, rfl⟩

theorem GeneratePlot_frame (painter : Plot → List TObj → Option TCanvas) (clicks : List Bool)
    (m m2 : PlotManager) (plot : Plot) (outputMode : String)
    (h : GeneratePlot painter clicks m plot outputMode = some m2) :
    m2.mDataLedger = m.mDataLedger ∧ m2.mLoadedData = m.mLoadedData ∧
    m2.mPlots = m.mPlots ∧ m2.mPlotTemplates = m.mPlotTemplates := by
  obtain ⟨-, -, e1, e2, e3, e4, -, -⟩ := eraseFromLedger_spec m plot
  unfold GeneratePlot at h
  simp only at h
  split at h
  · cases h
    exact ⟨e1, e2, e3, e4⟩
  · split at h
    · cases h
      exact ⟨e1, e2, e3, e4⟩
    · obtain ⟨f1, f2, f3, f4, -⟩ := outputPlot_frame _ _ _ _ _ _ h
      exact ⟨f1.trans e1, f2.trans e2, f3.trans e3, f4.trans e4⟩

theorem GeneratePlot_not_interactive (painter : Plot → List TObj → Option TCanvas)
    (clicks : List Bool) (m : PlotManager) (plot : Plot) (outputMode : String)
    (hni : containsStr outputMode "interactive" = false) :
    (GeneratePlot painter clicks m plot outputMode).isSome = true := by
  unfold GeneratePlot
  simp only
  split
  · rfl
  · split
    · rfl
    · exact outputPlot_not_interactive _ _ _ _ _ hni

theorem GeneratePlot_success (painter : Plot → List TObj → Option TCanvas)
    (clicks : List Bool) (m m2 : PlotManager) (plot : Plot) (outputMode : String)
    (canvas : TCanvas) (hgroup : (plot.figureGroup == "") = false)
    (hc : painter (resolvePlot m.mPlotTemplates plot).1 m.mDataLedger = some canvas)
    (h : GeneratePlot painter clicks m plot outputMode = some m2) :
    outputPlot clicks
      { eraseFromLedger m plot with
        mSaveToRootFile := containsStr outputMode "file" || (eraseFromLedger m plot).mSaveToRootFile
        log := (eraseFromLedger m plot).log ++ (resolvePlot m.mPlotTemplates plot).2 ++
          [Message.plotCreated canvas.name] } plot canvas outputMode = some m2 := by
  unfold GeneratePlot at h
  simp only [hgroup, Bool.false_eq_true, if_false, hc] at h
  exact h

theorem GeneratePlot_ledger (painter : Plot → List TObj → Option TCanvas)
    (clicks : List Bool) (m m2 : PlotManager) (plot : Plot) (outputMode : String)
    (canvas : TCanvas)
    (hmode : (containsStr outputMode "interactive" || containsStr outputMode "file") = true)
    (hgroup : (plot.figureGroup == "") = false)
    (hc : painter (resolvePlot m.mPlotTemplates plot).1 m.mDataLedger = some canvas)
    (h : GeneratePlot painter clicks m plot outputMode = some m2) :
    m2.mPlotLedger =
      insertKey strLt plot.GetUniqueName canvas (mapErase plot.GetUniqueName m.mPlotLedger) ∧
    m2.log = m.log ++
      (if hasKey m.mPlotLedger plot.GetUniqueName then
        [Message.plotReplaced plot.GetUniqueName] else []) ++
      (resolvePlot m.mPlotTemplates plot).2 ++ [Message.plotCreated canvas.name] := by
  have hs := GeneratePlot_success painter clicks m m2 plot outputMode canvas hgroup hc h
  obtain ⟨e1, e2, -⟩ := eraseFromLedger_spec m plot
  have hl := outputPlot_ledger _ _ _ _ _ _ hmode hs
  obtain ⟨-, -, -, -, hlog⟩ := outputPlot_frame _ _ _ _ _ _ hs
  simp only at hl hlog
  refine ⟨?_, ?_⟩
  · rw [hl, e1, mapSet_of_not_hasKey _ _ _ _ (hasKey_mapErase _ _)]
  · rw [hlog, e2]

theorem GeneratePlot_other_mode (painter : Plot → List TObj → Option TCanvas)
    (clicks : List Bool) (m m2 : PlotManager) (plot : Plot) (outputMode : String)
    (hni : containsStr outputMode "interactive" = false)
    (hnf : containsStr outputMode "file" = false)
    (h : GeneratePlot painter clicks m plot outputMode = some m2) :
    m2.mPlotLedger = mapErase plot.GetUniqueName m.mPlotLedger := by
  obtain ⟨e1, -⟩ := eraseFromLedger_spec m plot
  unfold GeneratePlot at h
  simp only at h
  split at h
  · cases h
    exact e1
  · split at h
    · cases h
      exact e1
    · obtain ⟨f1, -⟩ := outputPlot_other_mode _ _ _ _ _ _ hni hnf h
      exact f1.trans e1

/-- C16, counterexample: in the output mode `pdf` a plot is generated successfully
twice; each time the canvas is saved to a file, the ledger stays empty, and no
replacement message is printed. -/
theorem GeneratePlot_pdf_twice :
    ((GeneratePlot (fun _ _ => some ⟨"c1", 1⟩) [] PlotManager.init
        (Plot.create "p" "g" "default") "pdf").bind fun m1 =>
      (GeneratePlot (fun _ _ => some ⟨"c2", 2⟩) [] m1
        (Plot.create "p" "g" "default") "pdf").map fun m2 =>
        (m2.mPlotLedger, m2.log, m2.savedFiles)) =
      some ([], [Message.plotCreated "c1", Message.plotCreated "c2"],
        [("/g/p.pdf", ⟨"c1", 1⟩), ("/g/p.pdf", ⟨"c2", 2⟩)]) := by
  rfl

/-- C16, amended: for every plot with a figure group and every output mode that
contains `interactive` or `file`, when the plot is generated twice in a row and the
painter returns a canvas each time, the ledger holds the first canvas under the unique
name of the plot after the first call and, after the second call, exactly one entry
under this name, which holds the second canvas; the second call prints the replacement
message first. In a mode without `interactive` every call of `GeneratePlot` returns,
and in a mode with neither `interactive` nor `file` the ledger has no entry under the
unique name of the plot after a call. -/
theorem GeneratePlot_twice (p1 p2 : Plot → List TObj → Option TCanvas)
    (clicks1 clicks2 : List Bool) (m m1 m2 : PlotManager) (plot : Plot)
    (outputMode : String) (c1 c2 : TCanvas)
    (hmode : (containsStr outputMode "interactive" || containsStr outputMode "file") = true)
    (hgroup : (plot.figureGroup == "") = false)
    (hc1 : p1 (resolvePlot m.mPlotTemplates plot).1 m.mDataLedger = some c1)
    (hc2 : p2 (resolvePlot m1.mPlotTemplates plot).1 m1.mDataLedger = some c2)
    (h1 : GeneratePlot p1 clicks1 m plot outputMode = some m1)
    (h2 : GeneratePlot p2 clicks2 m1 plot outputMode = some m2) :
    m1.mPlotLedger.lookup plot.GetUniqueName = some c1 ∧
    m2.mPlotLedger.lookup plot.GetUniqueName = some c2 ∧
    m2.mPlotLedger.filter (fun e => e.1 == plot.GetUniqueName) = [(plot.GetUniqueName, c2)] ∧
    m2.log = m1.log ++ [Message.plotReplaced plot.GetUniqueName] ++
      (resolvePlot m1.mPlotTemplates plot).2 ++ [Message.plotCreated c2.name] ∧
    (containsStr outputMode "interactive" = false →
      ∀ p clicks mm, (GeneratePlot p clicks mm plot outputMode).isSome = true) ∧
    (∀ (mode : String) p clicks mm mm2, containsStr mode "interactive" = false →
      containsStr mode "file" = false → GeneratePlot p clicks mm plot mode = some mm2 →
      hasKey mm2.mPlotLedger plot.GetUniqueName = false) := by
  obtain ⟨hl1, -⟩ := GeneratePlot_ledger p1 clicks1 m m1 plot outputMode c1 hmode hgroup hc1 h1
  obtain ⟨hl2, hlog2⟩ :=
    GeneratePlot_ledger p2 clicks2 m1 m2 plot outputMode c2 hmode hgroup hc2 h2
  have hnone : ∀ l : List (String × TCanvas),
      (mapErase plot.GetUniqueName l).lookup plot.GetUniqueName = none :=
    fun l => (hasKey_false_lookup _ _).mp (hasKey_mapErase l _)
  have hkey : hasKey m1.mPlotLedger plot.GetUniqueName = true := by
    rw [hl1]
    exact hasKey_insertKey _ _ _ _
  refine ⟨?_, ?_, ?_, ?_, ?_, ?_⟩
  · rw [hl1]
    exact lookup_insertKey_self _ _ _ _ (hnone _)
  · rw [hl2]
    exact lookup_insertKey_self _ _ _ _ (hnone _)
  · rw [hl2]
    exact filter_insertKey _ _ _ _ (hasKey_mapErase _ _)
  · rw [hlog2, hkey]
    simp
  · intro hni p clicks mm
    exact GeneratePlot_not_interactive p clicks mm plot outputMode hni
  · intro mode p clicks mm mm2 hni hnf h
    rw [GeneratePlot_other_mode p clicks mm mm2 plot mode hni hnf h]
    exact hasKey_mapErase _ _

theorem GeneratePlot_twice_witness :
    ({ PlotManager.init with
        mPlotLedger := [("p_@_g", (⟨"c2", 2⟩ : TCanvas))]
        mSaveToRootFile := true
        log := [Message.plotCreated "c1", Message.plotReplaced "p_@_g",
          Message.plotCreated "c2"] } : PlotManager).mPlotLedger.lookup
      (Plot.create "p" "g" "default").GetUniqueName = some ⟨"c2", 2⟩ :=
  (GeneratePlot_twice (fun _ _ => some ⟨"c1", 1⟩) (fun _ _ => some ⟨"c2", 2⟩) [] []
    PlotManager.init
    { PlotManager.init with
      mPlotLedger := [("p_@_g", (⟨"c1", 1⟩ : TCanvas))]
      mSaveToRootFile := true
      log := [Message.plotCreated "c1"] }
    { PlotManager.init with
      mPlotLedger := [("p_@_g", (⟨"c2", 2⟩ : TCanvas))]
      mSaveToRootFile := true
      log := [Message.plotCreated "c1", Message.plotReplaced "p_@_g",
        Message.plotCreated "c2"] }
    (Plot.create "p" "g" "default") "file" ⟨"c1", 1⟩ ⟨"c2", 2⟩
    (by decide) (by decide) rfl rfl (by rfl) (by rfl)).2.1

/-! ## Creating plots -/

theorem scanPlots_sublist (figureGroup figureCategory : String)
    (saveAll saveSpecificPlots : Bool) (L : IdMap) (plots : List Plot) :
    ∀ st : RequiredState,
      ∃ sel : List Plot,
        (scanPlots figureGroup figureCategory saveAll saveSpecificPlots L plots st).selectedPlots
          = st.selectedPlots ++ sel ∧ sel.Sublist plots := by
  induction plots with
  | nil => intro st; exact ⟨[], by simp [scanPlots], List.Sublist.slnil⟩
  | cons plot rest ih =>
    intro st
    simp only [scanPlots]
    split
    · obtain ⟨sel, h1, h2⟩ := ih st
      exact ⟨sel, h1, h2.cons _⟩
    · split
      · obtain ⟨sel, h1, h2⟩ := ih st
        exact ⟨sel, h1, h2.cons _⟩
      · obtain ⟨sel, h1, h2⟩ := ih
          { mNameRegister := (scanPads L plot.pads st.mNameRegister st.requiredData).1,
            requiredData := (scanPads L plot.pads st.mNameRegister st.requiredData).2,
            plotNames := if !st.plotNames.isEmpty then
                st.plotNames.filter (fun n => n != plot.name)
              else st.plotNames,
            selectedPlots := st.selectedPlots ++ [plot] }
        refine ⟨plot :: sel, ?_, h2.cons₂ _⟩
        rw [h1]
        simp

theorem generateSelected_events (painter : Plot → List TObj → Option TCanvas)
    (clicks : String → List Bool) (outputMode : String) (selected : List Plot) :
    ∀ (m m2 : PlotManager) (events : List PlotEvent),
      generateSelected painter clicks outputMode selected m = some (m2, events) →
      events = selected.map (fun plot =>
        if IsPlotPossible m.mDataLedger plot then PlotEvent.generate plot
        else PlotEvent.notPossible plot) ∧
      m2.mDataLedger = m.mDataLedger ∧ m2.mLoadedData = m.mLoadedData := by
  induction selected with
  | nil =>
    intro m m2 events h
    simp only [generateSelected, Option.some.injEq, Prod.mk.injEq] at h
    obtain ⟨h1, h2⟩ := h
    subst h1 h2
    exact ⟨rfl, rfl, rfl⟩
  | cons plot rest ih =>
    intro m m2 events h
    simp only [generateSelected] at h
    by_cases hp : IsPlotPossible m.mDataLedger plot = true
    · simp only [hp, if_true] at h
      cases hg : GeneratePlot painter (clicks plot.GetUniqueName) m plot outputMode with
      | none => rw [hg] at h; cases h
      | some m3 =>
        rw [hg] at h
        simp only at h
        cases hr : generateSelected painter clicks outputMode rest m3 with
        | none => rw [hr] at h; cases h
        | some r =>
          rw [hr] at h
          simp only [Option.map_some', Option.some.injEq, Prod.mk.injEq] at h
          obtain ⟨h1, h2⟩ := h
          obtain ⟨f1, f2, -, -⟩ := GeneratePlot_frame _ _ _ _ _ _ hg
          obtain ⟨e1, e2, e3⟩ := ih m3 r.1 r.2 hr
          subst h1 h2
          refine ⟨?_, e2.trans f1, e3.trans f2⟩
          rw [e1, f1]
          simp [hp]
    · simp only [hp, Bool.false_eq_true, if_false] at h
      cases hr : generateSelected painter clicks outputMode rest
          { m with
            log := m.log ++ [Message.plotNotPossible plot.name
              (Plot.groupLabel plot.figureGroup plot.figureCategory)] } with
      | none => rw [hr] at h; cases h
      | some r =>
        rw [hr] at h
        simp only [Option.map_some', Option.some.injEq, Prod.mk.injEq] at h
        obtain ⟨h1, h2⟩ := h
        obtain ⟨e1, e2, e3⟩ := ih _ r.1 r.2 hr
        subst h1 h2
        refine ⟨?_, e2, e3⟩
        rw [e1]
        simp [hp]

theorem generateSelected_total (painter : Plot → List TObj → Option TCanvas)
    (clicks : String → List Bool) (outputMode : String)
    (hni : containsStr outputMode "interactive" = false) (selected : List Plot) :
    ∀ m : PlotManager, (generateSelected painter clicks outputMode selected m).isSome = true := by
  induction selected with
  | nil => intro m; rfl
  | cons plot rest ih =>
    intro m
    simp only [generateSelected]
    split
    · have hs := GeneratePlot_not_interactive painter (clicks plot.GetUniqueName) m plot
        outputMode hni
      cases hg : GeneratePlot painter (clicks plot.GetUniqueName) m plot outputMode with
      | none => rw [hg] at hs; cases hs
      | some m3 =>
        simp only [Option.isSome_map']
        exact ih m3
    · simp only [Option.isSome_map']
      exact ih _

theorem resolvePlot_messages (mPlotTemplates : List Plot) (plot : Plot) :
    (resolvePlot mPlotTemplates plot).2.filter Message.isNotPossible = [] ∧
    (resolvePlot mPlotTemplates plot).2.filter Message.isCreated = [] := by
  unfold resolvePlot
  cases plot.plotTemplateName with
  | none => exact ⟨rfl, rfl⟩
  | some plotTemplateName =>
    simp only
    cases mPlotTemplates.find? (fun plotTemplate => plotTemplate.name == plotTemplateName) with
    | some plotTemplate => exact ⟨rfl, rfl⟩
    | none => exact ⟨rfl, rfl⟩

theorem eraseFromLedger_log_filter (m : PlotManager) (plot : Plot) :
    (eraseFromLedger m plot).log.filter Message.isNotPossible =
      m.log.filter Message.isNotPossible ∧
    (eraseFromLedger m plot).log.filter Message.isCreated =
      m.log.filter Message.isCreated := by
  obtain ⟨-, e, -⟩ := eraseFromLedger_spec m plot
  rw [e]
  by_cases h : hasKey m.mPlotLedger plot.GetUniqueName = true
  · simp [h, Message.isNotPossible, Message.isCreated]
  · simp [h]

theorem GeneratePlot_log (painter : Plot → List TObj → Option TCanvas) (clicks : List Bool)
    (m m2 : PlotManager) (plot : Plot) (outputMode : String)
    (h : GeneratePlot painter clicks m plot outputMode = some m2) :
    m2.log.filter Message.isNotPossible = m.log.filter Message.isNotPossible ∧
    m2.log.filter Message.isCreated = m.log.filter Message.isCreated ++
      (if plot.figureGroup == "" then []
        else ((painter (resolvePlot m.mPlotTemplates plot).1 m.mDataLedger).map
          fun canvas => Message.plotCreated canvas.name).toList) := by
  obtain ⟨e1, e2⟩ := eraseFromLedger_log_filter m plot
  obtain ⟨r1, r2⟩ := resolvePlot_messages m.mPlotTemplates plot
  unfold GeneratePlot at h
  simp only at h
  by_cases hg : (plot.figureGroup == "") = true
  · simp only [hg, if_true, Option.some.injEq] at h
    subst h
    simp [hg, e1, e2, Message.isNotPossible, Message.isCreated]
  · simp only [hg, Bool.false_eq_true, if_false] at h
    cases hc : painter (resolvePlot m.mPlotTemplates plot).1 m.mDataLedger with
    | none =>
      rw [hc] at h
      simp only [Option.some.injEq] at h
      subst h
      simp [hg, e1, e2, r1, r2]
    | some canvas =>
      rw [hc] at h
      simp only at h
      obtain ⟨-, -, -, -, f⟩ := outputPlot_frame _ _ _ _ _ _ h
      rw [f]
      simp [hg, e1, e2, r1, r2, Message.isNotPossible, Message.isCreated]

theorem generateSelected_fold (painter : Plot → List TObj → Option TCanvas)
    (clicks : String → List Bool) (outputMode : String) (mDataLedger : List TObj)
    (selected : List Plot) :
    ∀ m : PlotManager, m.mDataLedger = mDataLedger →
      (generateSelected painter clicks outputMode selected m).map Prod.fst =
        selected.foldlM (fun (acc : PlotManager) (plot : Plot) =>
          if IsPlotPossible mDataLedger plot then
            GeneratePlot painter (clicks plot.GetUniqueName) acc plot outputMode
          else
            some { acc with
              log := acc.log ++ [Message.plotNotPossible plot.name
                (Plot.groupLabel plot.figureGroup plot.figureCategory)] }) m := by
  induction selected with
  | nil =>
    intro m _
    rfl
  | cons plot rest ih =>
    intro m hm
    subst hm
    simp only [generateSelected, List.foldlM_cons]
    by_cases hp : IsPlotPossible m.mDataLedger plot = true
    · simp only [hp, if_true]
      cases hg : GeneratePlot painter (clicks plot.GetUniqueName) m plot outputMode with
      | none => rfl
      | some m3 =>
        obtain ⟨f1, -⟩ := GeneratePlot_frame _ _ _ _ _ _ hg
        simp only [Option.map_map]
        refine Eq.trans ?_ (ih m3 f1)
        cases generateSelected painter clicks outputMode rest m3 <;> rfl
    · simp only [hp, Bool.false_eq_true, if_false, Option.map_map]
      refine Eq.trans ?_ (ih _ rfl)
      cases generateSelected painter clicks outputMode rest
        { m with
          log := m.log ++ [Message.plotNotPossible plot.name
            (Plot.groupLabel plot.figureGroup plot.figureCategory)] } <;> rfl

theorem generateSelected_log (painter : Plot → List TObj → Option TCanvas)
    (clicks : String → List Bool) (outputMode : String) (selected : List Plot) :
    ∀ (m m2 : PlotManager) (events : List PlotEvent),
      generateSelected painter clicks outputMode selected m = some (m2, events) →
      m2.log.filter Message.isNotPossible = m.log.filter Message.isNotPossible ++
        (selected.filter fun plot => !IsPlotPossible m.mDataLedger plot).map (fun plot =>
          Message.plotNotPossible plot.name
            (Plot.groupLabel plot.figureGroup plot.figureCategory)) ∧
      m2.log.filter Message.isCreated = m.log.filter Message.isCreated ++
        (selected.filter fun plot => IsPlotPossible m.mDataLedger plot).flatMap (fun plot =>
          if plot.figureGroup == "" then []
          else ((painter (resolvePlot m.mPlotTemplates plot).1 m.mDataLedger).map
            fun canvas => Message.plotCreated canvas.name).toList) := by
  induction selected with
  | nil =>
    intro m m2 events h
    simp only [generateSelected, Option.some.injEq, Prod.mk.injEq] at h
    obtain ⟨h1, -⟩ := h
    subst h1
    simp
  | cons plot rest ih =>
    intro m m2 events h
    simp only [generateSelected] at h
    by_cases hp : IsPlotPossible m.mDataLedger plot = true
    · simp only [hp, if_true] at h
      cases hg : GeneratePlot painter (clicks plot.GetUniqueName) m plot outputMode with
      | none => rw [hg] at h; cases h
      | some m3 =>
        rw [hg] at h
        simp only at h
        cases hr : generateSelected painter clicks outputMode rest m3 with
        | none => rw [hr] at h; cases h
        | some r =>
          rw [hr] at h
          simp only [Option.map_some', Option.some.injEq, Prod.mk.injEq] at h
          obtain ⟨h1, -⟩ := h
          obtain ⟨f1, -, -, f4⟩ := GeneratePlot_frame _ _ _ _ _ _ hg
          obtain ⟨g1, g2⟩ := GeneratePlot_log _ _ _ _ _ _ hg
          obtain ⟨e1, e2⟩ := ih m3 r.1 r.2 hr
          subst h1
          rw [e1, e2, g1, g2, f1, f4]
          simp [hp, List.filter_cons, List.flatMap_cons]
    · simp only [hp, Bool.false_eq_true, if_false] at h
      cases hr : generateSelected painter clicks outputMode rest
          { m with
            log := m.log ++ [Message.plotNotPossible plot.name
              (Plot.groupLabel plot.figureGroup plot.figureCategory)] } with
      | none => rw [hr] at h; cases h
      | some r =>
        rw [hr] at h
        simp only [Option.map_some', Option.some.injEq, Prod.mk.injEq] at h
        obtain ⟨h1, -⟩ := h
        obtain ⟨e1, e2⟩ := ih _ r.1 r.2 hr
        subst h1
        rw [e1, e2]
        simp [hp, List.filter_cons, Message.isNotPossible, Message.isCreated]

/-- C15: when the data of the selected plots have been read into the data ledger, the
last loop of `CreatePlots` goes through the selected plots, which are stored plots in
their stored order. The manager that `CreatePlots` leaves is the manager after
selection and reading, threaded in this order through one call of `GeneratePlot` for
each selected plot for which `IsPlotPossible` holds on that data ledger and through one
printed error line for each other selected plot, plots after a reported one included.
Whenever `CreatePlots` returns, the error lines about plots that could not be created
which it added to the output are the lines of exactly the selected plots that are not
possible, in order; the lines about created plots which it added are the ones of the
calls of `GeneratePlot` for exactly the possible selected plots, in order (a call prints
the line when the plot has a figure group and the painter returns a canvas); the data
ledger is the one after reading. In an output mode without `interactive` it returns. -/
theorem CreatePlots_generates (painter : Plot → List TObj → Option TCanvas)
    (clicks : String → List Bool) (fs : String → Option (List TKey))
    (csvGraph : String → Nat) (m : PlotManager) (figureGroup figureCategory : String)
    (plotNames : List String) (outputMode : String) (mDataLedger : List TObj)
    (hread : readRequiredData fs csvGraph
      (CreatePlotsRequired m.mPlots m.mNameRegister m.mLoadedData figureGroup figureCategory
        plotNames).mNameRegister m.mOutputDirectory m.mInputFiles
      (CreatePlotsRequired m.mPlots m.mNameRegister m.mLoadedData figureGroup figureCategory
        plotNames).requiredData m.mDataLedger = some mDataLedger) :
    (CreatePlotsRequired m.mPlots m.mNameRegister m.mLoadedData figureGroup figureCategory
      plotNames).selectedPlots.Sublist m.mPlots ∧
    (∀ m2 events,
      CreatePlots painter clicks fs csvGraph m figureGroup figureCategory plotNames
        outputMode = some (m2, events) →
      events = (CreatePlotsRequired m.mPlots m.mNameRegister m.mLoadedData figureGroup
        figureCategory plotNames).selectedPlots.map (fun plot =>
          if IsPlotPossible mDataLedger plot then PlotEvent.generate plot
          else PlotEvent.notPossible plot) ∧
      m2.mDataLedger = mDataLedger ∧
      m2.log.filter Message.isNotPossible = m.log.filter Message.isNotPossible ++
        ((CreatePlotsRequired m.mPlots m.mNameRegister m.mLoadedData figureGroup
          figureCategory plotNames).selectedPlots.filter fun plot =>
            !IsPlotPossible mDataLedger plot).map (fun plot =>
          Message.plotNotPossible plot.name
            (Plot.groupLabel plot.figureGroup plot.figureCategory)) ∧
      m2.log.filter Message.isCreated = m.log.filter Message.isCreated ++
        ((CreatePlotsRequired m.mPlots m.mNameRegister m.mLoadedData figureGroup
          figureCategory plotNames).selectedPlots.filter fun plot =>
            IsPlotPossible mDataLedger plot).flatMap (fun plot =>
          if plot.figureGroup == "" then []
          else ((painter (resolvePlot m.mPlotTemplates plot).1 mDataLedger).map
            fun canvas => Message.plotCreated canvas.name).toList)) ∧
    (containsStr outputMode "interactive" = false →
      (CreatePlots painter clicks fs csvGraph m figureGroup figureCategory plotNames
        outputMode).isSome = true) ∧
    (CreatePlots painter clicks fs csvGraph m figureGroup figureCategory plotNames
        outputMode).map Prod.fst =
      (CreatePlotsRequired m.mPlots m.mNameRegister m.mLoadedData figureGroup figureCategory
        plotNames).selectedPlots.foldlM (fun (acc : PlotManager) (plot : Plot) =>
          if IsPlotPossible mDataLedger plot then
            GeneratePlot painter (clicks plot.GetUniqueName) acc plot outputMode
          else
            some { acc with
              log := acc.log ++ [Message.plotNotPossible plot.name
                (Plot.groupLabel plot.figureGroup plot.figureCategory)] })
        { m with
          mNameRegister := (CreatePlotsRequired m.mPlots m.mNameRegister m.mLoadedData
            figureGroup figureCategory plotNames).mNameRegister
          mDataLedger := mDataLedger
          log := m.log ++ (CreatePlotsRequired m.mPlots m.mNameRegister m.mLoadedData
            figureGroup figureCategory plotNames).plotNames.map fun plotName =>
              Message.plotNotFound plotName (Plot.groupLabel figureGroup figureCategory) } := by
  refine ⟨?_, ?_, ?_, ?_⟩
  · obtain ⟨sel, h1, h2⟩ := scanPlots_sublist figureGroup figureCategory (figureGroup == "")
      (!(figureGroup == "") && !plotNames.isEmpty) m.mLoadedData m.mPlots
      { mNameRegister := m.mNameRegister, requiredData := [], plotNames := plotNames,
        selectedPlots := [] }
    unfold CreatePlotsRequired
    simp only
    rw [h1]
    simpa using h2
  · intro m2 events h
    unfold CreatePlots at h
    simp only [hread] at h
    obtain ⟨e1, e2, -⟩ := generateSelected_events _ _ _ _ _ _ _ h
    obtain ⟨l1, l2⟩ := generateSelected_log _ _ _ _ _ _ _ h
    refine ⟨e1, e2, ?_, ?_⟩
    · rw [l1]
      simp [Message.isNotPossible]
    · rw [l2]
      simp [Message.isCreated]
  · intro hni
    unfold CreatePlots
    simp only [hread]
    exact generateSelected_total _ _ _ hni _ _
  · unfold CreatePlots
    simp only [hread]
    exact generateSelected_fold _ _ _ _ _ _ rfl

theorem CreatePlots_generates_witness :
    (CreatePlots examplePainter (fun _ => []) twoFiles (fun _ => 0) exampleManager "" "" []
      "pdf").isSome = true ∧
    (CreatePlots examplePainter (fun _ => []) twoFiles (fun _ => 0) exampleManager "" "" []
      "pdf").map (fun r => r.2.map PlotEvent.summary) = some [("pz", false), ("ph", true)] ∧
    (CreatePlots examplePainter (fun _ => []) twoFiles (fun _ => 0) exampleManager "" "" []
      "pdf").map (fun r => (r.1.log, r.1.savedFiles, r.1.mPlotLedger)) =
      some ([Message.plotNotPossible "pz" "g", Message.plotCreated "ph"],
        [("/g/ph.pdf", ⟨"ph", 0⟩)], []) :=
  ⟨(CreatePlots_generates examplePainter (fun _ => []) twoFiles (fun _ => 0) exampleManager
    "" "" [] "pdf" [TObj.leaf "h_@_A" 7] (by rfl)).2.2.1 (by decide), by rfl, by rfl⟩

/-- C17: for every manager and every plot whose figure group is `TEMPLATES`, `AddPlot`
prints the line about the reserved group name and then stores the plot as any other
plot: the plot list after the call is the former list without the plots of the same
unique name, followed by the plot. -/
theorem AddPlot_reserved_group (m : PlotManager) (plot : Plot)
    (h : plot.figureGroup = "TEMPLATES") :
    (AddPlot m plot).mPlots =
      m.mPlots.filter (fun curPlot => !(curPlot.GetUniqueName == plot.GetUniqueName)) ++
        [plot] ∧
    (AddPlot m plot).log = m.log ++ [Message.reservedGroup] := by
  unfold AddPlot
  simp [h]

theorem AddPlot_reserved_group_witness :
    (AddPlot PlotManager.init (Plot.create "p" "TEMPLATES" "default")).mPlots =
      [Plot.create "p" "TEMPLATES" "default"] ∧
    (AddPlot PlotManager.init (Plot.create "p" "TEMPLATES" "default")).log =
      [Message.reservedGroup] :=
  AddPlot_reserved_group PlotManager.init (Plot.create "p" "TEMPLATES" "default") rfl

theorem CreatePlots_mLoadedData (painter : Plot → List TObj → Option TCanvas)
    (clicks : String → List Bool) (fs : String → Option (List TKey))
    (csvGraph : String → Nat) (m m2 : PlotManager) (figureGroup figureCategory : String)
    (plotNames : List String) (outputMode : String) (events : List PlotEvent)
    (h : CreatePlots painter clicks fs csvGraph m figureGroup figureCategory plotNames
      outputMode = some (m2, events)) :
    m2.mLoadedData = m.mLoadedData := by
  unfold CreatePlots at h
  simp only at h
  split at h
  · cases h
  · exact (generateSelected_events _ _ _ _ _ _ _ h).2.2

/-- C19: the manager holds the plot `ph` of the dataset `h` of the source `A`, stored in
the file `b.root`. The first call of `CreatePlots` reads `h` into the data ledger and
leaves `mLoadedData` empty. In the second call the required data hold the pair of ids of
`A` and `h` again, the file is read again, and the data ledger ends with two objects
named `h_@_A`. -/
theorem CreatePlots_reads_again :
    CreatePlots examplePainter (fun _ => []) twoFiles (fun _ => 0) exampleManagerH "" "" []
      "pdf" = some (exampleManagerH1, [PlotEvent.generate examplePlotH]) ∧
    exampleManagerH1.mDataLedger.map TObj.GetName = ["h_@_A"] ∧
    (CreatePlotsRequired exampleManagerH1.mPlots exampleManagerH1.mNameRegister
      exampleManagerH1.mLoadedData "" "" []).requiredData = [(0, [1])] ∧
    (CreatePlots examplePainter (fun _ => []) twoFiles (fun _ => 0) exampleManagerH1 "" "" []
      "pdf").map (fun r => r.1.mDataLedger.map TObj.GetName) = some ["h_@_A", "h_@_A"] := by
  refine ⟨by rfl, by rfl, by rfl, by rfl⟩

/-! ## Plot definitions in property trees -/

/-- C18: for every plot definition tree that has the fields `name`, `figureGroup` and
`figureCategory`, passes the filters of the request and lacks the field `plotStyle`, in
a group that is not the template group and in a mode that is not a search: the
constructor from the tree fails, prints its own error and returns the partly built plot
with the name of the definition, and the loop body of `ExtractPlotsFromFile` hands this
plot to `AddPlot`, so that it is stored in the manager and counted as found. -/
theorem loadPlotTree_stores_failed_plot (rd : TreeReaders)
    (regexMatch : String → String → Bool) (groupCategoryRegex : List (String × String))
    (plotNamesRegex : List String) (st : PlotManager × Nat) (plotTree : String × PTree)
    (plotName figureGroup figureCategory : String)
    (hn : plotTree.2.get "name" = some plotName)
    (hg : plotTree.2.get "figureGroup" = some figureGroup)
    (hc : plotTree.2.get "figureCategory" = some figureCategory)
    (hstyle : plotTree.2.get "plotStyle" = none)
    (hsel : (groupCategoryRegex.any fun e =>
      regexMatch figureGroup e.1 && regexMatch figureCategory e.2) = true)
    (hname : (plotNamesRegex.any fun e => regexMatch plotName e) = true) :
    (Plot.fromTree rd plotTree.2).2 = true ∧
    (Plot.fromTree rd plotTree.2).1.name = plotName ∧
    loadPlotTree rd regexMatch groupCategoryRegex plotNamesRegex false false st plotTree =
      .ok (AddPlot (logConstruct st.1 true) (Plot.fromTree rd plotTree.2).1,
        (st.2 + 1) % 2 ^ 32) ∧
    (Plot.fromTree rd plotTree.2).1 ∈
      (AddPlot (logConstruct st.1 true) (Plot.fromTree rd plotTree.2).1).mPlots := by
  have hbuilt : Plot.fromTree rd plotTree.2 =
      ({ name := plotName, figureGroup := figureGroup, figureCategory := figureCategory,
         plotTemplateName := none, pads := [], plotStyle := "", mCurrPad := 1 }, true) := by
    unfold Plot.fromTree
    simp only [hn, hg, hc, hstyle]
  refine ⟨by rw [hbuilt], by rw [hbuilt], ?_, ?_⟩
  · unfold loadPlotTree
    simp only [hn, hg, hc, hsel, hname, hbuilt]
    simp
  · simp [AddPlot]

theorem loadPlotTree_stores_failed_plot_witness :
    loadPlotTree exampleReaders (fun _ _ => true) [("g", ".*")] [".*"] false false
        (PlotManager.init, 0) ("PLOT::broken", brokenPlotTree) =
      .ok (AddPlot (logConstruct PlotManager.init true)
        (Plot.fromTree exampleReaders brokenPlotTree).1, (0 + 1) % 2 ^ 32) ∧
    (ExtractPlotsFromFile exampleReaders (fun _ _ => true) (fun _ => true)
      (fun _ => some examplePlotFile)
      examplePainter (fun _ => []) twoFiles (fun _ => 0) PlotManager.init "plots.xml" ["g"]
      [".*"] "load").returnedManager.map
        (fun m => (m.mPlots.map fun p => (p.name, p.plotStyle), m.log)) =
      some ([("broken", ""), ("good", "default")],
        [Message.constructFailed, Message.foundPlots 2]) ∧
    (ExtractPlotsFromFile exampleReaders (fun _ _ => true) (fun _ => true)
      (fun _ => some namelessPlotFile)
      examplePainter (fun _ => []) twoFiles (fun _ => 0) PlotManager.init "plots.xml" ["g"]
      [".*"] "load").thrownManager.map (fun m => m.mPlots.map fun p => p.name) = some [] :=
  ⟨(loadPlotTree_stores_failed_plot exampleReaders (fun _ _ => true) [("g", ".*")] [".*"]
    (PlotManager.init, 0) ("PLOT::broken", brokenPlotTree) "broken" "g" "" rfl rfl rfl rfl
    rfl rfl).2.2.1, by rfl, by rfl⟩

/-! ## Reading tables -/

theorem rfindChar_none (c : Char) (s : List Char) (h : c ∉ s) : rfindChar c s = none := by
  induction s with
  | nil => rfl
  | cons d ds ih =>
    simp only [List.mem_cons, not_or] at h
    simp only [rfindChar, ih h.2]
    rw [if_neg (fun e => h.1 e.symm)]

theorem rfindChar_append (c : Char) (pre t : List Char) (h : c ∉ t) :
    rfindChar c (pre ++ c :: t) = some pre.length := by
  induction pre with
  | nil => simp [rfindChar, rfindChar_none c t h]
  | cons d ds ih => simp [rfindChar, ih]

theorem rfindSub_le (pat : List Char) (s : List Char) :
    ∀ c, rfindSub pat s = some c → c + pat.length ≤ s.length := by
  induction s with
  | nil =>
    intro c h
    simp only [rfindSub] at h
    split at h
    · next hp =>
      cases h
      have : pat = [] := by simpa using hp
      simp [this]
    · cases h
  | cons d ds ih =>
    intro c h
    simp only [rfindSub] at h
    cases hr : rfindSub pat ds with
    | some i =>
      rw [hr] at h
      simp only [Option.some.injEq] at h
      have := ih i hr
      simp only [List.length_cons]
      omega
    | none =>
      rw [hr] at h
      simp only at h
      split at h
      · next hp =>
        cases h
        have := (List.isPrefixOf_iff_prefix.mp hp).length_le
        simpa using this
      · cases h

theorem rfindSub_append_self (pat pre : List Char) :
    rfindSub pat (pre ++ pat) = some pre.length := by
  induction pre with
  | nil =>
    cases pat with
    | nil => rfl
    | cons c cs =>
      have hnone : rfindSub (c :: cs) cs = none := by
        cases h : rfindSub (c :: cs) cs with
        | none => rfl
        | some i =>
          have := rfindSub_le (c :: cs) cs i h
          simp only [List.length_cons] at this
          omega
      simp only [List.nil_append, rfindSub, hnone, List.length_nil]
      rw [if_pos (List.isPrefixOf_iff_prefix.mpr (List.prefix_refl _))]
  | cons d ds ih => simp [rfindSub, ih]

theorem wrap_len_after (c s : Nat) (hc : c < 2 ^ 64) (hs : s < 2 ^ 64) (h : s < c) :
    ((c + 2 ^ 64 - s) % 2 ^ 64 + 2 ^ 64 - 1) % 2 ^ 64 = c - s - 1 := by omega

theorem wrap_len_before (c s : Nat) (hc : c < 2 ^ 64) (hs : s < 2 ^ 64) (h : c ≤ s) :
    ((c + 2 ^ 64 - s) % 2 ^ 64 + 2 ^ 64 - 1) % 2 ^ 64 = c + 2 ^ 64 - s - 1 := by omega

theorem npos_lt : npos < 2 ^ 64 := by
  unfold npos
  omega

theorem csvGraphName_no_slash (base : List Char) (hbase : '/' ∉ base)
    (hlen : (base ++ ".csv".data).length < 2 ^ 64) :
    csvGraphName (String.mk (base ++ ".csv".data)) = some (String.mk base) := by
  have hslash : rfindChar '/' (base ++ ".csv".data) = none := by
    apply rfindChar_none
    intro hm
    rcases List.mem_append.mp hm with h | h
    · exact hbase h
    · revert h; decide
  have hcsv := rfindSub_append_self ".csv".data base
  have hc : base.length < 2 ^ 64 := by
    simp only [List.length_append] at hlen
    omega
  unfold csvGraphName
  simp only [hslash, hcsv, Option.getD]
  have hstart : (npos + 1) % 2 ^ 64 = 0 := by rfl
  rw [hstart, wrap_len_before base.length npos hc npos_lt (by unfold npos; omega)]
  have hl : base.length + 2 ^ 64 - npos - 1 = base.length := by unfold npos; omega
  rw [hl]
  simp [substr]

theorem csvGraphName_slash (dir base : List Char) (hbase : '/' ∉ base)
    (hlen : (dir ++ '/' :: (base ++ ".csv".data)).length < 2 ^ 64) :
    csvGraphName (String.mk (dir ++ '/' :: (base ++ ".csv".data))) = some (String.mk base) := by
  have hslash : rfindChar '/' (dir ++ '/' :: (base ++ ".csv".data)) = some dir.length := by
    apply rfindChar_append
    intro hm
    rcases List.mem_append.mp hm with h | h
    · exact hbase h
    · revert h; decide
  have hcsv : rfindSub ".csv".data (dir ++ '/' :: (base ++ ".csv".data)) =
      some (dir.length + 1 + base.length) := by
    have h := rfindSub_append_self ".csv".data (dir ++ '/' :: base)
    simp only [List.append_assoc, List.cons_append, List.length_append, List.length_cons] at h
    rw [h]
    congr 1
    omega
  simp only [List.length_append, List.length_cons] at hlen
  unfold csvGraphName
  simp only [hslash, hcsv, Option.getD]
  rw [Nat.mod_eq_of_lt (by omega : dir.length + 1 < 2 ^ 64),
    wrap_len_after (dir.length + 1 + base.length) dir.length (by omega) (by omega) (by omega)]
  have hl : dir.length + 1 + base.length - dir.length - 1 = base.length := by omega
  rw [hl]
  have hdrop : (dir ++ '/' :: (base ++ ".csv".data)).drop (dir.length + 1) =
      base ++ ".csv".data := by
    have : dir ++ '/' :: (base ++ ".csv".data) = (dir ++ ['/']) ++ (base ++ ".csv".data) := by
      simp
    rw [this, List.drop_left' (by simp)]
  have hnot : ¬ dir.length + 1 > (dir ++ '/' :: (base ++ ".csv".data)).length := by
    simp only [List.length_append, List.length_cons]
    omega
  rw [substr, if_neg hnot, hdrop]
  simp

/-- C21, counterexample: the path `run.csv.bak` contains `.csv` and its base name has
the extension `.bak`; the graph is registered under `run`, the same name as for the
path `run.csv`, and the path `a.csvb` gives the name `a`. -/
theorem csvGraphName_cuts_at_last_csv :
    csvGraphName "run.csv.bak" = some "run" ∧ csvGraphName "a.csvb" = some "a" ∧
    ReadDataFromCSVFiles (fun _ => 0) [] ["run.csv.bak", "run.csv"] "A" =
      some [TObj.leaf "run_@_A" 0, TObj.leaf "run_@_A" 0] := by
  refine ⟨by rfl, by rfl, by rfl⟩

/-- C21, amended: for every path that is a base name without `/` followed by `.csv`,
alone or after a directory part that ends in `/`, and every source identifier,
`ReadDataFromCSVFiles` appends one graph named base name, separator, source identifier
to the output array and goes on with the next path; the start index and the length are
computed modulo `2^64`, also when the path has no `/` and `rfind` yields `npos`. A path
that does not contain `.csv` adds nothing. -/
theorem ReadDataFromCSVFiles_base_name (csvGraph : String → Nat) (out : List TObj)
    (pre base inputIdentifier : String) (rest : List String)
    (hpre : pre = "" ∨ ∃ dir : String, pre = dir ++ "/") (hbase : '/' ∉ base.data)
    (hlen : (pre ++ base ++ ".csv").length < 2 ^ 64) :
    csvGraphName (pre ++ base ++ ".csv") = some base ∧
    ReadDataFromCSVFiles csvGraph out ((pre ++ base ++ ".csv") :: rest) inputIdentifier =
      ReadDataFromCSVFiles csvGraph
        (out ++ [TObj.leaf (base ++ gNameGroupSeparator ++ inputIdentifier)
          (csvGraph (pre ++ base ++ ".csv"))]) rest inputIdentifier ∧
    ∀ path, containsStr path ".csv" = false →
      ReadDataFromCSVFiles csvGraph out (path :: rest) inputIdentifier =
        ReadDataFromCSVFiles csvGraph out rest inputIdentifier := by
  have hname : csvGraphName (pre ++ base ++ ".csv") = some base := by
    rcases hpre with h | ⟨dir, h⟩
    · subst h
      have hd : ("" ++ base ++ ".csv") = String.mk (base.data ++ ".csv".data) := by
        apply String.ext
        simp [String.data_append]
      rw [hd] at hlen ⊢
      exact csvGraphName_no_slash base.data hbase (by simpa using hlen)
    · subst h
      have hd : (dir ++ "/" ++ base ++ ".csv") =
          String.mk (dir.data ++ '/' :: (base.data ++ ".csv".data)) := by
        apply String.ext
        simp [String.data_append]
      rw [hd] at hlen ⊢
      exact csvGraphName_slash dir.data base.data hbase (by simpa using hlen)
  have hcontains : containsStr (pre ++ base ++ ".csv") ".csv" = true := by
    unfold containsStr
    have hd : (pre ++ base ++ ".csv").data = (pre.data ++ base.data) ++ (".csv".data ++ []) := by
      simp [String.data_append]
    rw [hd]
    exact hasSub_append_left _ _ _
  refine ⟨hname, ?_, ?_⟩
  · rw [ReadDataFromCSVFiles]
    simp only [hcontains, Bool.not_true, Bool.false_eq_true, if_false, hname]
  · intro path hpath
    rw [ReadDataFromCSVFiles]
    simp [hpath]

theorem ReadDataFromCSVFiles_base_name_witness :
    csvGraphName ("" ++ "data" ++ ".csv") = some "data" ∧
    csvGraphName ("dir/" ++ "data" ++ ".csv") = some "data" ∧
    ReadDataFromCSVFiles (fun _ => 3) [] (("dir/" ++ "data" ++ ".csv") :: ["notes.txt"]) "A" =
      ReadDataFromCSVFiles (fun _ => 3)
        ([] ++ [TObj.leaf ("data" ++ gNameGroupSeparator ++ "A")
          ((fun _ => 3) ("dir/" ++ "data" ++ ".csv"))]) ["notes.txt"] "A" :=
  ⟨(ReadDataFromCSVFiles_base_name (fun _ => 3) [] "" "data" "A" [] (Or.inl rfl)
      (by decide) (by decide)).1,
    (ReadDataFromCSVFiles_base_name (fun _ => 3) [] "dir/" "data" "A" ["notes.txt"]
      (Or.inr ⟨"dir", rfl⟩) (by decide) (by decide)).1,
    (ReadDataFromCSVFiles_base_name (fun _ => 3) [] "dir/" "data" "A" ["notes.txt"]
      (Or.inr ⟨"dir", rfl⟩) (by decide) (by decide)).2.1⟩

/-! ## Order of the candidate files -/

theorem readKeys_append (subSpec : String) (rest : List TKey) :
    ∀ (pre : List TKey) (st : ReadState), (readKeys subSpec pre st).dataNames ≠ [] →
      readKeys subSpec (pre ++ rest) st = readKeys subSpec rest (readKeys subSpec pre st)
  | [], st, _ => by rw [readKeys]; rfl
  | .mk keyName className obj :: more, st, h => by
    rw [List.cons_append, readKeys_cons]
    rw [readKeys_cons] at h ⊢
    split
    · next hread =>
      simp only [hread, if_true] at h
      split
      · next he =>
        simp only [he, if_true] at h
        exact absurd (by simpa using he) h
      · next he =>
        simp only [he, if_false] at h
        exact readKeys_append subSpec rest more _ (by simpa using h)
    · next hread =>
      simp only [hread, if_false] at h
      exact readKeys_append subSpec rest more st (by simpa using h)

theorem readItems_append (subSpec : String) (rest : List TObj) :
    ∀ (pre : List TObj) (st : ReadState), (readItems subSpec pre st).2.dataNames ≠ [] →
      readItems subSpec (pre ++ rest) st = readItems subSpec rest (readItems subSpec pre st).2
  | [], st, _ => by rw [readItems]; rfl
  | obj :: more, st, h => by
    rw [List.cons_append, readItems_cons]
    rw [readItems_cons] at h ⊢
    split
    · next he =>
      simp only [he, if_true] at h
      exact absurd (by simpa using he) h
    · next he =>
      simp only [he, if_false] at h
      exact readItems_append subSpec rest more _ (by simpa using h)

theorem readGuard_single (n u : String) (out : List TObj) :
    readGuard ⟨[n], [u], out⟩ = false := by
  simp [readGuard]

theorem matchLeaf_single (subSpec x u : String) (payload : Nat) (out : List TObj) :
    matchLeaf subSpec (.leaf x payload) ⟨[subSpec ++ x], [u], out⟩ =
      ⟨[], [], out ++ [.leaf u payload]⟩ := by
  simp [matchLeaf, TObj.GetName, TObj.SetName]

/-- C23, counterexample: the directory `P` has the direct leaf child `x` with content
`1`, and before it the directory `sub` that holds a leaf `x` with content `2`; for the
request `x` on `P`, and for the request `P/x` on the file that holds `P`, the object
placed in the output array is the nested leaf with content `2`. -/
theorem ReadData_takes_nested_leaf :
    (ReadData (.dir "P" false
        [.mk "sub" "TDirectoryFile" (.dir "sub" false [.mk "x" "TH1D" (.leaf "x" 2)] []),
          .mk "x" "TH1D" (.leaf "x" 1)] [])
      ⟨["P/x"], ["P/x_@_A"], []⟩).2 = ⟨[], [], [.leaf "P/x_@_A" 2]⟩ ∧
    ReadDataFromFiles shadowFile [] ["N.root"] ["P/x"] ["P/x_@_A"] =
      .completed ⟨[], [], [.leaf "P/x_@_A" 2]⟩ none := by
  constructor <;> rfl

/-- C23, amended: for a request `n` that is its prefix followed by the bare name `x`,
with new name `u`: when a directory has a key `x` that stores a leaf `x` and no key
before it holds a leaf named `x` at any depth, `ReadData` places the content of this
direct entry in the output array under the name `u`; the same holds for a leaf item `x`
of a collection when no item before it holds a leaf named `x` at any depth, and the
items after it stay in the collection. -/
theorem ReadData_direct_child (n x u className name : String) (isFile : Bool)
    (payload : Nat) (out : List TObj) (pre post : List TKey) (objs : List TObj)
    (preItems postItems : List TObj)
    (hbare : n = withSlash (subSpecOf n) ++ x)
    (hpre : ∀ z ∈ leafNamesKeys pre, z ≠ x)
    (hpreItems : ∀ z ∈ leafNamesItems preItems, z ≠ x) :
    (ReadData (.dir name isFile (pre ++ TKey.mk x className (.leaf x payload) :: post) objs)
      ⟨[n], [u], out⟩).2 = ⟨[], [], out ++ [.leaf u payload]⟩ ∧
    ReadData (.coll name (preItems ++ .leaf x payload :: postItems)) ⟨[n], [u], out⟩ =
      (.coll name postItems, ⟨[], [], out ++ [.leaf u payload]⟩) := by
  have hsub : readSubSpec [n] = withSlash (subSpecOf n) := rfl
  have hno : ∀ z, z ≠ x →
      readSubSpec (ReadState.mk [n] [u] out).dataNames ++ z ∉
        (ReadState.mk [n] [u] out).dataNames := by
    intro z hz hin
    simp only [List.mem_singleton] at hin
    rw [hsub] at hin
    rw [hbare] at hin
    have h2 : subSpecOf (withSlash (subSpecOf n) ++ x) = subSpecOf n := by rw [← hbare]
    rw [h2] at hin
    exact hz (string_append_left_cancel _ _ _ hin)
  have hmatch : matchLeaf (withSlash (subSpecOf n)) (.leaf x payload) ⟨[n], [u], out⟩ =
      ⟨[], [], out ++ [.leaf u payload]⟩ := by
    have := matchLeaf_single (withSlash (subSpecOf n)) x u payload out
    rw [← hbare] at this
    exact this
  constructor
  · rw [ReadData_dir, readGuard_single]
    simp only [Bool.false_eq_true, if_false]
    have hk := readKeys_nomatch pre ⟨[n], [u], out⟩ (fun z hz => hno z (hpre z hz))
    simp only at hk
    rw [readKeys_append _ _ pre _ (by rw [hk]; simp), hk, readKeys_cons, readStep_leaf]
    simp only [hsub, hmatch]
    have heq : withSlash (subSpecOf n) ++ x = n := hbare.symm
    simp [heq]
  · rw [ReadData_coll, readGuard_single]
    simp only [Bool.false_eq_true, if_false]
    have hk := readItems_nomatch preItems ⟨[n], [u], out⟩ (fun z hz => hno z (hpreItems z hz))
    simp only at hk
    rw [readItems_append _ _ preItems _ (by rw [hk]; simp), hk, readItems_cons, readStep_leaf]
    simp only [hsub, hmatch]
    simp

theorem ReadData_direct_child_witness :
    (ReadData (.dir "P" false
        ([.mk "other" "TH1D" (.leaf "other" 3)] ++ TKey.mk "x" "TH1D" (.leaf "x" 1) ::
          [.mk "sub" "TDirectoryFile" (.dir "sub" false [.mk "x" "TH1D" (.leaf "x" 2)] [])])
        [])
      ⟨["P/x"], ["P/x_@_A"], []⟩).2 = ⟨[], [], [] ++ [.leaf "P/x_@_A" 1]⟩ :=
  (ReadData_direct_child "P/x" "x" "P/x_@_A" "TH1D" "P" false 1 []
    [.mk "other" "TH1D" (.leaf "other" 3)]
    [.mk "sub" "TDirectoryFile" (.dir "sub" false [.mk "x" "TH1D" (.leaf "x" 2)] [])] []
    [] [] (by decide) (by decide) (by decide)).1

/-! ## Parallel request arrays -/

theorem parallel_of_rel {st st2 : ReadState} (hp : Parallel st) (hr : ReadRel st st2) :
    Parallel st2 := by
  obtain ⟨added, _, hlen, hs, _, _⟩ := hr
  exact ⟨hlen, (zip_sublist_snd _ _ _ _ hlen hp.1 hs).nodup hp.2⟩

theorem matchLeaf_par (subSpec : String) (obj : TObj) (st : ReadState) (hp : Parallel st)
    (hobj : (obj.isDirectory || obj.isCollection) = false) :
    ReadRel st (matchLeaf subSpec obj st) := by
  unfold matchLeaf
  by_cases hw : (subSpec ++ obj.GetName) ∈ st.dataNames
  · simp only [hw, if_true]
    obtain ⟨h1, h2, h3⟩ := erase_pair st.dataNames st.newDataNames hp.1 hp.2 _ hw
    have hne : st.newDataNames.isEmpty = false := by
      cases hn : st.newDataNames with
      | nil => rw [hn] at h1; cases h1
      | cons _ _ => rfl
    simp only [hne, Bool.not_false, if_true]
    refine ⟨[obj.SetName (st.newDataNames.getD (st.dataNames.indexOf (subSpec ++ obj.GetName)) "")],
      rfl, h2, h3, ?_, ?_⟩
    · have hname : ∀ (o : TObj) (n : String), (o.SetName n).GetName = n := by
        intro o n; cases o <;> rfl
      simp only [List.map_cons, List.map_nil, List.singleton_append, hname]
      exact (List.perm_cons_erase h1).symm
    · intro a ha
      simp only [List.mem_singleton] at ha
      subst ha
      cases obj <;> simp_all [TObj.SetName, TObj.isDirectory, TObj.isCollection]
  · simp only [hw, if_false]
    exact readRel_refl st hp.1

theorem readStep_par (subSpec : String) (obj : TObj) (st : ReadState) (hp : Parallel st)
    (hrec : ∀ s, Parallel s → ReadRel s (ReadData obj s).2) :
    ReadRel st (readStep subSpec obj st) := by
  unfold readStep
  cases h : (obj.isDirectory || obj.isCollection) with
  | true => simpa using hrec st hp
  | false => simpa using matchLeaf_par subSpec obj st hp h

mutual
theorem ReadData_par : ∀ (folder : TObj) (st : ReadState), Parallel st →
    ReadRel st (ReadData folder st).2
  | .leaf name payload, st, hp => by
    rw [ReadData_leaf]
    exact readRel_refl st hp.1
  | .coll name items, st, hp => by
    rw [ReadData_coll]
    split
    · exact readRel_refl st hp.1
    · exact readItems_par items _ st hp
  | .dir name isFile keys objs, st, hp => by
    rw [ReadData_dir]
    split
    · exact readRel_refl st hp.1
    · exact readKeys_par keys _ st hp
theorem readKeys_par : ∀ (keys : List TKey) (subSpec : String) (st : ReadState), Parallel st →
    ReadRel st (readKeys subSpec keys st)
  | [], subSpec, st, hp => by
    rw [readKeys]
    exact readRel_refl st hp.1
  | .mk keyName className obj :: rest, subSpec, st, hp => by
    rw [readKeys_cons]
    have h1 := readStep_par subSpec obj st hp (ReadData_par obj)
    split
    · split
      · exact h1
      · exact readRel_trans h1 (readKeys_par rest subSpec _ (parallel_of_rel hp h1))
    · exact readKeys_par rest subSpec st hp
theorem readItems_par : ∀ (items : List TObj) (subSpec : String) (st : ReadState), Parallel st →
    ReadRel st (readItems subSpec items st).2
  | [], subSpec, st, hp => by
    rw [readItems]
    exact readRel_refl st hp.1
  | obj :: rest, subSpec, st, hp => by
    rw [readItems_cons]
    have h1 := readStep_par subSpec obj st hp (ReadData_par obj)
    split
    · exact h1
    · exact readRel_trans h1 (readItems_par rest subSpec _ (parallel_of_rel hp h1))
end

/-- C24, counterexample: the arrays have equal length and the new name `u` occurs twice;
when the third request `c` is matched, the first `u` is erased from the new names, and
the remaining name `a` is paired with `v`, the rename target of `b`. -/
theorem ReadData_misaligns_equal_new_names :
    (ReadData (.coll "list" [.leaf "c" 1]) ⟨["a", "b", "c"], ["u", "v", "u"], []⟩).2 =
      ⟨["a", "b"], ["v", "u"], [.leaf "u" 1]⟩ := by
  rfl

/-- C24, amended: for every call of `ReadData` with request arrays of equal length whose
new names are pairwise distinct, after the call both arrays have equal length, the
sequence of remaining pairs of name and new name is the original sequence of pairs with
some pairs deleted, and the new names of the deleted pairs are the names of the objects
appended to the output array. -/
theorem ReadData_keeps_pairs (folder : TObj) (st : ReadState)
    (hlen : st.dataNames.length = st.newDataNames.length) (hnew : st.newDataNames.Nodup) :
    (ReadData folder st).2.dataNames.length = (ReadData folder st).2.newDataNames.length ∧
    ((ReadData folder st).2.dataNames.zip (ReadData folder st).2.newDataNames).Sublist
      (st.dataNames.zip st.newDataNames) ∧
    ∃ added : List TObj, (ReadData folder st).2.outputDataArray = st.outputDataArray ++ added ∧
      (added.map TObj.GetName ++ (ReadData folder st).2.newDataNames).Perm st.newDataNames := by
  obtain ⟨added, ho, hl, hs, hperm, -⟩ := ReadData_par folder st ⟨hlen, hnew⟩
  exact ⟨hl, hs, added, ho, hperm⟩

theorem ReadData_keeps_pairs_witness :
    ((ReadData (.coll "list" [.leaf "c" 1]) ⟨["a", "b", "c"], ["u", "v", "w"], []⟩).2.dataNames.zip
      (ReadData (.coll "list" [.leaf "c" 1])
        ⟨["a", "b", "c"], ["u", "v", "w"], []⟩).2.newDataNames).Sublist
      ((ReadState.mk ["a", "b", "c"] ["u", "v", "w"] []).dataNames.zip
        (ReadState.mk ["a", "b", "c"] ["u", "v", "w"] []).newDataNames) ∧
    (ReadData (.coll "list" [.leaf "c" 1]) ⟨["a", "b", "c"], ["u", "v", "w"], []⟩).2 =
      ⟨["a", "b"], ["u", "v"], [.leaf "w" 1]⟩ :=
  ⟨(ReadData_keeps_pairs (.coll "list" [.leaf "c" 1]) ⟨["a", "b", "c"], ["u", "v", "w"], []⟩
    rfl (by decide)).2.1, by rfl⟩

/-! ## The end of the loops of `ReadData` -/

/-- C26: the plot `p` is generated in the mode `interactive` and then again in the mode
`pdf`, or again with a painter that returns no canvas. The second call erases the
ledger entry of `p` and adds none, while the view history still holds the unique name
of `p`. When another plot is generated in the mode `interactive` afterwards, the
canvas of the preceding history entry is looked up, is not in the ledger, and the null
canvas is dereferenced. -/
theorem GeneratePlot_history_without_entry :
    GeneratePlot examplePainter [] PlotManager.init (Plot.create "p" "g" "default")
      "interactive" = some shownManager ∧
    GeneratePlot examplePainter [] shownManager (Plot.create "p" "g" "default") "pdf" =
      some savedManager ∧
    GeneratePlot (fun _ _ => none) [] shownManager (Plot.create "p" "g" "default")
      "interactive" = some failedManager ∧
    savedManager.mPlotViewHistory = ["p_@_g"] ∧
    hasKey savedManager.mPlotLedger "p_@_g" = false ∧
    failedManager.mPlotViewHistory = ["p_@_g"] ∧
    hasKey failedManager.mPlotLedger "p_@_g" = false ∧
    GeneratePlot examplePainter [] savedManager (Plot.create "q" "g" "default")
      "interactive" = none := by
  refine ⟨by rfl, by rfl, by rfl, by rfl, by rfl, by rfl, by rfl, by rfl⟩

/-! ## Dumping plots -/

theorem dumpKeeps_group (usedTemplates : List String) (figureGroup : String)
    (plotNames : List String) (plot : Plot) (hne : figureGroup ≠ "")
    (h : dumpKeeps usedTemplates figureGroup plotNames plot = true) :
    plot.figureGroup = figureGroup := by
  unfold dumpKeeps at h
  have hne2 : (figureGroup != "") = true := by simpa using hne
  simp only [hne2, if_true] at h
  split at h
  · cases h
  · split at h
    · cases h
    · next hg => simpa using hg

/-- C27: for every manager and every figure group filter that is neither empty nor
`TEMPLATES`, every plot that `DumpPlots` writes has the figure group of the filter, so
no template (whose figure group is `TEMPLATES`) is written, also when written plots
name it; with the empty filter every stored template that a stored plot names is
written; and with any filter no plot of the group `TEMPLATES` that no stored plot names
is written. -/
theorem DumpPlots_filter_drops_templates (m : PlotManager) (figureGroup : String)
    (plotNames : List String) (hne : figureGroup ≠ "") (hnt : figureGroup ≠ "TEMPLATES") :
    (∀ plot ∈ dumpedPlots m figureGroup plotNames,
      plot.figureGroup = figureGroup ∧ plot.figureGroup ≠ "TEMPLATES") ∧
    (∀ t ∈ m.mPlotTemplates, t.name ∈ usedTemplatesOf m.mPlots →
      t ∈ dumpedPlots m "" plotNames) ∧
    (∀ (g : String) (t : Plot), t.figureGroup = "TEMPLATES" →
      t.name ∉ usedTemplatesOf m.mPlots → t ∉ dumpedPlots m g plotNames) := by
  refine ⟨?_, ?_, ?_⟩
  · intro plot hp
    have hk := (List.mem_filter.mp hp).2
    have hg := dumpKeeps_group _ _ _ _ hne hk
    exact ⟨hg, by rw [hg]; exact hnt⟩
  · intro t ht hused
    apply List.mem_filter.mpr
    refine ⟨List.mem_append_left _ ht, ?_⟩
    unfold dumpKeeps
    simp [hused]
  · intro g t hg hunused hin
    have hk := (List.mem_filter.mp hin).2
    unfold dumpKeeps at hk
    simp [hg, hunused] at hk

theorem DumpPlots_filter_drops_templates_witness :
    (∀ plot ∈ dumpedPlots templateManager "g" [],
      plot.figureGroup = "g" ∧ plot.figureGroup ≠ "TEMPLATES") ∧
    (dumpedPlots templateManager "g" []).map Plot.name = ["p"] ∧
    (dumpedPlots templateManager "" []).map Plot.name = ["T1", "p"] ∧
    DumpPlots (fun plot => .node plot.name []) templateManager "g" [] =
      .node "" [("GROUP::g", .node "" [("PLOT::p_@_g", .node "p" [])])] ∧
    DumpPlots (fun plot => .node plot.name []) templateManager "" [] =
      .node "" [("GROUP::TEMPLATES", .node "" [("PLOT::T1_@_TEMPLATES", .node "T1" [])]),
        ("GROUP::g", .node "" [("PLOT::p_@_g", .node "p" [])])] :=
  ⟨(DumpPlots_filter_drops_templates templateManager "g" [] (by decide) (by decide)).1,
    by rfl, by rfl, by rfl, by rfl⟩

end PlottingFramework
